import Mathlib

/-!
# Kargo directives, commit selection and Freight helpers

A shallow embedding of `internal/directives` (registry.go, simple_engine_health.go,
git_pr_waiter.go, git_tree_clearer.go, yaml_updater.go, config.go) and of `internal/helpers`
(freight_helpers.go, annotations.go), of the promotion engine and the commit and tag
selection as the spec describes them, together with the properties proved about them.

Conventions of the embedding

* A Go `map[string]T` is a function `String → Option T`; writing a key yields a new map.
* A Go `error` is a value of `Error`; a Go `(T, error)` result is `Except Error T`, or a
  pair with an `Option Error` where the source returns both components.
* Everything outside the engine that a checker may read or change, including whether the
  `context.Context` handed to the engine is done, is a world of type `σ`, threaded explicitly.
* Library functions of Go that the code calls (`%q` formatting, `json.Marshal`) are parameters.
-/

set_option linter.dupNamespace false

namespace Kargo

/-! ## Values, state and errors -/

/-- A Go value of static type `any`, restricted to JSON-representable data. -/
inductive Any where
  | null
  | bool (b : Bool)
  | number (n : Int)
  | string (s : String)
  deriving DecidableEq, Repr

/-- The type `dirsdk.State`, a `map[string]any`, kept as an association list. A nil map is
`none` of `Option State`; `some []` is an empty, non-nil map. -/
abbrev State := List (String × Any)

/-- The type `dirsdk.Config`, a `map[string]any`. -/
abbrev Config := List (String × Any)

/-- Go `error` values as this package builds them. `errorf` is `fmt.Errorf` or `errors.New`
with the formatted text; `wrapf` is `fmt.Errorf` with a `%w` verb (the text is the complete
formatted message, `err` the wrapped error); `terminalError` is `&terminalError{err: err}`. -/
inductive Error where
  | errorf (msg : String)
  | wrapf (msg : String) (err : Error)
  | terminalError (err : Error)
  deriving DecidableEq, Repr

/-- The method `Error()` of an error. The marker type `terminalError` is declared outside the
sources; its text is taken to be the text of the error it wraps. -/
def Error.Error : Error → String
  | .errorf msg => msg
  | .wrapf msg _ => msg
  | .terminalError err => err.Error

/-! ## Health states -/

/-- Modelled from the spec: `kargoapi.HealthState` is declared in `api/v1alpha1`, outside the
sources. Section 3 of the spec lists the states Healthy, Unhealthy, Unknown and Degraded. -/
inductive HealthState where
  | Healthy
  | Unhealthy
  | Unknown
  | Degraded
  deriving DecidableEq, Repr

/-- Modelled from the spec: `HealthState.Merge` is declared in `api/v1alpha1`, outside the
sources. Section 3: "merge(a,b) = the more severe of the two under a fixed severity ranking".
The spec does not give the ranking, so it is the parameter `rank`. -/
def HealthState.Merge (rank : HealthState → Nat) (h other : HealthState) : HealthState :=
  if rank other < rank h then h else other

/-! ## Step types of `pkg/directives` (fields as the sources use them) -/

/-- Promotion phases named by the sources (`kargoapi.PromotionPhase*`). -/
inductive PromotionPhase where
  | Running
  | Succeeded
  | Failed
  | Errored
  deriving DecidableEq, Repr

/-- An opaque handle for a `client.Client`. -/
abbrev Client := Nat

/-- The type `credentials.Credentials`. -/
structure Credentials where
  Username : String
  Password : String
  SSHPrivateKey : String
  deriving DecidableEq, Repr

/-- The interface `credentials.Database`: `Get(ctx, namespace, credType, repoURL)` returns
the credentials, whether any were found, and an error. -/
structure CredentialsDB where
  Get : String → String → String → Except Error (Credentials × Bool)

/-- The values a `context.Context` carries for this package (`contextWith*` in context.go).
Whether the context is done is not stored here: it is read from the world. -/
structure Context where
  kargoClient : Option Client
  argoCDClient : Option Client
  credentialsDB : Option CredentialsDB

/-- Function `contextWithKargoClient`. A nil client is stored as a nil value. -/
def contextWithKargoClient (ctx : Context) (kargoClient : Option Client) : Context :=
  { ctx with kargoClient := kargoClient }

/-- Function `contextWithArgocdClient`. -/
def contextWithArgocdClient (ctx : Context) (argoCDClient : Option Client) : Context :=
  { ctx with argoCDClient := argoCDClient }

/-- Function `contextWithCredentialsDB`. -/
def contextWithCredentialsDB (ctx : Context) (credentialsDB : Option CredentialsDB) : Context :=
  { ctx with credentialsDB := credentialsDB }

/-- Function `credentialsDBFromContext`: nil when the context carries no database. -/
def credentialsDBFromContext (ctx : Context) : Option CredentialsDB :=
  ctx.credentialsDB

/-- The type `dirsdk.PromotionStepContext`. -/
structure PromotionStepContext where
  WorkDir : String
  Project : String
  Stage : String
  Config : Config
  deriving DecidableEq, Repr

/-- The type `dirsdk.PromotionStepResult`. -/
structure PromotionStepResult where
  Status : PromotionPhase
  Output : Option State
  deriving DecidableEq, Repr

/-- The type `dirsdk.HealthCheckContext`. -/
structure HealthCheckContext where
  Project : String
  Stage : String
  deriving DecidableEq, Repr

/-- The type `dirsdk.HealthCheckStep`. -/
structure HealthCheckStep where
  Kind : String
  Config : Config
  deriving DecidableEq, Repr

/-- The type `dirsdk.HealthCheckStepContext`. -/
structure HealthCheckStepContext where
  Config : Config
  Project : String
  Stage : String
  deriving DecidableEq, Repr

/-- The type `dirsdk.HealthCheckStepResult`. -/
structure HealthCheckStepResult where
  Status : HealthState
  Issues : List String
  Output : Option State
  deriving DecidableEq, Repr

/-! ## The directive registry (registry.go) -/

/-- A registered directive: a value behind the `Promoter` interface. `name` is what `Name()`
returns. `CheckHealth` is `some f` exactly when the dynamic type also has the method
`CheckHealth`, that is, when the type assertion `directive.(HealthChecker)` succeeds. A call
reads and may change the world `σ`. -/
structure Directive (σ : Type) where
  name : String
  Promote : Context → PromotionStepContext → σ → (Option PromotionStepResult × Option Error) × σ
  CheckHealth : Option (Context → HealthCheckStepContext → σ → HealthCheckStepResult × σ)

/-- The interface `HealthChecker`: the directive that passed the type assertion, with its
`CheckHealth` method. -/
structure HealthChecker (σ : Type) where
  directive : Directive σ
  CheckHealth : Context → HealthCheckStepContext → σ → HealthCheckStepResult × σ

/-- The type `directivesRegistry`, a `map[string]Promoter`. -/
abbrev directivesRegistry (σ : Type) := String → Option (Directive σ)

/-- The composite literal `directivesRegistry{}`. -/
def directivesRegistry.empty (σ : Type) : directivesRegistry σ := fun _ => none

/-- Method `directivesRegistry.register`: `d[directive.Name()] = directive`. -/
def directivesRegistry.register {σ : Type} (d : directivesRegistry σ)
    (directive : Directive σ) : directivesRegistry σ :=
  fun key => if key = directive.name then some directive else d key

/-- The error `fmt.Errorf("directive %q not found", name)`. -/
def errNotFound (quote : String → String) (name : String) : Error :=
  .errorf ("directive " ++ quote name ++ " not found")

/-- The error `fmt.Errorf("directive %q does not implement HealthChecker", name)`. -/
def errNotHealthChecker (quote : String → String) (name : String) : Error :=
  .errorf ("directive " ++ quote name ++ " does not implement HealthChecker")

/-- Method `directivesRegistry.GetPromoter`. `quote` is the `%q` verb of Go. -/
def directivesRegistry.GetPromoter {σ : Type} (quote : String → String)
    (d : directivesRegistry σ) (name : String) : Except Error (Directive σ) :=
  match d name with
  | none => .error (errNotFound quote name)
  | some promoter => .ok promoter

/-- Method `directivesRegistry.GetHealthChecker`. -/
def directivesRegistry.GetHealthChecker {σ : Type} (quote : String → String)
    (d : directivesRegistry σ) (name : String) : Except Error (HealthChecker σ) :=
  match d name with
  | none => .error (errNotFound quote name)
  | some directive =>
    match directive.CheckHealth with
    | none => .error (errNotHealthChecker quote name)
    | some check => .ok ⟨directive, check⟩

/-! ## The health-check engine (simple_engine_health.go) -/

/-- The type `SimpleEngine`, with the fields the sources use. -/
structure SimpleEngine (σ : Type) where
  registry : directivesRegistry σ
  credentialsDB : Option CredentialsDB
  kargoClient : Option Client
  argoCDClient : Option Client

/-- The world an engine run is threaded through. `env` is everything outside the engine,
as the checkers see it; `calls` is a ghost log, the kinds of the steps whose `CheckHealth`
method has been invoked so far, oldest first. Checkers act on `env` only. -/
structure World (σ : Type) where
  env : σ
  calls : List String

/-- Method `SimpleEngine.prepareHealthCheckStepContext`. `DeepCopy` of a value is the value. -/
def SimpleEngine.prepareHealthCheckStepContext {σ : Type} (e : SimpleEngine σ) (ctx : Context)
    (healthCtx : HealthCheckContext) (step : HealthCheckStep) :
    Context × HealthCheckStepContext :=
  let stepCtx : HealthCheckStepContext :=
    { Config := step.Config, Project := healthCtx.Project, Stage := healthCtx.Stage }
  let ctx := contextWithKargoClient ctx e.kargoClient
  let ctx := contextWithArgocdClient ctx e.argoCDClient
  let ctx := contextWithCredentialsDB ctx e.credentialsDB
  (ctx, stepCtx)

/-- The issue text
`fmt.Sprintf("no HealthChecker registered for health check kind %q: %s", kind, err.Error())`. -/
def noHealthCheckerIssue (quote : String → String) (kind : String) (err : Error) : String :=
  "no HealthChecker registered for health check kind " ++ quote kind ++ ": " ++ err.Error

/-- Method `SimpleEngine.executeHealthCheck`: one step. The checker call is the only place
where the world changes; it is also where the ghost log grows. -/
def SimpleEngine.executeHealthCheck {σ : Type} (quote : String → String) (e : SimpleEngine σ)
    (ctx : Context) (healthCtx : HealthCheckContext) (step : HealthCheckStep) (w : World σ) :
    HealthCheckStepResult × World σ :=
  match e.registry.GetHealthChecker quote step.Kind with
  | .error err =>
    ({ Status := .Unknown, Issues := [noHealthCheckerIssue quote step.Kind err], Output := none }, w)
  | .ok healthChecker =>
    let args := e.prepareHealthCheckStepContext ctx healthCtx step
    let r := healthChecker.CheckHealth args.1 args.2 w.env
    (r.1, { env := r.2, calls := w.calls ++ [step.Kind] })

/-- The three accumulators of `executeHealthChecks`, which are also its three results. -/
structure HealthAggregate where
  status : HealthState
  issues : List String
  output : List State
  deriving DecidableEq, Repr

/-- The accumulators after a step returned `result`: the body of the loop after the call. -/
def HealthAggregate.add (rank : HealthState → Nat) (acc : HealthAggregate)
    (result : HealthCheckStepResult) : HealthAggregate :=
  { status := acc.status.Merge rank result.Status
    issues := acc.issues ++ result.Issues
    output := match result.Output with
      | some out => acc.output ++ [out]
      | none => acc.output }

/-- The `for _, step := range steps` loop of `executeHealthChecks`. `ctxErr env` is `none`
while `ctx.Done()` is open and `some (ctx.Err().Error())` once the context is done. -/
def SimpleEngine.executeHealthChecksLoop {σ : Type} (rank : HealthState → Nat)
    (quote : String → String) (ctxErr : σ → Option String) (e : SimpleEngine σ) (ctx : Context)
    (healthCtx : HealthCheckContext) :
    List HealthCheckStep → HealthAggregate → World σ → HealthAggregate × World σ
  | [], acc, w => (acc, w)
  | step :: rest, acc, w =>
    match ctxErr w.env with
    | some err =>
      ({ status := acc.status.Merge rank .Unknown
         issues := acc.issues ++ [err]
         output := acc.output }, w)
    | none =>
      let r := e.executeHealthCheck quote ctx healthCtx step w
      SimpleEngine.executeHealthChecksLoop rank quote ctxErr e ctx healthCtx rest
        (acc.add rank r.1) r.2

/-- Method `SimpleEngine.executeHealthChecks`. -/
def SimpleEngine.executeHealthChecks {σ : Type} (rank : HealthState → Nat)
    (quote : String → String) (ctxErr : σ → Option String) (e : SimpleEngine σ) (ctx : Context)
    (healthCtx : HealthCheckContext) (steps : List HealthCheckStep) (w : World σ) :
    HealthAggregate × World σ :=
  e.executeHealthChecksLoop rank quote ctxErr ctx healthCtx steps
    { status := .Healthy, issues := [], output := [] } w

/-- The type `apiextensionsv1.JSON`; the bytes of `Raw` are kept as text, nil being empty. -/
structure JSON where
  Raw : String
  deriving DecidableEq, Repr

/-- The type `kargoapi.Health`, with the fields the sources set. -/
structure Health where
  Status : HealthState
  Issues : List String
  Output : Option JSON
  deriving DecidableEq, Repr

/-- Method `SimpleEngine.CheckHealth`. `marshal` is `json.Marshal` on a `[]dirsdk.State`. -/
def SimpleEngine.CheckHealth {σ : Type} (rank : HealthState → Nat) (quote : String → String)
    (ctxErr : σ → Option String) (marshal : List State → Except Error String)
    (e : SimpleEngine σ) (ctx : Context) (healthCtx : HealthCheckContext)
    (steps : List HealthCheckStep) (w : World σ) : Health × World σ :=
  let r := e.executeHealthChecks rank quote ctxErr ctx healthCtx steps w
  if r.1.output.length = 0 then
    ({ Status := r.1.status, Issues := r.1.issues, Output := none }, r.2)
  else
    match marshal r.1.output with
    | .ok b => ({ Status := r.1.status, Issues := r.1.issues, Output := some ⟨b⟩ }, r.2)
    | .error err =>
      ({ Status := r.1.status
         Issues := r.1.issues ++ ["failed to marshal health output: " ++ err.Error]
         Output := some ⟨""⟩ }, r.2)

/-! ### Reference run: what each step does when the engine gets to it -/

/-- For each step of the list, the world in which the engine starts it and the result
`executeHealthCheck` gives there, assuming the engine gets to every step. -/
def SimpleEngine.stepRun {σ : Type} (quote : String → String) (e : SimpleEngine σ)
    (ctx : Context) (healthCtx : HealthCheckContext) :
    List HealthCheckStep → World σ → List (World σ × HealthCheckStepResult)
  | [], _ => []
  | step :: rest, w =>
    let r := e.executeHealthCheck quote ctx healthCtx step w
    (w, r.1) :: SimpleEngine.stepRun quote e ctx healthCtx rest r.2

/-- The world after every step of the list has been executed. -/
def SimpleEngine.worldAfter {σ : Type} (quote : String → String) (e : SimpleEngine σ)
    (ctx : Context) (healthCtx : HealthCheckContext) :
    List HealthCheckStep → World σ → World σ
  | [], w => w
  | step :: rest, w =>
    SimpleEngine.worldAfter quote e ctx healthCtx rest
      (e.executeHealthCheck quote ctx healthCtx step w).2

/-- The steps the engine executes: those it starts while the context is not done. -/
def SimpleEngine.executedRun {σ : Type} (quote : String → String) (ctxErr : σ → Option String)
    (e : SimpleEngine σ) (ctx : Context) (healthCtx : HealthCheckContext)
    (steps : List HealthCheckStep) (w : World σ) : List (World σ × HealthCheckStepResult) :=
  (e.stepRun quote ctx healthCtx steps w).takeWhile (fun p => (ctxErr p.1.env).isNone)

/-! ## The pull-request waiter (git_pr_waiter.go) -/

/-- The type `builtins.GitWaitForPRConfig`, with the fields the sources read. -/
structure GitWaitForPRConfig where
  InsecureSkipTLSVerify : Bool
  PRNumber : Int
  Provider : Option String
  RepoURL : String
  deriving DecidableEq, Repr

/-- The type `git.RepoCredentials`. -/
structure RepoCredentials where
  Username : String
  Password : String
  SSHPrivateKey : String
  deriving DecidableEq, Repr

/-- The type `gitprovider.Options`; a field never assigned keeps its zero value. -/
structure GitProviderOptions where
  Name : String
  Token : String
  InsecureSkipTLSVerify : Bool
  deriving DecidableEq, Repr

/-- The type `gitprovider.PullRequest`, with the fields the sources read. -/
structure PullRequest where
  Open : Bool
  Merged : Bool
  MergeCommitSHA : String
  deriving DecidableEq, Repr

/-- The interface `gitprovider.Interface`: `GetPullRequest(ctx, number)`. -/
structure GitProvider where
  GetPullRequest : Int → Except Error PullRequest

/-- Method `gitPRWaiter.Name`. -/
def gitPRWaiter.Name : String := "git-wait-for-pr"

/-- The block of `gitPRWaiter.wait` that builds `gpOpts` from the config and the result of
the credentials lookup: the token is the password of the credentials when some were found,
the provider name is set when the config names a provider. -/
def gitPRWaiter.gpOpts (cfg : GitWaitForPRConfig) (creds : Credentials) (found : Bool) :
    GitProviderOptions :=
  let repoCreds : Option RepoCredentials :=
    if found then
      some { Username := creds.Username, Password := creds.Password,
             SSHPrivateKey := creds.SSHPrivateKey }
    else none
  let gpOpts : GitProviderOptions :=
    { Name := "", Token := "", InsecureSkipTLSVerify := cfg.InsecureSkipTLSVerify }
  let gpOpts : GitProviderOptions :=
    match repoCreds with
    | some rc => { gpOpts with Token := rc.Password }
    | none => gpOpts
  match cfg.Provider with
  | some provider => { gpOpts with Name := provider }
  | none => gpOpts

/-- Method `gitPRWaiter.wait`. The constants `stateKeyCommit` and `credentials.TypeGit` and the
function `gitprovider.New` are declared outside the sources and are parameters. The result is
`none` when the call panics, which it does on a context without a credentials database. -/
def gitPRWaiter.wait (stateKeyCommit : String) (typeGit : String)
    (newProvider : String → GitProviderOptions → Except Error GitProvider)
    (ctx : Context) (stepCtx : PromotionStepContext) (cfg : GitWaitForPRConfig) :
    Option (PromotionStepResult × Option Error) :=
  match credentialsDBFromContext ctx with
  | none => none
  | some credsDB =>
    match credsDB.Get stepCtx.Project typeGit cfg.RepoURL with
    | .error err =>
      some ({ Status := .Errored, Output := none },
        some (.wrapf ("error getting credentials for " ++ cfg.RepoURL ++ ": " ++ err.Error) err))
    | .ok (creds, found) =>
      match newProvider cfg.RepoURL (gitPRWaiter.gpOpts cfg creds found) with
      | .error err =>
        some ({ Status := .Errored, Output := none },
          some (.wrapf ("error creating git provider service: " ++ err.Error) err))
      | .ok gitProv =>
        match gitProv.GetPullRequest cfg.PRNumber with
        | .error err =>
          some ({ Status := .Errored, Output := none },
            some (.wrapf ("error getting pull request " ++ toString cfg.PRNumber ++ ": "
              ++ err.Error) err))
        | .ok pr =>
          if pr.Open then
            some ({ Status := .Running, Output := none }, none)
          else if !pr.Merged then
            some ({ Status := .Failed, Output := none },
              some (.terminalError (.errorf ("pull request " ++ toString cfg.PRNumber
                ++ " was closed without being merged"))))
          else
            some ({ Status := .Succeeded,
                    Output := some [(stateKeyCommit, .string pr.MergeCommitSHA)] }, none)

/-! ## Terminal errors -/

/-- Modelled from the spec: the predicate `isTerminal` is declared outside the sources.
Section 9 describes "a marker type wrapped around a plain error", probed by the engine; as
with `errors.As`, the probe looks through the errors wrapped with `%w`. -/
def isTerminal : Error → Bool
  | .errorf _ => false
  | .wrapf _ err => isTerminal err
  | .terminalError _ => true

/-! ## Step configuration (config.go) and the `Promote` methods -/

/-- Function `ConfigToStruct`: the config is marshalled to JSON and the JSON unmarshalled
into the typed structure. `marshal` is `json.Marshal` on a config and `unmarshal` is
`json.Unmarshal` into the type `T`. -/
def ConfigToStruct {T : Type} (marshal : Config → Except Error String)
    (unmarshal : String → Except Error T) (c : Config) : Except Error T :=
  match marshal c with
  | .error err => .error err
  | .ok jsonData =>
    match unmarshal jsonData with
    | .error err => .error err
    | .ok result => .ok result

/-- Method `gitPRWaiter.Promote`. `validate` is the method `validate` of the waiter, the
schema validation of the config, which is declared outside the sources. -/
def gitPRWaiter.Promote (validate : Config → Option Error)
    (marshal : Config → Except Error String)
    (unmarshal : String → Except Error GitWaitForPRConfig)
    (stateKeyCommit : String) (typeGit : String)
    (newProvider : String → GitProviderOptions → Except Error GitProvider)
    (ctx : Context) (stepCtx : PromotionStepContext) :
    Option (PromotionStepResult × Option Error) :=
  match validate stepCtx.Config with
  | some err => some ({ Status := .Errored, Output := none }, some err)
  | none =>
    match ConfigToStruct marshal unmarshal stepCtx.Config with
    | .error err =>
      some ({ Status := .Errored, Output := none },
        some (.wrapf ("could not convert config into git-wait-for-pr config: " ++ err.Error)
          err))
    | .ok cfg => gitPRWaiter.wait stateKeyCommit typeGit newProvider ctx stepCtx cfg

/-! ## Steps that act on files (git_tree_clearer.go, yaml_updater.go) -/

/-- The type `intyaml.Update`. -/
structure Update where
  Key : String
  Value : String
  deriving DecidableEq, Repr

/-- An operation on a work tree or on a file, as recorded in the ghost log of `Files`. -/
inductive FileOp where
  | LoadWorkTree (path : String)
  | AddAll (path : String)
  | Clear (path : String)
  | SetStringsInFile (file : String) (updates : List Update)
  deriving DecidableEq, Repr

/-- The world of the steps that act on files. `env` is the file system and the work trees in
it; `ops` is a ghost log, the operations performed so far, oldest first. -/
structure Files (σ : Type) where
  env : σ
  ops : List FileOp

/-- The interface `git.WorkTree`, with the methods the sources call. -/
structure WorkTree (σ : Type) where
  AddAll : σ → Option Error × σ
  Clear : σ → Option Error × σ

/-- The type `builtins.GitClearConfig`. -/
structure GitClearConfig where
  Path : String
  deriving DecidableEq, Repr

/-- Method `gitTreeClearer.Name`. -/
def gitTreeClearer.Name : String := "git-clear"

/-- Method `gitTreeClearer.clear`. `secureJoin` is `securejoin.SecureJoin`, which reads the
file system, and `loadWorkTree` is `git.LoadWorkTree(p, nil)`; both are declared outside the
sources. -/
def gitTreeClearer.clear {σ : Type} (secureJoin : String → String → σ → Except Error String)
    (loadWorkTree : String → σ → Except Error (WorkTree σ))
    (stepCtx : PromotionStepContext) (cfg : GitClearConfig) (w : Files σ) :
    (PromotionStepResult × Option Error) × Files σ :=
  match secureJoin stepCtx.WorkDir cfg.Path w.env with
  | .error err =>
    (({ Status := .Errored, Output := none },
      some (.wrapf ("error joining path " ++ cfg.Path ++ " with work dir " ++ stepCtx.WorkDir
        ++ ": " ++ err.Error) err)), w)
  | .ok p =>
    match loadWorkTree p w.env with
    | .error err =>
      (({ Status := .Errored, Output := none },
        some (.wrapf ("error loading working tree from " ++ cfg.Path ++ ": " ++ err.Error)
          err)), { env := w.env, ops := w.ops ++ [.LoadWorkTree p] })
    | .ok workTree =>
      let added := workTree.AddAll w.env
      match added.1 with
      | some err =>
        (({ Status := .Errored, Output := none },
          some (.wrapf ("error adding all files to working tree at " ++ cfg.Path ++ ": "
            ++ err.Error) err)),
          { env := added.2, ops := w.ops ++ [.LoadWorkTree p, .AddAll p] })
      | none =>
        let cleared := workTree.Clear added.2
        match cleared.1 with
        | some err =>
          (({ Status := .Errored, Output := none },
            some (.wrapf ("error clearing working tree at " ++ cfg.Path ++ ": "
              ++ err.Error) err)),
            { env := cleared.2, ops := w.ops ++ [.LoadWorkTree p, .AddAll p, .Clear p] })
        | none =>
          (({ Status := .Succeeded, Output := none }, none),
            { env := cleared.2, ops := w.ops ++ [.LoadWorkTree p, .AddAll p, .Clear p] })

/-- Method `gitTreeClearer.Promote`. -/
def gitTreeClearer.Promote {σ : Type} (validate : Config → Option Error)
    (marshal : Config → Except Error String)
    (unmarshal : String → Except Error GitClearConfig)
    (secureJoin : String → String → σ → Except Error String)
    (loadWorkTree : String → σ → Except Error (WorkTree σ))
    (stepCtx : PromotionStepContext) (w : Files σ) :
    (PromotionStepResult × Option Error) × Files σ :=
  match validate stepCtx.Config with
  | some err => (({ Status := .Errored, Output := none }, some err), w)
  | none =>
    match ConfigToStruct marshal unmarshal stepCtx.Config with
    | .error err =>
      (({ Status := .Errored, Output := none },
        some (.wrapf ("could not convert config into " ++ gitTreeClearer.Name ++ " config: "
          ++ err.Error) err)), w)
    | .ok cfg => gitTreeClearer.clear secureJoin loadWorkTree stepCtx cfg w

/-- The type `builtins.YAMLUpdate`. -/
structure YAMLUpdate where
  Key : String
  Value : String
  deriving DecidableEq, Repr

/-- The type `builtins.YAMLUpdateConfig`. -/
structure YAMLUpdateConfig where
  Path : String
  Updates : List YAMLUpdate
  deriving DecidableEq, Repr

/-- Method `yamlUpdater.Name`. -/
def yamlUpdater.Name : String := "yaml-update"

/-- Method `yamlUpdater.updateFile`. `setStringsInFile` is `intyaml.SetStringsInFile`,
declared outside the sources. -/
def yamlUpdater.updateFile {σ : Type} (quote : String → String)
    (secureJoin : String → String → σ → Except Error String)
    (setStringsInFile : String → List Update → σ → Option Error × σ)
    (workDir : String) (path : String) (updates : List Update) (w : Files σ) :
    Option Error × Files σ :=
  match secureJoin workDir path w.env with
  | .error err =>
    (some (.wrapf ("error joining path " ++ quote path ++ ": " ++ err.Error) err), w)
  | .ok absValuesFile =>
    let written := setStringsInFile absValuesFile updates w.env
    match written.1 with
    | some err =>
      (some (.wrapf ("error updating image references in values file " ++ quote path ++ ": "
        ++ err.Error) err),
        { env := written.2, ops := w.ops ++ [.SetStringsInFile absValuesFile updates] })
    | none =>
      (none, { env := written.2, ops := w.ops ++ [.SetStringsInFile absValuesFile updates] })

/-- Method `yamlUpdater.generateCommitMessage`: the text the `strings.Builder` holds. -/
def yamlUpdater.generateCommitMessage (quote : String → String) (path : String)
    (updates : List YAMLUpdate) : String :=
  if updates.length = 0 then ""
  else
    updates.foldl (fun commitMsg update =>
      commitMsg ++ ("\n- " ++ update.Key ++ ": " ++ quote update.Value))
      ("Updated " ++ path ++ "\n")

/-- Method `yamlUpdater.update`. -/
def yamlUpdater.update {σ : Type} (quote : String → String)
    (secureJoin : String → String → σ → Except Error String)
    (setStringsInFile : String → List Update → σ → Option Error × σ)
    (stepCtx : PromotionStepContext) (cfg : YAMLUpdateConfig) (w : Files σ) :
    (PromotionStepResult × Option Error) × Files σ :=
  let updates : List Update :=
    cfg.Updates.map (fun update => { Key := update.Key, Value := update.Value })
  if 0 < updates.length then
    let updated := yamlUpdater.updateFile quote secureJoin setStringsInFile stepCtx.WorkDir
      cfg.Path updates w
    match updated.1 with
    | some err =>
      (({ Status := .Errored, Output := none },
        some (.wrapf ("values file update failed: " ++ err.Error) err)), updated.2)
    | none =>
      let commitMsg := yamlUpdater.generateCommitMessage quote cfg.Path cfg.Updates
      if commitMsg ≠ "" then
        (({ Status := .Succeeded, Output := some [("commitMessage", .string commitMsg)] },
          none), updated.2)
      else
        (({ Status := .Succeeded, Output := none }, none), updated.2)
  else
    (({ Status := .Succeeded, Output := none }, none), w)

/-- Method `yamlUpdater.Promote`. -/
def yamlUpdater.Promote {σ : Type} (validate : Config → Option Error)
    (marshal : Config → Except Error String)
    (unmarshal : String → Except Error YAMLUpdateConfig)
    (quote : String → String) (secureJoin : String → String → σ → Except Error String)
    (setStringsInFile : String → List Update → σ → Option Error × σ)
    (stepCtx : PromotionStepContext) (w : Files σ) :
    (PromotionStepResult × Option Error) × Files σ :=
  match validate stepCtx.Config with
  | some err => (({ Status := .Errored, Output := none }, some err), w)
  | none =>
    match ConfigToStruct marshal unmarshal stepCtx.Config with
    | .error err =>
      (({ Status := .Errored, Output := none },
        some (.wrapf ("could not convert config into " ++ yamlUpdater.Name ++ " config: "
          ++ err.Error) err)), w)
    | .ok cfg => yamlUpdater.update quote secureJoin setStringsInFile stepCtx cfg w

/-! ## The promotion step engine

The engine that runs promotion steps is not part of the sources; the definitions of this
section follow section 4.2 of the spec. -/

/-- Modelled from the spec: a promotion step, `{Kind, Config}` (section 3), the promotion
engine's input being declared outside the sources. -/
structure PromotionStep where
  Kind : String
  Config : Config
  deriving DecidableEq, Repr

/-- Modelled from the spec: the `PromotionContext` argument of `Execute` (section 4.2), which
is declared outside the sources: the identifiers and work directory that go into every step
context, and the shared State the promotion starts from. -/
structure PromotionContext where
  Project : String
  Stage : String
  WorkDir : String
  State : State
  deriving DecidableEq, Repr

/-- Modelled from the spec: the `PromotionResult` of `Execute` (section 4.2), which is declared
outside the sources: the overall phase and the shared State. -/
structure PromotionResult where
  Status : PromotionPhase
  State : State
  deriving DecidableEq, Repr

/-- Modelled from the spec: a directive implementation as the promotion engine uses it
(sections 3 and 6), the engine being outside the sources: `Name()`, `Promote(...)`, which is
given the step context and the shared State, and `DefaultErrorThreshold()`. `CheckConfig`
is the validation and conversion of the opaque config of step 3 of section 4.2. The timeout
of step 5 is real time and is not modelled: a deadline that is exceeded shows as an error
that `Promote` returns. -/
structure StepImplementation (σ : Type) where
  name : String
  CheckConfig : Config → Option Error
  Promote : Context → PromotionStepContext → State → σ →
    (PromotionStepResult × Option Error) × σ
  DefaultErrorThreshold : Nat

/-- Modelled from the spec: "A step's Output, if non-nil, is merged into the shared State"
(section 3), the engine being outside the sources. How two States merge is the
parameter `merge`. -/
def Execute.mergeOutput (merge : State → State → State) (state : State) :
    Option State → State
  | some out => merge state out
  | none => state

/-- Modelled from the spec: steps 5 and 6 of section 4.2 for one step, the engine being
outside the sources. The implementation is invoked; with no error its Output is merged into
the shared State and the engine advances (`.ok`), unless the status is not Succeeded, which
ends the promotion with that status; a terminal error ends the promotion as Failed; any
other error increments the consecutive-failure `counter`, and the step is retried with the
same config and State while the counter is below the threshold, the promotion being
abandoned as Failed once the counter reaches it. The ghost log records every invocation. -/
def Execute.attempt {σ : Type} (merge : State → State → State) (impl : StepImplementation σ)
    (ctx : Context) (stepCtx : PromotionStepContext) (state : State) (kind : String)
    (counter : Nat) (w : World σ) :
    Except (PromotionResult × Option Error) State × World σ :=
  let r := impl.Promote ctx stepCtx state w.env
  let w' : World σ := { env := r.2, calls := w.calls ++ [kind] }
  match r.1.2 with
  | none =>
    let state' := Execute.mergeOutput merge state r.1.1.Output
    if r.1.1.Status = .Succeeded then (.ok state', w')
    else (.error ({ Status := r.1.1.Status, State := state' }, none), w')
  | some err =>
    if isTerminal err then (.error ({ Status := .Failed, State := state }, some err), w')
    else if counter + 1 < impl.DefaultErrorThreshold then
      Execute.attempt merge impl ctx stepCtx state kind (counter + 1) w'
    else (.error ({ Status := .Failed, State := state }, some err), w')
termination_by impl.DefaultErrorThreshold - counter
decreasing_by omega

/-- Modelled from the spec: step 4 of section 4.2, the fresh step context built for a step,
the engine being outside the sources. The shared State is handed to `Promote` beside it. -/
def Execute.stepContext (promoCtx : PromotionContext) (step : PromotionStep) :
    PromotionStepContext :=
  { WorkDir := promoCtx.WorkDir, Project := promoCtx.Project, Stage := promoCtx.Stage,
    Config := step.Config }

/-- Modelled from the spec: the loop of `Execute` over the steps (section 4.2), the engine
being outside the sources. Before a step starts the context is checked for cancellation
(Errored with the cause); the implementation is resolved from the registry (Errored when
there is none) and the config is checked (Errored); then the step is attempted with a
consecutive-failure counter of zero. After the last step the result is Succeeded with the
final shared State. -/
def Execute.loop {σ : Type} (ctxErr : σ → Option String) (merge : State → State → State)
    (quote : String → String) (registry : String → Option (StepImplementation σ))
    (ctx : Context) (promoCtx : PromotionContext) :
    List PromotionStep → State → World σ → (PromotionResult × Option Error) × World σ
  | [], state, w => (({ Status := .Succeeded, State := state }, none), w)
  | step :: rest, state, w =>
    match ctxErr w.env with
    | some cause => (({ Status := .Errored, State := state }, some (.errorf cause)), w)
    | none =>
      match registry step.Kind with
      | none => (({ Status := .Errored, State := state }, some (errNotFound quote step.Kind)), w)
      | some impl =>
        match impl.CheckConfig step.Config with
        | some err => (({ Status := .Errored, State := state }, some err), w)
        | none =>
          let stepCtx := Execute.stepContext promoCtx step
          let r := Execute.attempt merge impl ctx stepCtx state step.Kind 0 w
          match r.1 with
          | .error result => (result, r.2)
          | .ok state' => Execute.loop ctxErr merge quote registry ctx promoCtx rest state' r.2

/-- Modelled from the spec: `Execute(ctx, PromotionContext, []Step)` of section 4.2, the
engine being outside the sources. -/
def Execute {σ : Type} (ctxErr : σ → Option String) (merge : State → State → State)
    (quote : String → String) (registry : String → Option (StepImplementation σ))
    (ctx : Context) (promoCtx : PromotionContext) (steps : List PromotionStep)
    (w : World σ) : (PromotionResult × Option Error) × World σ :=
  Execute.loop ctxErr merge quote registry ctx promoCtx steps promoCtx.State w

/-- The environment in which attempt number `i` (from zero) of a step starts, when the
first attempt starts in `env`: each attempt starts where the one before ended. -/
def attemptEnv {σ : Type} (impl : StepImplementation σ) (ctx : Context)
    (stepCtx : PromotionStepContext) (state : State) (i : Nat) (env : σ) : σ :=
  (fun e => (impl.Promote ctx stepCtx state e).2)^[i] env

/-! ## Commit and tag selection

The selector of the warehouse controller is not part of the sources, only its tests are;
the definitions of this section follow sections 4.4 and 4.5 of the spec. -/

/-- The test `strings.HasPrefix(s, pre)`. -/
def hasPrefix (s pre : String) : Bool := pre.data.isPrefixOf s.data

/-- The text `strings.TrimPrefix(s, pre)` for a text `s` that has the prefix `pre`. -/
def trimPrefix (s pre : String) : String := ⟨s.data.drop pre.data.length⟩

/-- Modelled from the spec: the dialect dispatch of section 4.5, the matcher being outside
the sources. A pattern with a regex prefix is compiled as a regular expression (its matcher
searches the path for a match), a pattern with the glob prefix is compiled as a shell glob
(its matcher tests the full path), and any other pattern is a literal prefix of the path.
`regexCompile` and `globCompile` are the library compilers, which fail on a malformed
pattern; `regexpPrefix`, `regexPrefix` and `globPrefix` are the constants the tests name
(the spec gives `regex:` and `glob:`). -/
def getPathSelector (regexpPrefix regexPrefix globPrefix : String)
    (regexCompile globCompile : String → Except Error (String → Bool))
    (pattern : String) : Except Error (String → Bool) :=
  if hasPrefix pattern regexpPrefix then regexCompile (trimPrefix pattern regexpPrefix)
  else if hasPrefix pattern regexPrefix then regexCompile (trimPrefix pattern regexPrefix)
  else if hasPrefix pattern globPrefix then globCompile (trimPrefix pattern globPrefix)
  else .ok (fun path => hasPrefix path pattern)

/-- Modelled from the spec: the selectors of a pattern list (section 4.5), the matcher being
outside the sources: "a compile error is surfaced immediately and aborts evaluation". -/
def getPathSelectors (regexpPrefix regexPrefix globPrefix : String)
    (regexCompile globCompile : String → Except Error (String → Bool)) :
    List String → Except Error (List (String → Bool))
  | [] => .ok []
  | pattern :: rest =>
    match getPathSelector regexpPrefix regexPrefix globPrefix regexCompile globCompile
        pattern with
    | .error err => .error err
    | .ok selector =>
      match getPathSelectors regexpPrefix regexPrefix globPrefix regexCompile globCompile
          rest with
      | .error err => .error err
      | .ok selectors => .ok (selector :: selectors)

/-- Modelled from the spec: whether a path satisfies at least one selector of a list
(section 4.5), the matcher being outside the sources. -/
def matchesPathSelector (selectors : List (String → Bool)) (path : String) : Bool :=
  selectors.any (fun selector => selector path)

/-- Modelled from the spec: the loop of `matchesPathsFilters` over the changed paths
(section 4.5), the matcher being outside the sources: the first path that is a match makes
the result true. -/
def matchesPathsFilters.loop (includeSelectors excludeSelectors : List (String → Bool)) :
    List String → Bool
  | [] => false
  | path :: rest =>
    if (includeSelectors.length = 0 ∨ matchesPathSelector includeSelectors path = true) ∧
        ¬ matchesPathSelector excludeSelectors path = true then true
    else matchesPathsFilters.loop includeSelectors excludeSelectors rest

/-- Modelled from the spec: `matches(includePatterns, excludePatterns, changedPaths)` of
section 4.5, which the tests call `matchesPathsFilters` and which is outside the sources. -/
def matchesPathsFilters (regexpPrefix regexPrefix globPrefix : String)
    (regexCompile globCompile : String → Except Error (String → Bool))
    (includePaths excludePaths diffs : List String) : Except Error Bool :=
  match getPathSelectors regexpPrefix regexPrefix globPrefix regexCompile globCompile
      includePaths with
  | .error err => .error err
  | .ok includeSelectors =>
    match getPathSelectors regexpPrefix regexPrefix globPrefix regexCompile globCompile
        excludePaths with
    | .error err => .error err
    | .ok excludeSelectors =>
      .ok (matchesPathsFilters.loop includeSelectors excludeSelectors diffs)

/-- A path satisfies a pattern when the pattern is well-formed and its selector accepts the
path. -/
def satisfiesPattern (regexpPrefix regexPrefix globPrefix : String)
    (regexCompile globCompile : String → Except Error (String → Bool))
    (pattern path : String) : Prop :=
  ∃ selector, getPathSelector regexpPrefix regexPrefix globPrefix regexCompile globCompile
    pattern = .ok selector ∧ selector path = true

/-- Modelled from the spec: `allows(tag, regex)` of the tests, outside the sources
(section 4.4, item 4): "no allow pattern is configured OR the tag matches the allow regular
expression". A compiled expression is its matcher; `none` is a nil expression. -/
def allows (tag : String) (allowRegex : Option (String → Bool)) : Bool :=
  match allowRegex with
  | none => true
  | some regex => regex tag

/-- Modelled from the spec: `ignores(tag, ignore)` of the tests, outside the sources
(section 4.4, item 4): the tag is "present in the ignore list". -/
def ignores (tag : String) (ignore : List String) : Bool :=
  ignore.any (fun ignored => decide (ignored = tag))

/-- Modelled from the spec: tag filtering (section 4.4, item 4), outside the sources: the
tags that are retained, in listing order. -/
def filterTags (tags : List String) (allowRegex : Option (String → Bool))
    (ignore : List String) : List String :=
  tags.filter (fun tag => allows tag allowRegex && !ignores tag ignore)

/-- Modelled from the spec: `selectLexicallyLastTag` of the tests, outside the sources
(section 4.4, Lexical): "the lexicographically greatest remaining tag string (plain string
ordering, not semantic)"; the empty text for an empty or nil list, as the tests have it. -/
def selectLexicallyLastTag : List String → String
  | [] => ""
  | tag :: rest => rest.foldl (fun best t => if best < t then t else best) tag

/-- Modelled from the spec: the semantic-version library that `selectSemverTag` uses
(section 4.4, SemVer), outside the sources: the parse of a tag as a version, the parse of a
constraint expression, and the precedence test between two versions. -/
structure Semver (V : Type) where
  newVersion : String → Option V
  newConstraint : String → Except Error (V → Bool)
  greaterThan : V → V → Bool

/-- Modelled from the spec: the tags that parse as a version satisfying the constraint, each
with its version (section 4.4, SemVer), outside the sources: "non-parseable tags are
silently skipped". -/
def semverCandidates {V : Type} (lib : Semver V) (constraint : Option (V → Bool))
    (tags : List String) : List (String × V) :=
  tags.filterMap (fun tag =>
    match lib.newVersion tag with
    | none => none
    | some sv =>
      match constraint with
      | none => some (tag, sv)
      | some check => if check sv then some (tag, sv) else none)

/-- Modelled from the spec: `selectSemverTag(tags, constraint)` of the tests, outside the
sources (section 4.4, SemVer): an unparsable constraint expression is a hard error;
otherwise the tag of highest precedence among the candidates, or the empty tag with no
error when there is no candidate. -/
def selectSemverTag {V : Type} (lib : Semver V) (tags : List String)
    (constraintStr : String) : Except Error String :=
  let parsed : Except Error (Option (V → Bool)) :=
    if constraintStr = "" then .ok none
    else
      match lib.newConstraint constraintStr with
      | .error err =>
        .error (.wrapf ("error parsing semver constraint " ++ constraintStr ++ ": "
          ++ err.Error) err)
      | .ok check => .ok (some check)
  match parsed with
  | .error err => .error err
  | .ok constraint =>
    match semverCandidates lib constraint tags with
    | [] => .ok ""
    | first :: rest =>
      .ok (rest.foldl (fun best c => if lib.greaterThan c.2 best.2 then c else best) first).1

/-! ## Freight identifiers (freight_helpers.go) -/

/-- The type `kargoapi.FreightOrigin`. -/
structure FreightOrigin where
  Kind : String
  Name : String
  deriving DecidableEq, Repr

/-- The type `kargoapi.GitCommit`, with the fields `GenerateID` reads. -/
structure GitCommit where
  RepoURL : String
  ID : String
  Tag : String
  deriving DecidableEq, Repr

/-- The type `kargoapi.Image`, with the fields `GenerateID` reads. -/
structure Image where
  RepoURL : String
  Tag : String
  Digest : String
  deriving DecidableEq, Repr

/-- The type `kargoapi.Chart`, with the fields `GenerateID` reads. -/
structure Chart where
  RepoURL : String
  Name : String
  Version : String
  deriving DecidableEq, Repr

/-- The type `kargoapi.Freight`, with the fields `GenerateID` reads. -/
structure Freight where
  Origin : FreightOrigin
  Commits : List GitCommit
  Images : List Image
  Charts : List Chart
  deriving DecidableEq, Repr

/-- The functions of other packages and of the Go library that `GenerateID` calls:
`git.NormalizeURL`, `helm.NormalizeChartRepositoryURL`, `path.Join`, the method
`FreightOrigin.String` and the hexadecimal SHA-1 digest of a text. -/
structure IDFunctions where
  normalizeURL : String → String
  normalizeChartRepositoryURL : String → String
  pathJoin : String → String → String
  originString : FreightOrigin → String
  sha1Hex : String → String

/-- The canonical representation of a commit in `GenerateID`: with the tag when there is
one. -/
def GenerateID.commitArtifact (fns : IDFunctions) (commit : GitCommit) : String :=
  if commit.Tag ≠ "" then
    fns.normalizeURL commit.RepoURL ++ ":" ++ commit.Tag ++ ":" ++ commit.ID
  else
    fns.normalizeURL commit.RepoURL ++ ":" ++ commit.ID

/-- The canonical representation of an image in `GenerateID`. -/
def GenerateID.imageArtifact (image : Image) : String :=
  image.RepoURL ++ ":" ++ image.Tag ++ "@" ++ image.Digest

/-- The canonical representation of a chart in `GenerateID`. -/
def GenerateID.chartArtifact (fns : IDFunctions) (chart : Chart) : String :=
  fns.pathJoin (fns.normalizeChartRepositoryURL chart.RepoURL) chart.Name ++ ":"
    ++ chart.Version

/-- The slice `artifacts` of `GenerateID` before it is sorted: commits, images, charts. -/
def GenerateID.artifacts (fns : IDFunctions) (f : Freight) : List String :=
  f.Commits.map (GenerateID.commitArtifact fns) ++ f.Images.map GenerateID.imageArtifact
    ++ f.Charts.map (GenerateID.chartArtifact fns)

/-- The text that `GenerateID` hashes: the origin, a colon, and the sorted artifacts joined
with a vertical bar. `slices.Sort` is a sort by the order of strings. -/
def GenerateID.hashed (fns : IDFunctions) (f : Freight) : String :=
  fns.originString f.Origin ++ ":" ++
    "|".intercalate ((GenerateID.artifacts fns f).insertionSort (fun a b => a ≤ b))

/-- Function `GenerateID`. -/
def GenerateID (fns : IDFunctions) (f : Freight) : String :=
  fns.sha1Hex (GenerateID.hashed fns f)

/-! ## Freight status (freight_helpers.go)

A Go map that may be nil is an `Option` of a map: `none` is the nil map, which can be read
and deleted from but not written to. A pointer that may be nil is an `Option` of its target.
A function that dereferences a nil pointer panics; its result is then `none`. -/

/-- A point in time (`time.Time`), in nanoseconds. -/
abbrev Time := Int

/-- A `time.Duration`, in nanoseconds. -/
abbrev Duration := Int

/-- The type `kargoapi.CurrentStage`: `Since` is a `*metav1.Time`. -/
structure CurrentStage where
  Since : Option Time
  deriving DecidableEq, Repr

/-- The type `kargoapi.VerifiedStage`: `VerifiedAt` is a `*metav1.Time` and
`LongestCompletedSoak` a `*metav1.Duration`. -/
structure VerifiedStage where
  VerifiedAt : Option Time
  LongestCompletedSoak : Option Duration
  deriving DecidableEq, Repr

/-- The type `kargoapi.ApprovedStage`: `ApprovedAt` is a `*metav1.Time`. -/
structure ApprovedStage where
  ApprovedAt : Option Time
  deriving DecidableEq, Repr

/-- The type `kargoapi.FreightStatus`, with the three maps the helpers use. -/
structure FreightStatus where
  CurrentlyIn : Option (String → Option CurrentStage)
  VerifiedIn : Option (String → Option VerifiedStage)
  ApprovedFor : Option (String → Option ApprovedStage)

/-- The zero value `kargoapi.FreightStatus{}`: the three maps are nil. -/
def FreightStatus.empty : FreightStatus :=
  { CurrentlyIn := none, VerifiedIn := none, ApprovedFor := none }

/-- The read `m[key]` of a map that may be nil, in its comma-ok form: `none` when the key is
not in the map, which is the case for every key of a nil map. -/
def mapIndex {α : Type} (m : Option (String → Option α)) (key : String) : Option α :=
  match m with
  | none => none
  | some entries => entries key

/-- The write `m[key] = value` to a map that is not nil. -/
def mapSet {α : Type} (m : String → Option α) (key : String) (value : α) :
    String → Option α :=
  fun k => if k = key then some value else m k

/-- The call `delete(m, key)`, which does nothing on a nil map. -/
def mapDelete {α : Type} (m : Option (String → Option α)) (key : String) :
    Option (String → Option α) :=
  match m with
  | none => none
  | some entries => some (fun k => if k = key then none else entries k)

/-- Function `IsCurrentlyIn`; the argument is the field `Status` of the Freight, the only
part of it that the function reads. -/
def IsCurrentlyIn (status : FreightStatus) (stage : String) : Bool :=
  (mapIndex status.CurrentlyIn stage).isSome

/-- Function `IsVerifiedIn`, on the field `Status` of the Freight. -/
def IsVerifiedIn (status : FreightStatus) (stage : String) : Bool :=
  (mapIndex status.VerifiedIn stage).isSome

/-- Function `IsApprovedFor`, on the field `Status` of the Freight. -/
def IsApprovedFor (status : FreightStatus) (stage : String) : Bool :=
  (mapIndex status.ApprovedFor stage).isSome

/-- Function `GetLongestSoak`, on the field `Status` of the Freight. `timeSince t` is what
`time.Since(t)` returns at the moment of the call. The result is `none` when the call
panics, which it does on a current record whose `Since` is nil. -/
def GetLongestSoak (timeSince : Time → Duration) (status : FreightStatus) (stage : String) :
    Option Duration :=
  match mapIndex status.VerifiedIn stage with
  | none => some 0
  | some record =>
    let longestCompleted : Duration :=
      match record.LongestCompletedSoak with
      | some soak => soak
      | none => 0
    match mapIndex status.CurrentlyIn stage with
    | none => some (max longestCompleted 0)
    | some current =>
      match current.Since with
      | none => none
      | some since => some (max longestCompleted (timeSince since))

/-- Function `AddCurrentStage`. -/
def AddCurrentStage (f : FreightStatus) (stage : String) (since : Time) : FreightStatus :=
  match mapIndex f.CurrentlyIn stage with
  | some _ => f
  | none =>
    let entries : String → Option CurrentStage :=
      match f.CurrentlyIn with
      | none => fun _ => none
      | some entries => entries
    { f with CurrentlyIn := some (mapSet entries stage { Since := some since }) }

/-- Function `RemoveCurrentStage`. `timeSince t` is what `time.Since(t)` returns at the
moment of the call. The result is `none` when the call panics: on a current record whose
`Since` is nil, and on a verification record whose `LongestCompletedSoak` is nil, both
being dereferenced when the stage is current and verified. -/
def RemoveCurrentStage (timeSince : Time → Duration) (f : FreightStatus) (stage : String) :
    Option FreightStatus :=
  match mapIndex f.CurrentlyIn stage with
  | none => some f
  | some record =>
    match f.VerifiedIn with
    | none => some { f with CurrentlyIn := mapDelete f.CurrentlyIn stage }
    | some entries =>
      match entries stage with
      | none => some { f with CurrentlyIn := mapDelete f.CurrentlyIn stage }
      | some verified =>
        match record.Since with
        | none => none
        | some since =>
          let soak := timeSince since
          match verified.LongestCompletedSoak with
          | none => none
          | some longest =>
            if longest < soak then
              some { f with
                VerifiedIn := some (mapSet entries stage
                  { VerifiedAt := none, LongestCompletedSoak := some soak })
                CurrentlyIn := mapDelete f.CurrentlyIn stage }
            else
              some { f with CurrentlyIn := mapDelete f.CurrentlyIn stage }

/-- Function `AddVerifiedStage`. -/
def AddVerifiedStage (f : FreightStatus) (stage : String) (verifiedAt : Time) :
    FreightStatus :=
  match mapIndex f.VerifiedIn stage with
  | some _ => f
  | none =>
    let record : VerifiedStage :=
      { VerifiedAt := some verifiedAt, LongestCompletedSoak := none }
    let entries : String → Option VerifiedStage :=
      match f.VerifiedIn with
      | none => mapSet (fun _ => none) stage record
      | some entries => entries
    { f with VerifiedIn := some (mapSet entries stage record) }

/-- Function `AddApprovedStage`. -/
def AddApprovedStage (f : FreightStatus) (stage : String) (approvedAt : Time) :
    FreightStatus :=
  match mapIndex f.ApprovedFor stage with
  | some _ => f
  | none =>
    let record : ApprovedStage := { ApprovedAt := some approvedAt }
    let entries : String → Option ApprovedStage :=
      match f.ApprovedFor with
      | none => mapSet (fun _ => none) stage record
      | some entries => entries
    { f with ApprovedFor := some (mapSet entries stage record) }

/-! ## Annotations (annotations.go)

The annotations of an object are a `map[string]string`. The annotation keys, the request
types and the method `HasID` are declared outside the sources: the keys and `HasID` are
parameters, as are `json.Valid` and `json.Unmarshal`. -/

/-- The type `VerificationRequest`, declared outside the sources: the field `ID`, which the
sources set, and whatever other fields it has. -/
structure VerificationRequest where
  ID : String
  Fields : List (String × Any)
  deriving DecidableEq, Repr

/-- The type `AbortPromotionRequest`, declared outside the sources: the field `Action`, an
`AbortAction`, which is a string, and whatever other fields it has. -/
structure AbortPromotionRequest where
  Action : String
  Fields : List (String × Any)
  deriving DecidableEq, Repr

/-- Function `RefreshAnnotationValue`. The zero value of the text stands for a missing
annotation. -/
def RefreshAnnotationValue (AnnotationKeyRefresh : String)
    (annotations : String → Option String) : String × Bool :=
  match annotations AnnotationKeyRefresh with
  | none => ("", false)
  | some requested => (requested, true)

/-- Function `ReverifyAnnotationValue`. `jsonValid` is `json.Valid`, `unmarshal` is
`json.Unmarshal` into a zero `VerificationRequest`, and `hasID` is the method `HasID`. -/
def ReverifyAnnotationValue (AnnotationKeyReverify : String) (jsonValid : String → Bool)
    (unmarshal : String → Except Error VerificationRequest)
    (hasID : VerificationRequest → Bool) (annotations : String → Option String) :
    Option VerificationRequest × Bool :=
  match annotations AnnotationKeyReverify with
  | none => (none, false)
  | some requested =>
    let parsed : Except Error VerificationRequest :=
      if jsonValid requested then unmarshal requested
      else .ok { ID := requested, Fields := [] }
    match parsed with
    | .error _ => (none, false)
    | .ok vr => if !hasID vr then (none, false) else (some vr, true)

/-- Function `AbortVerificationAnnotationValue`. -/
def AbortVerificationAnnotationValue (AnnotationKeyAbort : String)
    (jsonValid : String → Bool) (unmarshal : String → Except Error VerificationRequest)
    (hasID : VerificationRequest → Bool) (annotations : String → Option String) :
    Option VerificationRequest × Bool :=
  match annotations AnnotationKeyAbort with
  | none => (none, false)
  | some requested =>
    let parsed : Except Error VerificationRequest :=
      if jsonValid requested then unmarshal requested
      else .ok { ID := requested, Fields := [] }
    match parsed with
    | .error _ => (none, false)
    | .ok vr => if !hasID vr then (none, false) else (some vr, true)

/-- Function `AbortPromotionAnnotationValue`. `unmarshal` is `json.Unmarshal` into a zero
`AbortPromotionRequest`. -/
def AbortPromotionAnnotationValue (AnnotationKeyAbort : String) (jsonValid : String → Bool)
    (unmarshal : String → Except Error AbortPromotionRequest)
    (annotations : String → Option String) : Option AbortPromotionRequest × Bool :=
  match annotations AnnotationKeyAbort with
  | none => (none, false)
  | some requested =>
    let parsed : Except Error AbortPromotionRequest :=
      if jsonValid requested then unmarshal requested
      else .ok { Action := requested, Fields := [] }
    match parsed with
    | .error _ => (none, false)
    | .ok apr => if apr.Action = "" then (none, false) else (some apr, true)

/-! ## Fixtures of the test suites

The worlds of the fixtures are the states of a cancellable context: `none` while it is live,
`some text` once it is done, `text` being what `ctx.Err().Error()` returns. -/

/-- The observation `ctx.Err()` on a fixture world. -/
def fixtureCtxErr : Option String → Option String := fun env => env

/-- The method `Promote` of a `mockPromoter` with no function, result or error set. -/
def mockPromote : Context → PromotionStepContext → Option String →
    (Option PromotionStepResult × Option Error) × Option String :=
  fun _ _ env => ((none, none), env)

/-- A `mockPromoter` named `name`: it has no `CheckHealth` method. -/
def mockPromoter (name : String) : Directive (Option String) :=
  { name := name, Promote := mockPromote, CheckHealth := none }

/-- A `mockPromoter` named `name` whose `Promote` returns the error `text`. -/
def mockPromoterErr (name text : String) : Directive (Option String) :=
  { name := name
    Promote := fun _ _ env => ((none, some (.errorf text)), env)
    CheckHealth := none }

/-- A `mockHealthChecker` named `name` that returns `checkResult`. -/
def mockHealthChecker (name : String) (checkResult : HealthCheckStepResult) :
    Directive (Option String) :=
  { name := name, Promote := mockPromote, CheckHealth := some (fun _ _ env => (checkResult, env)) }

/-- The call `cancel()` of a `context.WithCancel` context: a live context becomes done with
the error `context.Canceled`; a done context stays as it is. -/
def cancelContext : Option String → Option String
  | none => some "context canceled"
  | some text => some text

/-- The fixture "success-check". -/
def successCheck : Directive (Option String) :=
  mockHealthChecker "success-check"
    { Status := .Healthy, Issues := [], Output := some [("test", .string "success")] }

/-- The fixture "error-check". -/
def errorCheck : Directive (Option String) :=
  mockHealthChecker "error-check"
    { Status := .Unhealthy, Issues := ["health check failed"]
      Output := some [("test", .string "error")] }

/-- The fixture "context-waiter": its check cancels the context, waits for it to be done and
reports Unknown with the text of `ctx.Err()`. -/
def contextWaiter : Directive (Option String) :=
  { name := "context-waiter"
    Promote := mockPromote
    CheckHealth := some (fun _ _ env =>
      ({ Status := .Unknown, Issues := (cancelContext env).toList, Output := none },
        cancelContext env)) }

/-- A checker that cancels the context during its check and still reports Healthy with an
output of its own. -/
def cancellingReporter : Directive (Option String) :=
  { name := "cancelling-reporter"
    Promote := mockPromote
    CheckHealth := some (fun _ _ env =>
      ({ Status := .Healthy, Issues := [], Output := some [("test", .string "success")] },
        cancelContext env)) }

/-- The registry the health tests build. -/
def testRegistry : directivesRegistry (Option String) :=
  (((directivesRegistry.empty (Option String)).register successCheck).register
    errorCheck).register contextWaiter

/-- The engine the health tests build: `&SimpleEngine{registry: testRegistry}`. -/
def testEngine : SimpleEngine (Option String) :=
  { registry := testRegistry, credentialsDB := none, kargoClient := none, argoCDClient := none }

/-- The context `context.Background()`, carrying no values. -/
def backgroundContext : Context :=
  { kargoClient := none, argoCDClient := none, credentialsDB := none }

/-- A severity ranking with Healthy the least severe state, used to instantiate `rank`. -/
def sampleRank : HealthState → Nat
  | .Healthy => 0
  | .Degraded => 1
  | .Unknown => 2
  | .Unhealthy => 3

/-- A stand-in for the `%q` verb on kinds without special characters. -/
def sampleQuote (s : String) : String := "\"" ++ s ++ "\""

/-- A stand-in for `json.Marshal` that succeeds on every list of outputs. -/
def sampleMarshal (output : List State) : Except Error String :=
  .ok ("[" ++ String.intercalate "," (output.map (fun st =>
    "\x7b" ++ String.intercalate "," (st.map (fun kv => sampleQuote kv.1)) ++ "\x7d")) ++ "]")

/-- An engine whose registry holds the checker that cancels and still reports Healthy. -/
def reporterEngine : SimpleEngine (Option String) :=
  { registry := (directivesRegistry.empty (Option String)).register cancellingReporter
    credentialsDB := none, kargoClient := none, argoCDClient := none }

/-- The world in which the tests start the engine: a live context, no checker invoked yet. -/
def liveWorld : World (Option String) := { env := none, calls := [] }

/-- The zero value `dirsdk.HealthCheckContext{}` the tests pass. -/
def testHealthCtx : HealthCheckContext := { Project := "", Stage := "" }

/-- The database `&credentials.FakeDB{}` of the waiter tests: it finds no credentials. -/
def fakeDB : CredentialsDB :=
  { Get := fun _ _ _ => .ok ({ Username := "", Password := "", SSHPrivateKey := "" }, false) }

/-- The context of the waiter tests: a background context carrying the fake database. -/
def waiterContext : Context :=
  contextWithCredentialsDB backgroundContext (some fakeDB)

/-- The provider `&gitprovider.Fake{}` whose `GetPullRequestFn` returns `pr`. -/
def fakeProvider (pr : PullRequest) : GitProvider :=
  { GetPullRequest := fun _ => .ok pr }

/-- The provider registration of the waiter tests: `NewProvider` returns the fake provider. -/
def fakeNewProvider (pr : PullRequest) :
    String → GitProviderOptions → Except Error GitProvider :=
  fun _ _ => .ok (fakeProvider pr)

/-- The zero value `&dirsdk.PromotionStepContext{}` the waiter tests pass. -/
def testStepCtx : PromotionStepContext :=
  { WorkDir := "", Project := "", Stage := "", Config := [] }

/-- The config of the waiter tests: only the provider name is set. -/
def testWaitCfg : GitWaitForPRConfig :=
  { InsecureSkipTLSVerify := false, PRNumber := 0, Provider := some "test-provider",
    RepoURL := "" }

/-- A work tree whose `AddAll` and `Clear` succeed; the world counts the operations done. -/
def fakeWorkTree : WorkTree Nat :=
  { AddAll := fun n => (none, n + 1), Clear := fun n => (none, n + 1) }

/-- A stand-in for `securejoin.SecureJoin` that joins with a slash and never fails. -/
def fakeSecureJoin : String → String → Nat → Except Error String :=
  fun root path _ => .ok (root ++ "/" ++ path)

/-- A stand-in for `git.LoadWorkTree` that finds the fake work tree at every path. -/
def fakeLoadWorkTree : String → Nat → Except Error (WorkTree Nat) :=
  fun _ _ => .ok fakeWorkTree

/-- A stand-in for `intyaml.SetStringsInFile` that succeeds and counts the write. -/
def fakeSetStringsInFile : String → List Update → Nat → Option Error × Nat :=
  fun _ _ n => (none, n + 1)

/-- A step context with a work directory. -/
def fileStepCtx : PromotionStepContext :=
  { WorkDir := "/work", Project := "", Stage := "", Config := [] }

/-- The world in which the file steps start: nothing has been done yet. -/
def freshFiles : Files Nat := { env := 0, ops := [] }

/-- A step that fails with a plain error on its first `failures` attempts and succeeds
afterwards; the world counts the attempts made. -/
def flakyStep (failures threshold : Nat) : StepImplementation Nat :=
  { name := "flaky"
    CheckConfig := fun _ => none
    Promote := fun _ _ _ n =>
      if n < failures then
        (({ Status := .Errored, Output := none }, some (.errorf "not yet")), n + 1)
      else
        (({ Status := .Succeeded, Output := some [("attempts", .number n)] }, none), n + 1)
    DefaultErrorThreshold := threshold }

/-- The context of a promotion with an empty shared State. -/
def testPromoCtx : PromotionContext :=
  { Project := "", Stage := "", WorkDir := "", State := [] }

/-- A merge of an Output into the shared State: the entries of the Output come first, so a
lookup finds them before older entries. -/
def sampleMerge (state out : State) : State := out ++ state

/-- A registry of step implementations that holds `impl` under the kind "flaky". -/
def flakyRegistry (impl : StepImplementation Nat) : String → Option (StepImplementation Nat) :=
  fun kind => if kind = "flaky" then some impl else none

/-- The world in which the promotion tests start: no attempt made, no call logged. -/
def freshWorld : World Nat := { env := 0, calls := [] }

/-- A stand-in for a pattern compiler that rejects every pattern; it serves where no
pattern of its dialect occurs. -/
def rejectCompile : String → Except Error (String → Bool) :=
  fun pattern => .error (.errorf ("syntax error in pattern " ++ pattern))

/-- A stand-in for the semantic-version library that knows the tags and constraints of the
tests: a version is the number made of its three parts. -/
def testSemver : Semver Nat :=
  { newVersion := fun tag =>
      if tag = "v1.0.0" then some 100
      else if tag = "v1.2.3" then some 123
      else if tag = "v2.2.3" then some 223
      else none
    newConstraint := fun expr =>
      if expr = "<2.0.0" then .ok (fun v => decide (v < 200))
      else if expr = ">=2.0.0" then .ok (fun v => decide (200 ≤ v))
      else .error (.errorf "improper constraint")
    greaterThan := fun a b => decide (b < a) }

/-- The tag of the first commit of the colliding Freight, built from the normalized URL
`u`: the text `1|u:2:1|u`. -/
def collidingTagA (u : String) : String :=
  "1" ++ "|" ++ u ++ ":" ++ "2" ++ ":" ++ "1" ++ "|" ++ u

/-- The first tag of the second commit of the colliding Freight: the text `2:1|u`. -/
def collidingTag1 (u : String) : String := "2" ++ ":" ++ "1" ++ "|" ++ u

/-- The other tag of the second commit of the colliding Freight: the text `1|u:2`. -/
def collidingTag2 (u : String) : String := "1" ++ "|" ++ u ++ ":" ++ "2"

/-- A Freight with two commits of the repository `url`, both with the commit ID 1: the
first has the tag `collidingTagA`, the second has the tag `tag`. -/
def collidingFreight (origin : FreightOrigin) (url u tag : String) : Freight :=
  { Origin := origin
    Commits := [{ RepoURL := url, ID := "1", Tag := collidingTagA u },
                { RepoURL := url, ID := "1", Tag := tag }]
    Images := []
    Charts := [] }

/-- Stand-ins for the functions `GenerateID` calls: URLs are left as they are, the origin
is written `Kind/Name`, and the digest is the hashed text itself. -/
def plainIDFunctions : IDFunctions :=
  { normalizeURL := fun url => url
    normalizeChartRepositoryURL := fun url => url
    pathJoin := fun a b => a ++ "/" ++ b
    originString := fun origin => origin.Kind ++ "/" ++ origin.Name
    sha1Hex := fun text => text }

/-- A clock for the status helpers: the current time is 100. -/
def sampleTimeSince : Time → Duration := fun t => 100 - t

/-- A status in which the stage "test" is current since time 0 and verified at time 5 with a
longest completed soak of 10. -/
def soakedStatus : FreightStatus :=
  { CurrentlyIn := some (mapSet (fun _ => none) "test" { Since := some 0 })
    VerifiedIn := some (mapSet (fun _ => none) "test"
      { VerifiedAt := some 5, LongestCompletedSoak := some 10 })
    ApprovedFor := none }

/-- A status in which the stage "test" is current with no time of entry, its record being
the zero value `kargoapi.CurrentStage{}`, and verified at time 5 with a longest completed
soak of 10. -/
def currentWithoutSince : FreightStatus :=
  { CurrentlyIn := some (mapSet (fun _ => none) "test" { Since := none })
    VerifiedIn := some (mapSet (fun _ => none) "test"
      { VerifiedAt := some 5, LongestCompletedSoak := some 10 })
    ApprovedFor := none }

/-- The status reached from the empty one by `AddVerifiedStage` and then `AddCurrentStage`
for the stage "test". -/
def verifiedThenCurrent : FreightStatus :=
  AddCurrentStage (AddVerifiedStage FreightStatus.empty "test" 5) "test" 7

/-- A stand-in for `json.Valid` that knows two JSON texts, the object with the ID abc and
the number 123; on the empty text and on a bare word it agrees with `json.Valid`, which
rejects both. -/
def sampleJSONValid (text : String) : Bool :=
  decide (text = "\x7b\"id\":\"abc\"\x7d" ∨ text = "123")

/-- A stand-in for `json.Unmarshal` into a `VerificationRequest` on the same texts: the
object gives a request, and the number, which is no object, gives the error that
`json.Unmarshal` returns for a JSON value it cannot store in a struct. -/
def sampleUnmarshal (text : String) : Except Error VerificationRequest :=
  if text = "\x7b\"id\":\"abc\"\x7d" then .ok { ID := "abc", Fields := [] }
  else if text = "123" then
    .error (.errorf "json: cannot unmarshal number into Go value of type VerificationRequest")
  else .error (.errorf "invalid character")

/-- A stand-in for `json.Unmarshal` into an `AbortPromotionRequest`, which finds no
action in the text. -/
def sampleUnmarshalAbort (_text : String) : Except Error AbortPromotionRequest :=
  .ok { Action := "", Fields := [] }

/-- The method `HasID` as its name reads: the ID is not empty. -/
def sampleHasID (vr : VerificationRequest) : Bool := decide (vr.ID ≠ "")

/-- Annotations in which the reverify key and the abort key are present with the value
`value`. -/
def sampleAnnotations (value : String) : String → Option String :=
  fun key => if key = "reverify" ∨ key = "abort" then some value else none

/-- A Freight with two commits and two images. -/
def orderedFreight : Freight :=
  { Origin := ⟨"Warehouse", "w"⟩
    Commits := [⟨"https://a", "1", "v1"⟩, ⟨"https://b", "2", ""⟩]
    Images := [⟨"repo/x", "v1", "sha256:1"⟩, ⟨"repo/y", "latest", "sha256:2"⟩]
    Charts := [] }

/-- The same Freight with its commits and its images in the opposite order. -/
def reversedFreight : Freight :=
  { Origin := ⟨"Warehouse", "w"⟩
    Commits := [⟨"https://b", "2", ""⟩, ⟨"https://a", "1", "v1"⟩]
    Images := [⟨"repo/y", "latest", "sha256:2"⟩, ⟨"repo/x", "v1", "sha256:1"⟩]
    Charts := [] }

/-! ## Properties of the registry -/

theorem register_apply {σ : Type} (d : directivesRegistry σ) (directive : Directive σ)
    (key : String) :
    d.register directive key = if key = directive.name then some directive else d key := rfl

/-- Lookup in a registry built by registering the reversed list `l`, in terms of the first
entry of `l` under the name. -/
theorem foldl_register_reverse {σ : Type} (d : directivesRegistry σ) (name : String)
    (l : List (Directive σ)) :
    (l.reverse.foldl directivesRegistry.register d) name =
      match l.find? (fun x => decide (x.name = name)) with
      | some x => some x
      | none => d name := by
  induction l with
  | nil => rfl
  | cons x t ih =>
    rw [List.reverse_cons, List.foldl_append, List.foldl_cons, List.foldl_nil, register_apply,
      List.find?_cons]
    by_cases hx : x.name = name
    · simp [hx]
    · have hx2 : ¬ name = x.name := fun h => hx h.symm
      simp [hx, hx2, ih]

theorem foldl_register_apply {σ : Type} (d : directivesRegistry σ) (name : String)
    (ds : List (Directive σ)) :
    (ds.foldl directivesRegistry.register d) name =
      match ds.reverse.find? (fun x => decide (x.name = name)) with
      | some x => some x
      | none => d name := by
  have h := foldl_register_reverse d name ds.reverse
  rwa [List.reverse_reverse] at h

theorem errNotFound_ne {quote : String → String} (name : String) :
    errNotFound quote name ≠ errNotHealthChecker quote name := by
  intro h
  unfold errNotFound errNotHealthChecker at h
  injection h with h
  rw [String.ext_iff] at h
  simp only [String.data_append, List.append_assoc] at h
  have h2 := List.append_cancel_left (List.append_cancel_left h)
  exact absurd h2 (by decide)

/-- C1: for every registry and any two directives `a` and `b` with the same name, after
`register(a)` and then `register(b)` the lookup `GetPromoter` under that name succeeds and
returns `b`; it does not return `a` when `a` differs from `b`; and nothing of `a` is left:
the registry is the one obtained by registering `b` alone. -/
theorem register_overwrites {σ : Type} (quote : String → String) (d : directivesRegistry σ)
    (a b : Directive σ) (hname : a.name = b.name) :
    ((d.register a).register b).GetPromoter quote b.name = .ok b ∧
    ((d.register a).register b).GetPromoter quote a.name = .ok b ∧
    (a ≠ b → ((d.register a).register b).GetPromoter quote a.name ≠ .ok a) ∧
    (d.register a).register b = d.register b := by
  have hget : ((d.register a).register b).GetPromoter quote b.name = .ok b := by
    simp [directivesRegistry.GetPromoter, directivesRegistry.register]
  refine ⟨hget, hname ▸ hget, ?_, ?_⟩
  · intro hab h
    rw [hname, hget] at h
    injection h with h
    exact hab h.symm
  · funext key
    simp only [register_apply, hname]
    split <;> rfl

/-- The overwrite test of the registry: two mock promoters under one name. -/
theorem register_overwrites_witness :
    (mockPromoter "mock").name = (mockPromoterErr "mock" "error").name ∧
    ((((directivesRegistry.empty (Option String)).register (mockPromoter "mock")).register
      (mockPromoterErr "mock" "error")).GetPromoter sampleQuote "mock"
        = .ok (mockPromoterErr "mock" "error")) :=
  ⟨rfl, (register_overwrites sampleQuote (directivesRegistry.empty (Option String))
    (mockPromoter "mock") (mockPromoterErr "mock" "error") rfl).1⟩

/-- C2: in the registry obtained from the empty one by registering the directives `ds` in
order, `GetPromoter(name)` fails exactly when no directive of `ds` has that name, the error
then being the "not found" error; otherwise it returns, with no error, the last directive of
`ds` registered under the name. -/
theorem getPromoter_registered {σ : Type} (quote : String → String) (ds : List (Directive σ))
    (name : String) :
    ((ds.foldl directivesRegistry.register (directivesRegistry.empty σ)).GetPromoter quote name =
      match ds.reverse.find? (fun x => decide (x.name = name)) with
      | some x => .ok x
      | none => .error (errNotFound quote name)) ∧
    ((ds.foldl directivesRegistry.register (directivesRegistry.empty σ)).GetPromoter quote name =
      .error (errNotFound quote name) ↔ ∀ x ∈ ds, x.name ≠ name) ∧
    ((∀ x ∈ ds, x.name ≠ name) ∨
      ∃ pre x post, ds = pre ++ x :: post ∧ x.name = name ∧ (∀ y ∈ post, y.name ≠ name) ∧
        (ds.foldl directivesRegistry.register (directivesRegistry.empty σ)).GetPromoter
          quote name = .ok x) ∧
    (errNotFound quote name).Error = "directive " ++ quote name ++ " not found" := by
  have hform : (ds.foldl directivesRegistry.register (directivesRegistry.empty σ)).GetPromoter
      quote name =
      match ds.reverse.find? (fun x => decide (x.name = name)) with
      | some x => .ok x
      | none => .error (errNotFound quote name) := by
    unfold directivesRegistry.GetPromoter
    rw [foldl_register_apply]
    cases ds.reverse.find? (fun x => decide (x.name = name)) <;> rfl
  refine ⟨hform, ?_, ?_, rfl⟩
  · rw [hform]
    cases hf : ds.reverse.find? (fun x => decide (x.name = name)) with
    | none =>
      simp only [true_iff]
      intro x hx
      have := List.find?_eq_none.mp hf x (List.mem_reverse.mpr hx)
      simpa using this
    | some x =>
      simp only [reduceCtorEq, false_iff]
      intro hall
      have hmem := List.mem_of_find?_eq_some hf
      have hp := List.find?_some hf
      exact hall x (List.mem_reverse.mp hmem) (by simpa using hp)
  · rw [hform]
    cases hf : ds.reverse.find? (fun x => decide (x.name = name)) with
    | none =>
      left
      intro x hx
      have := List.find?_eq_none.mp hf x (List.mem_reverse.mpr hx)
      simpa using this
    | some x =>
      right
      obtain ⟨hp, as, bs, hsplit, hbefore⟩ := List.find?_eq_some.mp hf
      refine ⟨bs.reverse, x, as.reverse, ?_, by simpa using hp, ?_, rfl⟩
      · have := congrArg List.reverse hsplit
        simpa using this
      · intro y hy
        have := hbefore y (List.mem_reverse.mp hy)
        simpa using this

/-- C3: `GetHealthChecker(name)` fails with the "not found" error when nothing is registered
under the name, fails with the "does not implement HealthChecker" error, a different error,
when the registered directive has no `CheckHealth` method, and otherwise returns that same
registered directive with no error. -/
theorem getHealthChecker_cases {σ : Type} (quote : String → String) (d : directivesRegistry σ)
    (name : String) :
    (d name = none → d.GetHealthChecker quote name = .error (errNotFound quote name)) ∧
    (∀ directive, d name = some directive → directive.CheckHealth = none →
      d.GetHealthChecker quote name = .error (errNotHealthChecker quote name)) ∧
    (∀ directive check, d name = some directive → directive.CheckHealth = some check →
      d.GetHealthChecker quote name = .ok ⟨directive, check⟩) ∧
    errNotFound quote name ≠ errNotHealthChecker quote name ∧
    (errNotFound quote name).Error = "directive " ++ quote name ++ " not found" ∧
    (errNotHealthChecker quote name).Error =
      "directive " ++ quote name ++ " does not implement HealthChecker" := by
  refine ⟨?_, ?_, ?_, errNotFound_ne name, rfl, rfl⟩
  · intro h
    simp [directivesRegistry.GetHealthChecker, h]
  · intro directive h hc
    simp [directivesRegistry.GetHealthChecker, h, hc]
  · intro directive check h hc
    simp [directivesRegistry.GetHealthChecker, h, hc]

/-! ## Properties of the health-check engine -/

theorem loop_nil {σ : Type} (rank : HealthState → Nat) (quote : String → String)
    (ctxErr : σ → Option String) (e : SimpleEngine σ) (ctx : Context)
    (healthCtx : HealthCheckContext) (acc : HealthAggregate) (w : World σ) :
    e.executeHealthChecksLoop rank quote ctxErr ctx healthCtx [] acc w = (acc, w) := rfl

/-- One turn of the loop on a context that is done: the `case <-ctx.Done()` branch. -/
theorem loop_cons_done {σ : Type} (rank : HealthState → Nat) (quote : String → String)
    (ctxErr : σ → Option String) (e : SimpleEngine σ) (ctx : Context)
    (healthCtx : HealthCheckContext) (step : HealthCheckStep) (rest : List HealthCheckStep)
    (acc : HealthAggregate) (w : World σ) (err : String) (h : ctxErr w.env = some err) :
    e.executeHealthChecksLoop rank quote ctxErr ctx healthCtx (step :: rest) acc w =
      ({ status := acc.status.Merge rank .Unknown, issues := acc.issues ++ [err],
         output := acc.output }, w) := by
  simp only [SimpleEngine.executeHealthChecksLoop, h]

/-- One turn of the loop on a live context: the `default` branch. -/
theorem loop_cons_live {σ : Type} (rank : HealthState → Nat) (quote : String → String)
    (ctxErr : σ → Option String) (e : SimpleEngine σ) (ctx : Context)
    (healthCtx : HealthCheckContext) (step : HealthCheckStep) (rest : List HealthCheckStep)
    (acc : HealthAggregate) (w : World σ) (h : ctxErr w.env = none) :
    e.executeHealthChecksLoop rank quote ctxErr ctx healthCtx (step :: rest) acc w =
      e.executeHealthChecksLoop rank quote ctxErr ctx healthCtx rest
        (acc.add rank (e.executeHealthCheck quote ctx healthCtx step w).1)
        (e.executeHealthCheck quote ctx healthCtx step w).2 := by
  simp only [SimpleEngine.executeHealthChecksLoop, h]

theorem foldl_add_status (rank : HealthState → Nat) (rs : List HealthCheckStepResult)
    (acc : HealthAggregate) :
    (rs.foldl (HealthAggregate.add rank) acc).status =
      (rs.map (fun r => r.Status)).foldl (HealthState.Merge rank) acc.status := by
  induction rs generalizing acc with
  | nil => rfl
  | cons r t ih => simp only [List.foldl_cons, List.map_cons, ih]; rfl

theorem foldl_add_issues (rank : HealthState → Nat) (rs : List HealthCheckStepResult)
    (acc : HealthAggregate) :
    (rs.foldl (HealthAggregate.add rank) acc).issues =
      acc.issues ++ (rs.map (fun r => r.Issues)).flatten := by
  induction rs generalizing acc with
  | nil => simp
  | cons r t ih =>
    simp only [List.foldl_cons, List.map_cons, List.flatten_cons, ih, HealthAggregate.add,
      List.append_assoc]

theorem foldl_add_output (rank : HealthState → Nat) (rs : List HealthCheckStepResult)
    (acc : HealthAggregate) :
    (rs.foldl (HealthAggregate.add rank) acc).output =
      acc.output ++ rs.filterMap (fun r => r.Output) := by
  induction rs generalizing acc with
  | nil => simp
  | cons r t ih =>
    simp only [List.foldl_cons, ih, HealthAggregate.add, List.filterMap_cons]
    cases r.Output <;> simp

/-- While the context stays live at every step boundary, the loop folds the step results
into the accumulators and ends in the world after the last step. -/
theorem loop_live {σ : Type} (rank : HealthState → Nat) (quote : String → String)
    (ctxErr : σ → Option String) (e : SimpleEngine σ) (ctx : Context)
    (healthCtx : HealthCheckContext) (steps : List HealthCheckStep) (acc : HealthAggregate)
    (w : World σ)
    (hlive : ∀ p ∈ e.stepRun quote ctx healthCtx steps w, ctxErr p.1.env = none) :
    e.executeHealthChecksLoop rank quote ctxErr ctx healthCtx steps acc w =
      (((e.stepRun quote ctx healthCtx steps w).map (fun p => p.2)).foldl
          (HealthAggregate.add rank) acc,
        e.worldAfter quote ctx healthCtx steps w) := by
  induction steps generalizing acc w with
  | nil => rfl
  | cons step rest ih =>
    have hw : ctxErr w.env = none :=
      hlive (w, (e.executeHealthCheck quote ctx healthCtx step w).1)
        (by simp [SimpleEngine.stepRun])
    rw [loop_cons_live rank quote ctxErr e ctx healthCtx step rest acc w hw, ih]
    · simp [SimpleEngine.stepRun, SimpleEngine.worldAfter]
    · intro p hp
      exact hlive p (by simp [SimpleEngine.stepRun, hp])

/-- The loop over `pre ++ suf`, when the context is live at every step boundary of `pre`,
is the loop over `suf` started from the accumulators and the world reached after `pre`. -/
theorem loop_append {σ : Type} (rank : HealthState → Nat) (quote : String → String)
    (ctxErr : σ → Option String) (e : SimpleEngine σ) (ctx : Context)
    (healthCtx : HealthCheckContext) (pre suf : List HealthCheckStep) (acc : HealthAggregate)
    (w : World σ)
    (hlive : ∀ p ∈ e.stepRun quote ctx healthCtx pre w, ctxErr p.1.env = none) :
    e.executeHealthChecksLoop rank quote ctxErr ctx healthCtx (pre ++ suf) acc w =
      e.executeHealthChecksLoop rank quote ctxErr ctx healthCtx suf
        (e.executeHealthChecksLoop rank quote ctxErr ctx healthCtx pre acc w).1
        (e.executeHealthChecksLoop rank quote ctxErr ctx healthCtx pre acc w).2 := by
  induction pre generalizing acc w with
  | nil => rfl
  | cons step rest ih =>
    have hw : ctxErr w.env = none :=
      hlive (w, (e.executeHealthCheck quote ctx healthCtx step w).1)
        (by simp [SimpleEngine.stepRun])
    rw [List.cons_append, loop_cons_live rank quote ctxErr e ctx healthCtx step _ acc w hw,
      loop_cons_live rank quote ctxErr e ctx healthCtx step rest acc w hw, ih]
    intro p hp
    exact hlive p (by simp [SimpleEngine.stepRun, hp])

/-- The outputs the loop returns, cancelled or not: those it had, then the non-nil outputs
of the steps it executed, in step order. -/
theorem loop_output {σ : Type} (rank : HealthState → Nat) (quote : String → String)
    (ctxErr : σ → Option String) (e : SimpleEngine σ) (ctx : Context)
    (healthCtx : HealthCheckContext) (steps : List HealthCheckStep) (acc : HealthAggregate)
    (w : World σ) :
    (e.executeHealthChecksLoop rank quote ctxErr ctx healthCtx steps acc w).1.output =
      acc.output ++
        (e.executedRun quote ctxErr ctx healthCtx steps w).filterMap (fun p => p.2.Output) := by
  induction steps generalizing acc w with
  | nil => simp [SimpleEngine.executeHealthChecksLoop, SimpleEngine.executedRun,
      SimpleEngine.stepRun]
  | cons step rest ih =>
    cases hw : ctxErr w.env with
    | some err =>
      rw [loop_cons_done rank quote ctxErr e ctx healthCtx step rest acc w err hw]
      simp [SimpleEngine.executedRun, SimpleEngine.stepRun, List.takeWhile_cons, hw]
    | none =>
      rw [loop_cons_live rank quote ctxErr e ctx healthCtx step rest acc w hw, ih]
      simp only [SimpleEngine.executedRun, SimpleEngine.stepRun, List.takeWhile_cons, hw,
        Option.isNone_none, if_true, List.filterMap_cons, HealthAggregate.add]
      cases (e.executeHealthCheck quote ctx healthCtx step w).1.Output <;> simp

theorem stepRun_length {σ : Type} (quote : String → String) (e : SimpleEngine σ)
    (ctx : Context) (healthCtx : HealthCheckContext) (steps : List HealthCheckStep)
    (w : World σ) : (e.stepRun quote ctx healthCtx steps w).length = steps.length := by
  induction steps generalizing w with
  | nil => rfl
  | cons step rest ih => simp [SimpleEngine.stepRun, ih]

/-- A step whose kind does not resolve yields Unknown with one issue and leaves the world,
ghost log included, as it was. -/
theorem executeHealthCheck_error {σ : Type} (quote : String → String) (e : SimpleEngine σ)
    (ctx : Context) (healthCtx : HealthCheckContext) (step : HealthCheckStep) (w : World σ)
    (err : Error) (h : e.registry.GetHealthChecker quote step.Kind = .error err) :
    e.executeHealthCheck quote ctx healthCtx step w =
      ({ Status := .Unknown, Issues := [noHealthCheckerIssue quote step.Kind err],
         Output := none }, w) := by
  simp only [SimpleEngine.executeHealthCheck, h]

/-- A step whose kind resolves invokes the checker once, which the ghost log records. -/
theorem executeHealthCheck_ok {σ : Type} (quote : String → String) (e : SimpleEngine σ)
    (ctx : Context) (healthCtx : HealthCheckContext) (step : HealthCheckStep) (w : World σ)
    (hc : HealthChecker σ) (h : e.registry.GetHealthChecker quote step.Kind = .ok hc) :
    e.executeHealthCheck quote ctx healthCtx step w =
      ((hc.CheckHealth (e.prepareHealthCheckStepContext ctx healthCtx step).1
          (e.prepareHealthCheckStepContext ctx healthCtx step).2 w.env).1,
        { env := (hc.CheckHealth (e.prepareHealthCheckStepContext ctx healthCtx step).1
            (e.prepareHealthCheckStepContext ctx healthCtx step).2 w.env).2,
          calls := w.calls ++ [step.Kind] }) := by
  simp only [SimpleEngine.executeHealthCheck, h]

/-- The ghost log after a list of steps has been executed: one entry per step whose kind
resolves to a health checker, in step order. -/
theorem worldAfter_calls {σ : Type} (quote : String → String) (e : SimpleEngine σ)
    (ctx : Context) (healthCtx : HealthCheckContext) (steps : List HealthCheckStep)
    (w : World σ) :
    (e.worldAfter quote ctx healthCtx steps w).calls =
      w.calls ++ (steps.filter (fun s =>
        (e.registry.GetHealthChecker quote s.Kind).isOk)).map (fun s => s.Kind) := by
  induction steps generalizing w with
  | nil => simp [SimpleEngine.worldAfter]
  | cons step rest ih =>
    rw [SimpleEngine.worldAfter, ih]
    cases h : e.registry.GetHealthChecker quote step.Kind with
    | error err =>
      rw [executeHealthCheck_error quote e ctx healthCtx step w err h]
      simp [List.filter_cons, h, Except.isOk, Except.toBool]
    | ok hc =>
      rw [executeHealthCheck_ok quote e ctx healthCtx step w hc h]
      simp [List.filter_cons, h, Except.isOk, Except.toBool]

theorem checkHealth_status {σ : Type} (rank : HealthState → Nat) (quote : String → String)
    (ctxErr : σ → Option String) (marshal : List State → Except Error String)
    (e : SimpleEngine σ) (ctx : Context) (healthCtx : HealthCheckContext)
    (steps : List HealthCheckStep) (w : World σ) :
    (e.CheckHealth rank quote ctxErr marshal ctx healthCtx steps w).1.Status =
      (e.executeHealthChecks rank quote ctxErr ctx healthCtx steps w).1.status := by
  unfold SimpleEngine.CheckHealth
  simp only
  split
  · rfl
  · split <;> rfl

/-- C4: when the context is live at every step boundary (it is never cancelled), the status
returned by `executeHealthChecks`, and by `CheckHealth`, is the left fold of
`HealthState.Merge` over the statuses of the step results in step order, starting from
Healthy. An empty step list gives Healthy, and step statuses Healthy then Unhealthy give
Unhealthy when Healthy does not outrank Unhealthy. -/
theorem executeHealthChecks_status_fold {σ : Type} (rank : HealthState → Nat)
    (quote : String → String) (ctxErr : σ → Option String)
    (marshal : List State → Except Error String) (e : SimpleEngine σ) (ctx : Context)
    (healthCtx : HealthCheckContext) (steps : List HealthCheckStep) (w : World σ)
    (hlive : ∀ p ∈ e.stepRun quote ctx healthCtx steps w, ctxErr p.1.env = none) :
    (e.executeHealthChecks rank quote ctxErr ctx healthCtx steps w).1.status =
      ((e.stepRun quote ctx healthCtx steps w).map (fun p => p.2.Status)).foldl
        (HealthState.Merge rank) .Healthy ∧
    (e.CheckHealth rank quote ctxErr marshal ctx healthCtx steps w).1.Status =
      ((e.stepRun quote ctx healthCtx steps w).map (fun p => p.2.Status)).foldl
        (HealthState.Merge rank) .Healthy ∧
    (steps = [] →
      (e.executeHealthChecks rank quote ctxErr ctx healthCtx steps w).1.status = .Healthy) ∧
    (rank .Healthy ≤ rank .Unhealthy →
      (e.stepRun quote ctx healthCtx steps w).map (fun p => p.2.Status)
        = [.Healthy, .Unhealthy] →
      (e.executeHealthChecks rank quote ctxErr ctx healthCtx steps w).1.status = .Unhealthy) := by
  have hfold : (e.executeHealthChecks rank quote ctxErr ctx healthCtx steps w).1.status =
      ((e.stepRun quote ctx healthCtx steps w).map (fun p => p.2.Status)).foldl
        (HealthState.Merge rank) .Healthy := by
    unfold SimpleEngine.executeHealthChecks
    rw [loop_live rank quote ctxErr e ctx healthCtx steps _ w hlive]
    simp only [foldl_add_status, List.map_map]
    rfl
  refine ⟨hfold, ?_, ?_, ?_⟩
  · rw [checkHealth_status, hfold]
  · intro hnil
    subst hnil
    rfl
  · intro hrank hst
    rw [hfold, hst]
    have h1 : ¬ rank .Unhealthy < rank .Healthy := Nat.not_lt.mpr hrank
    simp [HealthState.Merge, h1]

/-- The test "merge different health states": a healthy step, then an unhealthy one. -/
theorem executeHealthChecks_status_fold_witness :
    (∀ p ∈ testEngine.stepRun sampleQuote backgroundContext testHealthCtx
        [⟨"success-check", []⟩, ⟨"error-check", []⟩] liveWorld, fixtureCtxErr p.1.env = none) ∧
    (testEngine.executeHealthChecks sampleRank sampleQuote fixtureCtxErr backgroundContext
      testHealthCtx [⟨"success-check", []⟩, ⟨"error-check", []⟩] liveWorld).1.status
        = .Unhealthy :=
  ⟨by decide,
   (executeHealthChecks_status_fold sampleRank sampleQuote fixtureCtxErr sampleMarshal
      testEngine backgroundContext testHealthCtx
      [⟨"success-check", []⟩, ⟨"error-check", []⟩] liveWorld (by decide)).2.2.2
      (by decide) (by decide)⟩

/-- C5: if the engine gets to step `i` (the context was live at every earlier step boundary)
and the context is done when it is about to start step `i`, then `executeHealthChecks`
returns the status accumulated over the earlier steps merged with Unknown, the issues
accumulated so far followed by the cancellation text as last element, and exactly the
outputs of the earlier steps; the world it ends in, ghost log included, is the world after
the earlier steps, so no checker is invoked for step `i` or for any later step. -/
theorem executeHealthChecks_cancelled {σ : Type} (rank : HealthState → Nat)
    (quote : String → String) (ctxErr : σ → Option String) (e : SimpleEngine σ)
    (ctx : Context) (healthCtx : HealthCheckContext) (pre : List HealthCheckStep)
    (step : HealthCheckStep) (rest : List HealthCheckStep) (w : World σ) (err : String)
    (hreach : ∀ p ∈ e.stepRun quote ctx healthCtx pre w, ctxErr p.1.env = none)
    (hdone : ctxErr (e.worldAfter quote ctx healthCtx pre w).env = some err) :
    e.executeHealthChecks rank quote ctxErr ctx healthCtx (pre ++ step :: rest) w =
      ({ status := HealthState.Merge rank
           (((e.stepRun quote ctx healthCtx pre w).map (fun p => p.2.Status)).foldl
             (HealthState.Merge rank) .Healthy) .Unknown
         issues := ((e.stepRun quote ctx healthCtx pre w).map (fun p => p.2.Issues)).flatten
           ++ [err]
         output := (e.stepRun quote ctx healthCtx pre w).filterMap (fun p => p.2.Output) },
       e.worldAfter quote ctx healthCtx pre w) ∧
    e.executeHealthChecks rank quote ctxErr ctx healthCtx pre w =
      ({ status := ((e.stepRun quote ctx healthCtx pre w).map (fun p => p.2.Status)).foldl
           (HealthState.Merge rank) .Healthy
         issues := ((e.stepRun quote ctx healthCtx pre w).map (fun p => p.2.Issues)).flatten
         output := (e.stepRun quote ctx healthCtx pre w).filterMap (fun p => p.2.Output) },
       e.worldAfter quote ctx healthCtx pre w) ∧
    (e.executeHealthChecks rank quote ctxErr ctx healthCtx (pre ++ step :: rest) w).2.calls =
      w.calls ++ (pre.filter (fun s =>
        (e.registry.GetHealthChecker quote s.Kind).isOk)).map (fun s => s.Kind) := by
  have hpre : e.executeHealthChecks rank quote ctxErr ctx healthCtx pre w =
      ({ status := ((e.stepRun quote ctx healthCtx pre w).map (fun p => p.2.Status)).foldl
           (HealthState.Merge rank) .Healthy
         issues := ((e.stepRun quote ctx healthCtx pre w).map (fun p => p.2.Issues)).flatten
         output := (e.stepRun quote ctx healthCtx pre w).filterMap (fun p => p.2.Output) },
       e.worldAfter quote ctx healthCtx pre w) := by
    unfold SimpleEngine.executeHealthChecks
    rw [loop_live rank quote ctxErr e ctx healthCtx pre _ w hreach]
    refine Prod.ext ?_ rfl
    have hs := foldl_add_status rank ((e.stepRun quote ctx healthCtx pre w).map (fun p => p.2))
      { status := .Healthy, issues := [], output := [] }
    have hi := foldl_add_issues rank ((e.stepRun quote ctx healthCtx pre w).map (fun p => p.2))
      { status := .Healthy, issues := [], output := [] }
    have ho := foldl_add_output rank ((e.stepRun quote ctx healthCtx pre w).map (fun p => p.2))
      { status := .Healthy, issues := [], output := [] }
    simp only [List.map_map, List.nil_append, List.filterMap_map] at hs hi ho
    cases hfold : ((e.stepRun quote ctx healthCtx pre w).map (fun p => p.2)).foldl
      (HealthAggregate.add rank) { status := .Healthy, issues := [], output := [] } with
    | mk st iss out =>
      rw [hfold] at hs hi ho
      simp only at hs hi ho
      subst hs hi ho
      rfl
  have hall : e.executeHealthChecks rank quote ctxErr ctx healthCtx (pre ++ step :: rest) w =
      ({ status := HealthState.Merge rank
           (((e.stepRun quote ctx healthCtx pre w).map (fun p => p.2.Status)).foldl
             (HealthState.Merge rank) .Healthy) .Unknown
         issues := ((e.stepRun quote ctx healthCtx pre w).map (fun p => p.2.Issues)).flatten
           ++ [err]
         output := (e.stepRun quote ctx healthCtx pre w).filterMap (fun p => p.2.Output) },
       e.worldAfter quote ctx healthCtx pre w) := by
    have happ := loop_append rank quote ctxErr e ctx healthCtx pre (step :: rest)
      { status := .Healthy, issues := [], output := [] } w hreach
    unfold SimpleEngine.executeHealthChecks at hpre ⊢
    rw [happ, hpre]
    exact loop_cons_done rank quote ctxErr e ctx healthCtx step rest _ _ err hdone
  refine ⟨hall, hpre, ?_⟩
  rw [hall]
  exact worldAfter_calls quote e ctx healthCtx pre w

/-- The test "context cancellation" of `executeHealthChecks`: the first checker cancels the
context, so the second step is never started. -/
theorem executeHealthChecks_cancelled_witness :
    (∀ p ∈ testEngine.stepRun sampleQuote backgroundContext testHealthCtx
        [⟨"context-waiter", []⟩] liveWorld, fixtureCtxErr p.1.env = none) ∧
    fixtureCtxErr (testEngine.worldAfter sampleQuote backgroundContext testHealthCtx
        [⟨"context-waiter", []⟩] liveWorld).env = some "context canceled" ∧
    (testEngine.executeHealthChecks sampleRank sampleQuote fixtureCtxErr backgroundContext
      testHealthCtx ([⟨"context-waiter", []⟩] ++ ⟨"success-check", []⟩ :: []) liveWorld).1 =
        { status := .Unknown, issues := ["context canceled", "context canceled"],
          output := [] } ∧
    (testEngine.executeHealthChecks sampleRank sampleQuote fixtureCtxErr backgroundContext
      testHealthCtx ([⟨"context-waiter", []⟩] ++ ⟨"success-check", []⟩ :: []) liveWorld).2.calls =
        ["context-waiter"] :=
  ⟨by decide, by decide,
   (congrArg Prod.fst (executeHealthChecks_cancelled sampleRank sampleQuote fixtureCtxErr
      testEngine backgroundContext testHealthCtx [⟨"context-waiter", []⟩]
      ⟨"success-check", []⟩ [] liveWorld "context canceled" (by decide) (by decide)).1).trans
      (by decide),
   (executeHealthChecks_cancelled sampleRank sampleQuote fixtureCtxErr
      testEngine backgroundContext testHealthCtx [⟨"context-waiter", []⟩]
      ⟨"success-check", []⟩ [] liveWorld "context canceled" (by decide) (by decide)).2.2.trans
      (by decide)⟩

/-- C6: a step whose kind does not resolve to a health checker, because nothing is
registered under it or because the registered directive has no `CheckHealth` method, gives
status Unknown, exactly one issue, which contains the quoted kind, and no Output, and it
leaves the world as it was. The sequence is not aborted: started on a live context, the loop
goes on with the later steps from the same world, and the steps the engine executes are this
step followed by the steps it executes of the rest. -/
theorem executeHealthCheck_unresolved {σ : Type} (rank : HealthState → Nat)
    (quote : String → String) (ctxErr : σ → Option String) (e : SimpleEngine σ)
    (ctx : Context) (healthCtx : HealthCheckContext) (step : HealthCheckStep)
    (hres : e.registry step.Kind = none ∨
      ∃ directive, e.registry step.Kind = some directive ∧ directive.CheckHealth = none) :
    ∃ err : Error,
      (err = errNotFound quote step.Kind ∨ err = errNotHealthChecker quote step.Kind) ∧
      (∀ w, e.executeHealthCheck quote ctx healthCtx step w =
        ({ Status := .Unknown, Issues := [noHealthCheckerIssue quote step.Kind err],
           Output := none }, w)) ∧
      (quote step.Kind).data <:+: (noHealthCheckerIssue quote step.Kind err).data ∧
      (∀ rest acc w, ctxErr w.env = none →
        e.executeHealthChecksLoop rank quote ctxErr ctx healthCtx (step :: rest) acc w =
          e.executeHealthChecksLoop rank quote ctxErr ctx healthCtx rest
            { status := acc.status.Merge rank .Unknown
              issues := acc.issues ++ [noHealthCheckerIssue quote step.Kind err]
              output := acc.output } w) ∧
      (∀ rest w, ctxErr w.env = none →
        e.executedRun quote ctxErr ctx healthCtx (step :: rest) w =
          (w, { Status := .Unknown, Issues := [noHealthCheckerIssue quote step.Kind err],
                Output := none }) :: e.executedRun quote ctxErr ctx healthCtx rest w) := by
  have hget : ∃ err : Error,
      (err = errNotFound quote step.Kind ∨ err = errNotHealthChecker quote step.Kind) ∧
      e.registry.GetHealthChecker quote step.Kind = .error err := by
    rcases hres with h | ⟨directive, h, hc⟩
    · exact ⟨_, Or.inl rfl, by simp [directivesRegistry.GetHealthChecker, h]⟩
    · exact ⟨_, Or.inr rfl, by simp [directivesRegistry.GetHealthChecker, h, hc]⟩
  obtain ⟨err, hcase, hget⟩ := hget
  have hexec := fun w => executeHealthCheck_error quote e ctx healthCtx step w err hget
  refine ⟨err, hcase, hexec, ?_, ?_, ?_⟩
  · refine ⟨"no HealthChecker registered for health check kind ".data,
      ": ".data ++ err.Error.data, ?_⟩
    simp [noHealthCheckerIssue, String.data_append]
  · intro rest acc w hw
    rw [loop_cons_live rank quote ctxErr e ctx healthCtx step rest acc w hw, hexec w]
    rfl
  · intro rest w hw
    simp [SimpleEngine.executedRun, SimpleEngine.stepRun, List.takeWhile_cons, hw, hexec w]

/-- The test "unregistered directive": no checker is registered under the kind "unknown". -/
theorem executeHealthCheck_unresolved_witness :
    (testEngine.registry "unknown" = none ∨
      ∃ directive, testEngine.registry "unknown" = some directive ∧
        directive.CheckHealth = none) ∧
    ∃ err : Error,
      testEngine.executeHealthCheck sampleQuote backgroundContext testHealthCtx
        ⟨"unknown", []⟩ liveWorld =
        ({ Status := .Unknown, Issues := [noHealthCheckerIssue sampleQuote "unknown" err],
           Output := none }, liveWorld) :=
  ⟨Or.inl rfl,
   (executeHealthCheck_unresolved sampleRank sampleQuote fixtureCtxErr testEngine
      backgroundContext testHealthCtx ⟨"unknown", []⟩ (Or.inl rfl)).elim
      (fun err h => ⟨err, h.2.1 liveWorld⟩)⟩

/-- C7: the output list built by `executeHealthChecks` is exactly the list of the non-nil
Outputs of the steps the engine executed, in step order, so it is no longer than the step
list; `CheckHealth` leaves `Health.Output` absent when that list is empty, and when it is
not empty sets it to a JSON value, whose bytes are the serialization `json.Marshal` returns
for the list. -/
theorem executeHealthChecks_output {σ : Type} (rank : HealthState → Nat)
    (quote : String → String) (ctxErr : σ → Option String)
    (marshal : List State → Except Error String) (e : SimpleEngine σ) (ctx : Context)
    (healthCtx : HealthCheckContext) (steps : List HealthCheckStep) (w : World σ) :
    (e.executeHealthChecks rank quote ctxErr ctx healthCtx steps w).1.output =
      (e.executedRun quote ctxErr ctx healthCtx steps w).filterMap (fun p => p.2.Output) ∧
    (e.executeHealthChecks rank quote ctxErr ctx healthCtx steps w).1.output.length
      ≤ steps.length ∧
    ((e.executeHealthChecks rank quote ctxErr ctx healthCtx steps w).1.output = [] →
      (e.CheckHealth rank quote ctxErr marshal ctx healthCtx steps w).1.Output = none) ∧
    ((e.executeHealthChecks rank quote ctxErr ctx healthCtx steps w).1.output ≠ [] →
      (e.CheckHealth rank quote ctxErr marshal ctx healthCtx steps w).1.Output ≠ none ∧
      ∀ b, marshal (e.executeHealthChecks rank quote ctxErr ctx healthCtx steps w).1.output
          = .ok b →
        (e.CheckHealth rank quote ctxErr marshal ctx healthCtx steps w).1.Output
          = some ⟨b⟩) := by
  have hout : (e.executeHealthChecks rank quote ctxErr ctx healthCtx steps w).1.output =
      (e.executedRun quote ctxErr ctx healthCtx steps w).filterMap (fun p => p.2.Output) := by
    unfold SimpleEngine.executeHealthChecks
    rw [loop_output]
    rfl
  refine ⟨hout, ?_, ?_, ?_⟩
  · rw [hout]
    refine (List.length_filterMap_le _ _).trans ?_
    unfold SimpleEngine.executedRun
    refine (List.Sublist.length_le (List.takeWhile_sublist _)).trans ?_
    rw [stepRun_length]
  · intro hnil
    simp [SimpleEngine.CheckHealth, hnil]
  · intro hne
    have hlen : ¬ (e.executeHealthChecks rank quote ctxErr ctx healthCtx steps w).1.output.length
        = 0 := by
      simpa [List.length_eq_zero] using hne
    constructor
    · unfold SimpleEngine.CheckHealth
      simp only [hlen, if_false]
      split <;> simp
    · intro b hb
      unfold SimpleEngine.CheckHealth
      simp only [hlen, if_false, hb]

/-- C8, as the code has it: in a single-step sequence started on a live context whose checker
cancels the context during its check, the engine returns what the checker reported, that is
the status Healthy merged with the status of the checker, the issues of the checker, and its
Output if it gave one. So the result is Unknown, with the cancellation text among the issues
and no Output, when the checker itself reports Unknown (which Healthy does not outrank)
with that text among its issues and no Output. -/
theorem checkHealth_cancelling_checker {σ : Type} (rank : HealthState → Nat)
    (quote : String → String) (ctxErr : σ → Option String)
    (marshal : List State → Except Error String) (e : SimpleEngine σ) (ctx : Context)
    (healthCtx : HealthCheckContext) (step : HealthCheckStep) (w : World σ)
    (hc : HealthChecker σ) (err : String)
    (hlive : ctxErr w.env = none)
    (hreg : e.registry.GetHealthChecker quote step.Kind = .ok hc)
    (_hcancel : ctxErr (hc.CheckHealth (e.prepareHealthCheckStepContext ctx healthCtx step).1
      (e.prepareHealthCheckStepContext ctx healthCtx step).2 w.env).2 = some err) :
    (e.executeHealthChecks rank quote ctxErr ctx healthCtx [step] w).1 =
      { status := HealthState.Merge rank .Healthy
          (hc.CheckHealth (e.prepareHealthCheckStepContext ctx healthCtx step).1
            (e.prepareHealthCheckStepContext ctx healthCtx step).2 w.env).1.Status
        issues := (hc.CheckHealth (e.prepareHealthCheckStepContext ctx healthCtx step).1
            (e.prepareHealthCheckStepContext ctx healthCtx step).2 w.env).1.Issues
        output := (hc.CheckHealth (e.prepareHealthCheckStepContext ctx healthCtx step).1
            (e.prepareHealthCheckStepContext ctx healthCtx step).2 w.env).1.Output.toList } ∧
    ((hc.CheckHealth (e.prepareHealthCheckStepContext ctx healthCtx step).1
        (e.prepareHealthCheckStepContext ctx healthCtx step).2 w.env).1.Status = .Unknown →
      rank .Healthy ≤ rank .Unknown →
      err ∈ (hc.CheckHealth (e.prepareHealthCheckStepContext ctx healthCtx step).1
        (e.prepareHealthCheckStepContext ctx healthCtx step).2 w.env).1.Issues →
      (hc.CheckHealth (e.prepareHealthCheckStepContext ctx healthCtx step).1
        (e.prepareHealthCheckStepContext ctx healthCtx step).2 w.env).1.Output = none →
      (e.CheckHealth rank quote ctxErr marshal ctx healthCtx [step] w).1.Status = .Unknown ∧
      err ∈ (e.CheckHealth rank quote ctxErr marshal ctx healthCtx [step] w).1.Issues ∧
      (e.CheckHealth rank quote ctxErr marshal ctx healthCtx [step] w).1.Output = none) := by
  have hexec : (e.executeHealthChecks rank quote ctxErr ctx healthCtx [step] w).1 =
      { status := HealthState.Merge rank .Healthy
          (hc.CheckHealth (e.prepareHealthCheckStepContext ctx healthCtx step).1
            (e.prepareHealthCheckStepContext ctx healthCtx step).2 w.env).1.Status
        issues := (hc.CheckHealth (e.prepareHealthCheckStepContext ctx healthCtx step).1
            (e.prepareHealthCheckStepContext ctx healthCtx step).2 w.env).1.Issues
        output := (hc.CheckHealth (e.prepareHealthCheckStepContext ctx healthCtx step).1
            (e.prepareHealthCheckStepContext ctx healthCtx step).2 w.env).1.Output.toList } := by
    unfold SimpleEngine.executeHealthChecks
    rw [loop_cons_live rank quote ctxErr e ctx healthCtx step [] _ w hlive, loop_nil,
      executeHealthCheck_ok quote e ctx healthCtx step w hc hreg]
    simp only [HealthAggregate.add, List.nil_append]
    cases (hc.CheckHealth (e.prepareHealthCheckStepContext ctx healthCtx step).1
      (e.prepareHealthCheckStepContext ctx healthCtx step).2 w.env).1.Output <;> rfl
  refine ⟨hexec, ?_⟩
  intro hst hrank hmem hout
  have h1 : ¬ rank .Unknown < rank .Healthy := Nat.not_lt.mpr hrank
  have hagg : (e.executeHealthChecks rank quote ctxErr ctx healthCtx [step] w).1 =
      { status := .Unknown
        issues := (hc.CheckHealth (e.prepareHealthCheckStepContext ctx healthCtx step).1
            (e.prepareHealthCheckStepContext ctx healthCtx step).2 w.env).1.Issues
        output := [] } := by
    rw [hexec, hst, hout]
    simp [HealthState.Merge, h1]
  unfold SimpleEngine.CheckHealth
  simp only [hagg, List.length_nil, if_true]
  exact ⟨trivial, hmem, trivial⟩

/-- The test "context cancellation" of `CheckHealth`: the single step "context-waiter". -/
theorem checkHealth_cancelling_checker_witness :
    (testEngine.CheckHealth sampleRank sampleQuote fixtureCtxErr sampleMarshal
      backgroundContext testHealthCtx [⟨"context-waiter", []⟩] liveWorld).1.Status = .Unknown ∧
    "context canceled" ∈ (testEngine.CheckHealth sampleRank sampleQuote fixtureCtxErr
      sampleMarshal backgroundContext testHealthCtx [⟨"context-waiter", []⟩]
      liveWorld).1.Issues ∧
    (testEngine.CheckHealth sampleRank sampleQuote fixtureCtxErr sampleMarshal
      backgroundContext testHealthCtx [⟨"context-waiter", []⟩] liveWorld).1.Output = none :=
  (checkHealth_cancelling_checker sampleRank sampleQuote fixtureCtxErr sampleMarshal
    testEngine backgroundContext testHealthCtx ⟨"context-waiter", []⟩ liveWorld
    ⟨contextWaiter, fun _ _ env =>
      ({ Status := .Unknown, Issues := (cancelContext env).toList, Output := none },
        cancelContext env)⟩
    "context canceled" rfl rfl rfl).2 rfl (by decide) (by decide) rfl

/-- C8 as stated fails: the single step "cancelling-reporter" is started on a live context,
its checker cancels the context during the check and reports Healthy with an Output, and
`CheckHealth` returns Healthy, no issues and a present Output. -/
theorem checkHealth_cancelling_checker_counterexample :
    fixtureCtxErr liveWorld.env = none ∧
    fixtureCtxErr (reporterEngine.CheckHealth sampleRank sampleQuote fixtureCtxErr sampleMarshal
      backgroundContext testHealthCtx [⟨"cancelling-reporter", []⟩] liveWorld).2.env
        = some "context canceled" ∧
    (reporterEngine.CheckHealth sampleRank sampleQuote fixtureCtxErr sampleMarshal
      backgroundContext testHealthCtx [⟨"cancelling-reporter", []⟩] liveWorld).2.calls
        = ["cancelling-reporter"] ∧
    (reporterEngine.CheckHealth sampleRank sampleQuote fixtureCtxErr sampleMarshal
      backgroundContext testHealthCtx [⟨"cancelling-reporter", []⟩] liveWorld).1
        = { Status := .Healthy, Issues := [], Output := some ⟨"[\x7b\"test\"\x7d]"⟩ } ∧
    ¬ ((reporterEngine.CheckHealth sampleRank sampleQuote fixtureCtxErr sampleMarshal
        backgroundContext testHealthCtx [⟨"cancelling-reporter", []⟩] liveWorld).1.Status
          = .Unknown ∧
      "context canceled" ∈ (reporterEngine.CheckHealth sampleRank sampleQuote fixtureCtxErr
        sampleMarshal backgroundContext testHealthCtx [⟨"cancelling-reporter", []⟩]
        liveWorld).1.Issues ∧
      (reporterEngine.CheckHealth sampleRank sampleQuote fixtureCtxErr sampleMarshal
        backgroundContext testHealthCtx [⟨"cancelling-reporter", []⟩] liveWorld).1.Output
          = none) := by
  refine ⟨rfl, by decide, by decide, by decide, ?_⟩
  decide

/-! ## Properties of the pull-request waiter -/

/-- C9: once the credentials lookup, the creation of the provider and the query for the pull
request have succeeded, a pull request reported as Open, whatever its Merged flag and merge
commit, makes `gitPRWaiter.wait` return status Running, no Output and a nil error. -/
theorem wait_open (stateKeyCommit typeGit : String)
    (newProvider : String → GitProviderOptions → Except Error GitProvider)
    (ctx : Context) (stepCtx : PromotionStepContext) (cfg : GitWaitForPRConfig)
    (credsDB : CredentialsDB) (creds : Credentials) (found : Bool) (gitProv : GitProvider)
    (pr : PullRequest)
    (hdb : credentialsDBFromContext ctx = some credsDB)
    (hcreds : credsDB.Get stepCtx.Project typeGit cfg.RepoURL = .ok (creds, found))
    (hprov : newProvider cfg.RepoURL (gitPRWaiter.gpOpts cfg creds found) = .ok gitProv)
    (hquery : gitProv.GetPullRequest cfg.PRNumber = .ok pr)
    (hopen : pr.Open = true) :
    gitPRWaiter.wait stateKeyCommit typeGit newProvider ctx stepCtx cfg =
      some ({ Status := .Running, Output := none }, none) := by
  simp only [gitPRWaiter.wait, hdb, hcreds, hprov, hquery, hopen, if_true]

/-- The test "PR is open", here with the Merged flag and a merge commit set as well. -/
theorem wait_open_witness :
    gitPRWaiter.wait "commit" "git" (fakeNewProvider ⟨true, true, "abc123"⟩) waiterContext
      testStepCtx testWaitCfg = some ({ Status := .Running, Output := none }, none) :=
  wait_open "commit" "git" (fakeNewProvider ⟨true, true, "abc123"⟩) waiterContext testStepCtx
    testWaitCfg fakeDB { Username := "", Password := "", SSHPrivateKey := "" } false
    (fakeProvider ⟨true, true, "abc123"⟩) ⟨true, true, "abc123"⟩ rfl rfl rfl rfl rfl

/-- C10: once the credentials lookup, the creation of the provider and the query for the
pull request have succeeded, a pull request that is not Open and is Merged makes
`gitPRWaiter.wait` return status Succeeded, a nil error and an Output whose only entry maps
the commit key to the `MergeCommitSHA` of the pull request. -/
theorem wait_merged (stateKeyCommit typeGit : String)
    (newProvider : String → GitProviderOptions → Except Error GitProvider)
    (ctx : Context) (stepCtx : PromotionStepContext) (cfg : GitWaitForPRConfig)
    (credsDB : CredentialsDB) (creds : Credentials) (found : Bool) (gitProv : GitProvider)
    (pr : PullRequest)
    (hdb : credentialsDBFromContext ctx = some credsDB)
    (hcreds : credsDB.Get stepCtx.Project typeGit cfg.RepoURL = .ok (creds, found))
    (hprov : newProvider cfg.RepoURL (gitPRWaiter.gpOpts cfg creds found) = .ok gitProv)
    (hquery : gitProv.GetPullRequest cfg.PRNumber = .ok pr)
    (hclosed : pr.Open = false) (hmerged : pr.Merged = true) :
    gitPRWaiter.wait stateKeyCommit typeGit newProvider ctx stepCtx cfg =
      some ({ Status := .Succeeded,
              Output := some [(stateKeyCommit, .string pr.MergeCommitSHA)] }, none) ∧
    ∃ res out, gitPRWaiter.wait stateKeyCommit typeGit newProvider ctx stepCtx cfg
        = some (res, none) ∧
      res.Status = .Succeeded ∧ res.Output = some out ∧
      out.lookup stateKeyCommit = some (.string pr.MergeCommitSHA) := by
  have h : gitPRWaiter.wait stateKeyCommit typeGit newProvider ctx stepCtx cfg =
      some ({ Status := .Succeeded,
              Output := some [(stateKeyCommit, .string pr.MergeCommitSHA)] }, none) := by
    simp [gitPRWaiter.wait, hdb, hcreds, hprov, hquery, hclosed, hmerged]
  exact ⟨h, _, _, h, rfl, rfl, by simp [List.lookup]⟩

/-- The test "PR is closed and merged", with a merge commit set. -/
theorem wait_merged_witness :
    gitPRWaiter.wait "commit" "git" (fakeNewProvider ⟨false, true, "abc123"⟩) waiterContext
      testStepCtx testWaitCfg =
      some ({ Status := .Succeeded, Output := some [("commit", .string "abc123")] }, none) :=
  (wait_merged "commit" "git" (fakeNewProvider ⟨false, true, "abc123"⟩) waiterContext
    testStepCtx testWaitCfg fakeDB { Username := "", Password := "", SSHPrivateKey := "" } false
    (fakeProvider ⟨false, true, "abc123"⟩) ⟨false, true, "abc123"⟩ rfl rfl rfl rfl rfl rfl).1

/-- C11: once the credentials lookup, the creation of the provider and the query for the
pull request have succeeded, a pull request that is neither Open nor Merged makes
`gitPRWaiter.wait` return status Failed, no Output and the error
`&terminalError{...}`, for which `isTerminal` holds and whose text says that the pull
request was closed without being merged. -/
theorem wait_closed_unmerged (stateKeyCommit typeGit : String)
    (newProvider : String → GitProviderOptions → Except Error GitProvider)
    (ctx : Context) (stepCtx : PromotionStepContext) (cfg : GitWaitForPRConfig)
    (credsDB : CredentialsDB) (creds : Credentials) (found : Bool) (gitProv : GitProvider)
    (pr : PullRequest)
    (hdb : credentialsDBFromContext ctx = some credsDB)
    (hcreds : credsDB.Get stepCtx.Project typeGit cfg.RepoURL = .ok (creds, found))
    (hprov : newProvider cfg.RepoURL (gitPRWaiter.gpOpts cfg creds found) = .ok gitProv)
    (hquery : gitProv.GetPullRequest cfg.PRNumber = .ok pr)
    (hclosed : pr.Open = false) (hunmerged : pr.Merged = false) :
    ∃ err : Error,
      gitPRWaiter.wait stateKeyCommit typeGit newProvider ctx stepCtx cfg =
        some ({ Status := .Failed, Output := none }, some err) ∧
      err = .terminalError (.errorf ("pull request " ++ toString cfg.PRNumber
        ++ " was closed without being merged")) ∧
      isTerminal err = true ∧
      "closed without being merged".data <:+: err.Error.data := by
  refine ⟨_, ?_, rfl, rfl, ?_⟩
  · simp [gitPRWaiter.wait, hdb, hcreds, hprov, hquery, hclosed, hunmerged]
  · refine ⟨("pull request " ++ toString cfg.PRNumber ++ " was ").data, [], ?_⟩
    have hsplit : (" was closed without being merged" : String)
        = " was " ++ "closed without being merged" := by decide
    simp only [Error.Error, List.append_nil]
    rw [hsplit]
    simp only [String.data_append, List.append_assoc]

/-- The test "PR is closed and not merged". -/
theorem wait_closed_unmerged_witness :
    ∃ err : Error,
      gitPRWaiter.wait "commit" "git" (fakeNewProvider ⟨false, false, ""⟩) waiterContext
        testStepCtx testWaitCfg = some ({ Status := .Failed, Output := none }, some err) ∧
      isTerminal err = true :=
  (wait_closed_unmerged "commit" "git" (fakeNewProvider ⟨false, false, ""⟩) waiterContext
    testStepCtx testWaitCfg fakeDB { Username := "", Password := "", SSHPrivateKey := "" } false
    (fakeProvider ⟨false, false, ""⟩) ⟨false, false, ""⟩ rfl rfl rfl rfl rfl rfl).elim
    (fun err h => ⟨err, h.1, h.2.2.1⟩)

/-- C12: for the steps git-wait-for-pr, git-clear and yaml-update, when the schema validation
of the step config returns an error, or the conversion of the config to the typed structure
fails, `Promote` returns status Errored with a non-nil error and does not run its effect.
For the waiter the result is the same for every context and provider, also for a context on
which `wait` would panic; for the two file steps the world, its log of work-tree and file
operations included, is returned as it was. -/
theorem promote_rejects_config (validate : Config → Option Error)
    (marshal : Config → Except Error String) (stepCtx : PromotionStepContext) :
    (∀ (unmarshal : String → Except Error GitWaitForPRConfig),
      (validate stepCtx.Config ≠ none ∨
        ∃ e, ConfigToStruct marshal unmarshal stepCtx.Config = .error e) →
      ∃ err : Error, ∀ (stateKeyCommit typeGit : String)
        (newProvider : String → GitProviderOptions → Except Error GitProvider)
        (ctx : Context),
        gitPRWaiter.Promote validate marshal unmarshal stateKeyCommit typeGit newProvider ctx
          stepCtx = some ({ Status := .Errored, Output := none }, some err)) ∧
    (∀ (σ : Type) (unmarshal : String → Except Error GitClearConfig),
      (validate stepCtx.Config ≠ none ∨
        ∃ e, ConfigToStruct marshal unmarshal stepCtx.Config = .error e) →
      ∃ err : Error, ∀ (secureJoin : String → String → σ → Except Error String)
        (loadWorkTree : String → σ → Except Error (WorkTree σ)) (w : Files σ),
        gitTreeClearer.Promote validate marshal unmarshal secureJoin loadWorkTree stepCtx w =
          (({ Status := .Errored, Output := none }, some err), w)) ∧
    (∀ (σ : Type) (unmarshal : String → Except Error YAMLUpdateConfig),
      (validate stepCtx.Config ≠ none ∨
        ∃ e, ConfigToStruct marshal unmarshal stepCtx.Config = .error e) →
      ∃ err : Error, ∀ (quote : String → String)
        (secureJoin : String → String → σ → Except Error String)
        (setStringsInFile : String → List Update → σ → Option Error × σ) (w : Files σ),
        yamlUpdater.Promote validate marshal unmarshal quote secureJoin setStringsInFile
          stepCtx w = (({ Status := .Errored, Output := none }, some err), w)) := by
  refine ⟨?_, ?_, ?_⟩
  · intro unmarshal h
    cases hv : validate stepCtx.Config with
    | some verr =>
      exact ⟨verr, fun _ _ _ _ => by simp [gitPRWaiter.Promote, hv]⟩
    | none =>
      rcases h with h | ⟨e, he⟩
      · exact absurd hv h
      · exact ⟨_, fun _ _ _ _ => by simp only [gitPRWaiter.Promote, hv, he]; rfl⟩
  · intro σ unmarshal h
    cases hv : validate stepCtx.Config with
    | some verr =>
      exact ⟨verr, fun _ _ _ => by simp [gitTreeClearer.Promote, hv]⟩
    | none =>
      rcases h with h | ⟨e, he⟩
      · exact absurd hv h
      · exact ⟨_, fun _ _ _ => by simp only [gitTreeClearer.Promote, hv, he]; rfl⟩
  · intro σ unmarshal h
    cases hv : validate stepCtx.Config with
    | some verr =>
      exact ⟨verr, fun _ _ _ _ => by simp [yamlUpdater.Promote, hv]⟩
    | none =>
      rcases h with h | ⟨e, he⟩
      · exact absurd hv h
      · exact ⟨_, fun _ _ _ _ => by simp only [yamlUpdater.Promote, hv, he]; rfl⟩

/-! ## Properties of the steps that act on files -/

theorem string_append_ne_empty (a b : String) (h : a ≠ "") : a ++ b ≠ "" := by
  intro hab
  apply h
  rw [String.ext_iff] at hab ⊢
  rw [String.data_append] at hab
  exact (List.append_eq_nil.mp hab).1

theorem foldl_append_ne_empty {α : Type} (f : α → String) (l : List α) (init : String)
    (h : init ≠ "") : l.foldl (fun msg x => msg ++ f x) init ≠ "" := by
  induction l generalizing init with
  | nil => exact h
  | cons x t ih => exact ih _ (string_append_ne_empty init (f x) h)

/-- The commit message of a non-empty update list is not the empty text. -/
theorem generateCommitMessage_ne_empty (quote : String → String) (path : String)
    (updates : List YAMLUpdate) (h : updates ≠ []) :
    yamlUpdater.generateCommitMessage quote path updates ≠ "" := by
  have hlen : ¬ updates.length = 0 := by
    simpa [List.length_eq_zero] using h
  unfold yamlUpdater.generateCommitMessage
  rw [if_neg hlen]
  refine foldl_append_ne_empty _ updates _ ?_
  intro hempty
  rw [String.ext_iff] at hempty
  simp [String.data_append] at hempty

/-- C13: `yamlUpdater.update` returns an Output, which holds the commit message under the
key "commitMessage", exactly when the configured update list is not empty and the update of
the file succeeded. With an empty update list it returns Succeeded with no Output and leaves
the world, its log of file operations included, as it was; when the update of the file fails
it returns Errored with no Output. -/
theorem yamlUpdater_update_output {σ : Type} (quote : String → String)
    (secureJoin : String → String → σ → Except Error String)
    (setStringsInFile : String → List Update → σ → Option Error × σ)
    (stepCtx : PromotionStepContext) (cfg : YAMLUpdateConfig) (w : Files σ) :
    ((yamlUpdater.update quote secureJoin setStringsInFile stepCtx cfg w).1.1.Output ≠ none ↔
      (cfg.Updates ≠ [] ∧
        (yamlUpdater.updateFile quote secureJoin setStringsInFile stepCtx.WorkDir cfg.Path
          (cfg.Updates.map (fun update => { Key := update.Key, Value := update.Value }))
          w).1 = none)) ∧
    ((yamlUpdater.update quote secureJoin setStringsInFile stepCtx cfg w).1.1.Output ≠ none →
      (yamlUpdater.update quote secureJoin setStringsInFile stepCtx cfg w).1 =
        ({ Status := .Succeeded
           Output := some [("commitMessage",
             .string (yamlUpdater.generateCommitMessage quote cfg.Path cfg.Updates))] },
         none) ∧
      yamlUpdater.generateCommitMessage quote cfg.Path cfg.Updates ≠ "") ∧
    (cfg.Updates = [] →
      yamlUpdater.update quote secureJoin setStringsInFile stepCtx cfg w =
        (({ Status := .Succeeded, Output := none }, none), w)) ∧
    (∀ err, cfg.Updates ≠ [] →
      (yamlUpdater.updateFile quote secureJoin setStringsInFile stepCtx.WorkDir cfg.Path
        (cfg.Updates.map (fun update => { Key := update.Key, Value := update.Value }))
        w).1 = some err →
      (yamlUpdater.update quote secureJoin setStringsInFile stepCtx cfg w).1 =
        ({ Status := .Errored, Output := none },
         some (.wrapf ("values file update failed: " ++ err.Error) err))) := by
  have hempty : cfg.Updates = [] →
      yamlUpdater.update quote secureJoin setStringsInFile stepCtx cfg w =
        (({ Status := .Succeeded, Output := none }, none), w) := by
    intro h
    simp [yamlUpdater.update, h]
  have hfail : ∀ err, cfg.Updates ≠ [] →
      (yamlUpdater.updateFile quote secureJoin setStringsInFile stepCtx.WorkDir cfg.Path
        (cfg.Updates.map (fun update => { Key := update.Key, Value := update.Value }))
        w).1 = some err →
      (yamlUpdater.update quote secureJoin setStringsInFile stepCtx cfg w).1 =
        ({ Status := .Errored, Output := none },
         some (.wrapf ("values file update failed: " ++ err.Error) err)) := by
    intro err hne hf
    have hpos : 0 < cfg.Updates.length := List.length_pos.mpr hne
    simp [yamlUpdater.update, hpos, hf]
  have hok : cfg.Updates ≠ [] →
      (yamlUpdater.updateFile quote secureJoin setStringsInFile stepCtx.WorkDir cfg.Path
        (cfg.Updates.map (fun update => { Key := update.Key, Value := update.Value }))
        w).1 = none →
      (yamlUpdater.update quote secureJoin setStringsInFile stepCtx cfg w).1 =
        ({ Status := .Succeeded
           Output := some [("commitMessage",
             .string (yamlUpdater.generateCommitMessage quote cfg.Path cfg.Updates))] },
         none) := by
    intro hne hf
    have hpos : 0 < cfg.Updates.length := List.length_pos.mpr hne
    have hmsg := generateCommitMessage_ne_empty quote cfg.Path cfg.Updates hne
    simp [yamlUpdater.update, hpos, hf, hmsg]
  have hiff : (yamlUpdater.update quote secureJoin setStringsInFile stepCtx cfg w).1.1.Output
      ≠ none ↔
      (cfg.Updates ≠ [] ∧
        (yamlUpdater.updateFile quote secureJoin setStringsInFile stepCtx.WorkDir cfg.Path
          (cfg.Updates.map (fun update => { Key := update.Key, Value := update.Value }))
          w).1 = none) := by
    constructor
    · intro hout
      by_cases hne : cfg.Updates = []
      · rw [hempty hne] at hout
        exact absurd rfl hout
      · refine ⟨hne, ?_⟩
        cases hf : (yamlUpdater.updateFile quote secureJoin setStringsInFile stepCtx.WorkDir
          cfg.Path (cfg.Updates.map (fun update => { Key := update.Key, Value := update.Value }))
          w).1 with
        | none => rfl
        | some err =>
          rw [hfail err hne hf] at hout
          exact absurd rfl hout
    · rintro ⟨hne, hf⟩
      rw [hok hne hf]
      simp
  refine ⟨hiff, ?_, hempty, hfail⟩
  intro hout
  obtain ⟨hne, hf⟩ := hiff.mp hout
  exact ⟨hok hne hf, generateCommitMessage_ne_empty quote cfg.Path cfg.Updates hne⟩

/-- A run of the updater with one update: the file is written once and the commit message
is returned. -/
theorem yamlUpdater_update_example :
    (yamlUpdater.update sampleQuote fakeSecureJoin fakeSetStringsInFile fileStepCtx
      { Path := "values.yaml", Updates := [⟨"image.tag", "v1"⟩] } freshFiles).1 =
      ({ Status := .Succeeded
         Output := some [("commitMessage",
           .string "Updated values.yaml\n\n- image.tag: \"v1\"")] }, none) ∧
    (yamlUpdater.update sampleQuote fakeSecureJoin fakeSetStringsInFile fileStepCtx
      { Path := "values.yaml", Updates := [⟨"image.tag", "v1"⟩] } freshFiles).2.ops =
      [.SetStringsInFile "/work/values.yaml" [⟨"image.tag", "v1"⟩]] := by
  constructor <;> decide

/-- C14: a run of `gitTreeClearer.clear` that returns a nil error has performed, after
loading the work tree, `AddAll` and then `Clear`, in this order and nothing else, and its
result is Succeeded with no Output; such a run happens when the four operations succeed.
When loading the work tree fails, or `AddAll` fails, `Clear` is not performed and the result
is Errored with a non-nil error. -/
theorem gitTreeClearer_clear_order {σ : Type}
    (secureJoin : String → String → σ → Except Error String)
    (loadWorkTree : String → σ → Except Error (WorkTree σ))
    (stepCtx : PromotionStepContext) (cfg : GitClearConfig) (w : Files σ) :
    ((gitTreeClearer.clear secureJoin loadWorkTree stepCtx cfg w).1.2 = none →
      (gitTreeClearer.clear secureJoin loadWorkTree stepCtx cfg w).1.1 =
        { Status := .Succeeded, Output := none } ∧
      ∃ p, secureJoin stepCtx.WorkDir cfg.Path w.env = .ok p ∧
        (gitTreeClearer.clear secureJoin loadWorkTree stepCtx cfg w).2.ops =
          w.ops ++ [.LoadWorkTree p, .AddAll p, .Clear p]) ∧
    (∀ p workTree, secureJoin stepCtx.WorkDir cfg.Path w.env = .ok p →
      loadWorkTree p w.env = .ok workTree → (workTree.AddAll w.env).1 = none →
      (workTree.Clear (workTree.AddAll w.env).2).1 = none →
      gitTreeClearer.clear secureJoin loadWorkTree stepCtx cfg w =
        (({ Status := .Succeeded, Output := none }, none),
          { env := (workTree.Clear (workTree.AddAll w.env).2).2
            ops := w.ops ++ [.LoadWorkTree p, .AddAll p, .Clear p] })) ∧
    (∀ p err, secureJoin stepCtx.WorkDir cfg.Path w.env = .ok p →
      loadWorkTree p w.env = .error err →
      (gitTreeClearer.clear secureJoin loadWorkTree stepCtx cfg w).1.1 =
        { Status := .Errored, Output := none } ∧
      (gitTreeClearer.clear secureJoin loadWorkTree stepCtx cfg w).1.2 ≠ none ∧
      (gitTreeClearer.clear secureJoin loadWorkTree stepCtx cfg w).2.ops =
        w.ops ++ [.LoadWorkTree p]) ∧
    (∀ p workTree err, secureJoin stepCtx.WorkDir cfg.Path w.env = .ok p →
      loadWorkTree p w.env = .ok workTree → (workTree.AddAll w.env).1 = some err →
      (gitTreeClearer.clear secureJoin loadWorkTree stepCtx cfg w).1.1 =
        { Status := .Errored, Output := none } ∧
      (gitTreeClearer.clear secureJoin loadWorkTree stepCtx cfg w).1.2 ≠ none ∧
      (gitTreeClearer.clear secureJoin loadWorkTree stepCtx cfg w).2.ops =
        w.ops ++ [.LoadWorkTree p, .AddAll p]) := by
  refine ⟨?_, ?_, ?_, ?_⟩
  · intro hnil
    unfold gitTreeClearer.clear at hnil ⊢
    cases hj : secureJoin stepCtx.WorkDir cfg.Path w.env with
    | error e => simp [hj] at hnil
    | ok p =>
      cases hl : loadWorkTree p w.env with
      | error e => simp [hj, hl] at hnil
      | ok workTree =>
        cases ha : (workTree.AddAll w.env).1 with
        | some e => simp [hj, hl, ha] at hnil
        | none =>
          cases hc : (workTree.Clear (workTree.AddAll w.env).2).1 with
          | some e => simp [hj, hl, ha, hc] at hnil
          | none => simp [hj, hl, ha, hc]
  · intro p workTree hj hl ha hc
    simp [gitTreeClearer.clear, hj, hl, ha, hc]
  · intro p err hj hl
    simp [gitTreeClearer.clear, hj, hl]
  · intro p workTree err hj hl ha
    simp [gitTreeClearer.clear, hj, hl, ha]

/-- A successful run of the clearer on a fresh world: the three operations, in order. -/
theorem gitTreeClearer_clear_example :
    (gitTreeClearer.clear fakeSecureJoin fakeLoadWorkTree fileStepCtx ⟨"out"⟩ freshFiles).1 =
      ({ Status := .Succeeded, Output := none }, none) ∧
    (gitTreeClearer.clear fakeSecureJoin fakeLoadWorkTree fileStepCtx ⟨"out"⟩ freshFiles).2.ops =
      [.LoadWorkTree "/work/out", .AddAll "/work/out", .Clear "/work/out"] := by
  constructor <;> decide

/-! ## Properties of the promotion step engine -/

theorem attemptEnv_zero {σ : Type} (impl : StepImplementation σ) (ctx : Context)
    (stepCtx : PromotionStepContext) (state : State) (env : σ) :
    attemptEnv impl ctx stepCtx state 0 env = env := rfl

theorem attemptEnv_succ {σ : Type} (impl : StepImplementation σ) (ctx : Context)
    (stepCtx : PromotionStepContext) (state : State) (i : Nat) (env : σ) :
    attemptEnv impl ctx stepCtx state (i + 1) env =
      attemptEnv impl ctx stepCtx state i (impl.Promote ctx stepCtx state env).2 := by
  unfold attemptEnv
  rw [Function.iterate_succ_apply]

/-- An attempt that returns a transient error below the threshold is followed by a retry
that starts where the attempt ended. -/
theorem attempt_retry {σ : Type} (merge : State → State → State) (impl : StepImplementation σ)
    (ctx : Context) (stepCtx : PromotionStepContext) (state : State) (kind : String)
    (counter : Nat) (w : World σ) (res : PromotionStepResult) (err : Error)
    (hres : (impl.Promote ctx stepCtx state w.env).1 = (res, some err))
    (hterm : isTerminal err = false) (hlt : counter + 1 < impl.DefaultErrorThreshold) :
    Execute.attempt merge impl ctx stepCtx state kind counter w =
      Execute.attempt merge impl ctx stepCtx state kind (counter + 1)
        { env := (impl.Promote ctx stepCtx state w.env).2, calls := w.calls ++ [kind] } := by
  rw [Execute.attempt]
  simp only [hres, hterm, hlt, if_true, Bool.false_eq_true, if_false]

/-- An attempt that returns a transient error with the counter reaching the threshold ends
the promotion as Failed. -/
theorem attempt_abandon {σ : Type} (merge : State → State → State)
    (impl : StepImplementation σ) (ctx : Context) (stepCtx : PromotionStepContext)
    (state : State) (kind : String) (counter : Nat) (w : World σ) (res : PromotionStepResult)
    (err : Error) (hres : (impl.Promote ctx stepCtx state w.env).1 = (res, some err))
    (hterm : isTerminal err = false) (hge : ¬ counter + 1 < impl.DefaultErrorThreshold) :
    Execute.attempt merge impl ctx stepCtx state kind counter w =
      (.error ({ Status := .Failed, State := state }, some err),
        { env := (impl.Promote ctx stepCtx state w.env).2, calls := w.calls ++ [kind] }) := by
  rw [Execute.attempt]
  simp only [hres, hterm, hge, Bool.false_eq_true, if_false]

/-- An attempt that succeeds merges its Output and lets the engine advance. -/
theorem attempt_success {σ : Type} (merge : State → State → State)
    (impl : StepImplementation σ) (ctx : Context) (stepCtx : PromotionStepContext)
    (state : State) (kind : String) (counter : Nat) (w : World σ) (out : Option State)
    (hres : (impl.Promote ctx stepCtx state w.env).1 =
      ({ Status := .Succeeded, Output := out }, none)) :
    Execute.attempt merge impl ctx stepCtx state kind counter w =
      (.ok (Execute.mergeOutput merge state out),
        { env := (impl.Promote ctx stepCtx state w.env).2, calls := w.calls ++ [kind] }) := by
  rw [Execute.attempt]
  simp only [hres, if_true]

/-- After `n` transient failures that stay below the threshold, a successful attempt. -/
theorem attempt_fail_then_succeed {σ : Type} (merge : State → State → State)
    (impl : StepImplementation σ) (ctx : Context) (stepCtx : PromotionStepContext)
    (state : State) (kind : String) (out : Option State) (n : Nat) :
    ∀ (counter : Nat) (w : World σ), counter + n < impl.DefaultErrorThreshold →
      (∀ i, i < n → ∃ res err,
        (impl.Promote ctx stepCtx state (attemptEnv impl ctx stepCtx state i w.env)).1
          = (res, some err) ∧ isTerminal err = false) →
      (impl.Promote ctx stepCtx state (attemptEnv impl ctx stepCtx state n w.env)).1 =
        ({ Status := .Succeeded, Output := out }, none) →
      Execute.attempt merge impl ctx stepCtx state kind counter w =
        (.ok (Execute.mergeOutput merge state out),
          { env := attemptEnv impl ctx stepCtx state (n + 1) w.env
            calls := w.calls ++ List.replicate (n + 1) kind }) := by
  induction n with
  | zero =>
    intro counter w _ _ hsucc
    rw [attemptEnv_zero] at hsucc
    rw [attempt_success merge impl ctx stepCtx state kind counter w out hsucc,
      attemptEnv_succ, attemptEnv_zero]
    rfl
  | succ n ih =>
    intro counter w hlt hfail hsucc
    obtain ⟨res, err, hres, hterm⟩ := hfail 0 (Nat.succ_pos n)
    rw [attemptEnv_zero] at hres
    rw [attempt_retry merge impl ctx stepCtx state kind counter w res err hres hterm
      (by omega)]
    rw [ih (counter + 1) _ (by omega)]
    · rw [attemptEnv_succ impl ctx stepCtx state (n + 1) w.env]
      simp only [List.append_assoc, List.singleton_append, ← List.replicate_succ]
    · intro i hi
      have := hfail (i + 1) (by omega)
      rwa [attemptEnv_succ] at this
    · rwa [attemptEnv_succ] at hsucc

/-- With `n + 1` transient failures in a row, the last of which takes the counter to the
threshold, the promotion is abandoned as Failed after exactly `n + 1` invocations. -/
theorem attempt_fail_to_threshold {σ : Type} (merge : State → State → State)
    (impl : StepImplementation σ) (ctx : Context) (stepCtx : PromotionStepContext)
    (state : State) (kind : String) (n : Nat) :
    ∀ (counter : Nat) (w : World σ), counter + n + 1 = impl.DefaultErrorThreshold →
      (∀ i, i < n + 1 → ∃ res err,
        (impl.Promote ctx stepCtx state (attemptEnv impl ctx stepCtx state i w.env)).1
          = (res, some err) ∧ isTerminal err = false) →
      ∃ err, Execute.attempt merge impl ctx stepCtx state kind counter w =
        (.error ({ Status := .Failed, State := state }, some err),
          { env := attemptEnv impl ctx stepCtx state (n + 1) w.env
            calls := w.calls ++ List.replicate (n + 1) kind }) := by
  induction n with
  | zero =>
    intro counter w hT hfail
    obtain ⟨res, err, hres, hterm⟩ := hfail 0 (by omega)
    rw [attemptEnv_zero] at hres
    refine ⟨err, ?_⟩
    rw [attempt_abandon merge impl ctx stepCtx state kind counter w res err hres hterm
      (by omega), attemptEnv_succ, attemptEnv_zero]
    rfl
  | succ n ih =>
    intro counter w hT hfail
    obtain ⟨res, err, hres, hterm⟩ := hfail 0 (by omega)
    rw [attemptEnv_zero] at hres
    rw [attempt_retry merge impl ctx stepCtx state kind counter w res err hres hterm
      (by omega)]
    obtain ⟨err2, h2⟩ := ih (counter + 1)
      { env := (impl.Promote ctx stepCtx state w.env).2, calls := w.calls ++ [kind] }
      (by omega)
      (by
        intro i hi
        have := hfail (i + 1) (by omega)
        rwa [attemptEnv_succ] at this)
    refine ⟨err2, ?_⟩
    rw [h2, attemptEnv_succ impl ctx stepCtx state (n + 1) w.env]
    simp only [List.append_assoc, List.singleton_append, ← List.replicate_succ]

/-- C15: for a step with error threshold `T ≥ 1`, started on a live context with a resolved
implementation and a valid config: if the step fails transiently `T - 1` times and then
succeeds, the promotion of that step yields Succeeded with the shared State into which the
Output of the successful attempt has been merged; if it fails transiently `T` times in a
row, the promotion yields Failed with the State unchanged. In both cases the step has been
invoked exactly `T` times. -/
theorem execute_retry_threshold {σ : Type} (ctxErr : σ → Option String)
    (merge : State → State → State) (quote : String → String)
    (registry : String → Option (StepImplementation σ)) (ctx : Context)
    (promoCtx : PromotionContext) (step : PromotionStep) (impl : StepImplementation σ)
    (w : World σ)
    (hT : 1 ≤ impl.DefaultErrorThreshold)
    (hlive : ctxErr w.env = none)
    (hreg : registry step.Kind = some impl)
    (hcfg : impl.CheckConfig step.Config = none) :
    (∀ out : Option State,
      (∀ i, i < impl.DefaultErrorThreshold - 1 → ∃ res err,
        (impl.Promote ctx (Execute.stepContext promoCtx step) promoCtx.State
          (attemptEnv impl ctx (Execute.stepContext promoCtx step) promoCtx.State i w.env)).1
          = (res, some err) ∧ isTerminal err = false) →
      (impl.Promote ctx (Execute.stepContext promoCtx step) promoCtx.State
        (attemptEnv impl ctx (Execute.stepContext promoCtx step) promoCtx.State
          (impl.DefaultErrorThreshold - 1) w.env)).1
        = ({ Status := .Succeeded, Output := out }, none) →
      Execute ctxErr merge quote registry ctx promoCtx [step] w =
        (({ Status := .Succeeded, State := Execute.mergeOutput merge promoCtx.State out },
          none),
         { env := attemptEnv impl ctx (Execute.stepContext promoCtx step) promoCtx.State
             impl.DefaultErrorThreshold w.env
           calls := w.calls ++ List.replicate impl.DefaultErrorThreshold step.Kind })) ∧
    ((∀ i, i < impl.DefaultErrorThreshold → ∃ res err,
        (impl.Promote ctx (Execute.stepContext promoCtx step) promoCtx.State
          (attemptEnv impl ctx (Execute.stepContext promoCtx step) promoCtx.State i w.env)).1
          = (res, some err) ∧ isTerminal err = false) →
      ∃ err, Execute ctxErr merge quote registry ctx promoCtx [step] w =
        (({ Status := .Failed, State := promoCtx.State }, some err),
         { env := attemptEnv impl ctx (Execute.stepContext promoCtx step) promoCtx.State
             impl.DefaultErrorThreshold w.env
           calls := w.calls ++ List.replicate impl.DefaultErrorThreshold step.Kind })) := by
  obtain ⟨n, hn⟩ : ∃ n, impl.DefaultErrorThreshold = n + 1 := ⟨_, (Nat.succ_pred_eq_of_pos hT).symm⟩
  constructor
  · intro out hfail hsucc
    rw [hn, Nat.add_sub_cancel] at hfail hsucc
    have h := attempt_fail_then_succeed merge impl ctx (Execute.stepContext promoCtx step)
      promoCtx.State step.Kind out n 0 w (by omega) hfail hsucc
    simp only [Execute, Execute.loop, hlive, hreg, hcfg, h, hn]
  · intro hfail
    rw [hn] at hfail
    obtain ⟨err, h⟩ := attempt_fail_to_threshold merge impl ctx
      (Execute.stepContext promoCtx step) promoCtx.State step.Kind n 0 w (by omega) hfail
    exact ⟨err, by simp only [Execute, Execute.loop, hlive, hreg, hcfg, h, hn]⟩

/-- A step with threshold three: two transient failures and a success give Succeeded with
the Output of the third attempt; three transient failures give Failed; the step is invoked
three times in either case. -/
theorem execute_retry_threshold_witness :
    ((Execute (fun _ => none) sampleMerge sampleQuote (flakyRegistry (flakyStep 2 3))
        backgroundContext testPromoCtx [⟨"flaky", []⟩] freshWorld).1 =
        ({ Status := .Succeeded, State := [("attempts", .number 2)] }, none) ∧
      (Execute (fun _ => none) sampleMerge sampleQuote (flakyRegistry (flakyStep 2 3))
        backgroundContext testPromoCtx [⟨"flaky", []⟩] freshWorld).2.calls =
        ["flaky", "flaky", "flaky"]) ∧
    ∃ err,
      (Execute (fun _ => none) sampleMerge sampleQuote (flakyRegistry (flakyStep 3 3))
        backgroundContext testPromoCtx [⟨"flaky", []⟩] freshWorld).1 =
        ({ Status := .Failed, State := [] }, some err) ∧
      (Execute (fun _ => none) sampleMerge sampleQuote (flakyRegistry (flakyStep 3 3))
        backgroundContext testPromoCtx [⟨"flaky", []⟩] freshWorld).2.calls =
        ["flaky", "flaky", "flaky"] := by
  have hok := (execute_retry_threshold (fun _ => none) sampleMerge sampleQuote
    (flakyRegistry (flakyStep 2 3)) backgroundContext testPromoCtx ⟨"flaky", []⟩
    (flakyStep 2 3) freshWorld (by decide) rfl rfl rfl).1 (some [("attempts", .number 2)])
    (by
      intro i hi
      have hi2 : i < 2 := hi
      interval_cases i <;> exact ⟨_, _, rfl, rfl⟩)
    rfl
  have hfail := (execute_retry_threshold (fun _ => none) sampleMerge sampleQuote
    (flakyRegistry (flakyStep 3 3)) backgroundContext testPromoCtx ⟨"flaky", []⟩
    (flakyStep 3 3) freshWorld (by decide) rfl rfl rfl).2
    (by
      intro i hi
      have hi2 : i < 3 := hi
      interval_cases i <;> exact ⟨_, _, rfl, rfl⟩)
  refine ⟨⟨?_, ?_⟩, ?_⟩
  · rw [hok]; rfl
  · rw [hok]; rfl
  · obtain ⟨err, h⟩ := hfail
    exact ⟨err, by rw [h]; rfl, by rw [h]; rfl⟩

/-! ## Properties of commit and tag selection -/

/-- The selectors of a list of well-formed patterns: there is one per pattern, and a path
satisfies one of them exactly when it satisfies one of the patterns. -/
theorem getPathSelectors_ok (regexpPrefix regexPrefix globPrefix : String)
    (regexCompile globCompile : String → Except Error (String → Bool))
    (patterns : List String)
    (hwf : ∀ p ∈ patterns, ∃ selector, getPathSelector regexpPrefix regexPrefix globPrefix
      regexCompile globCompile p = .ok selector) :
    ∃ selectors, getPathSelectors regexpPrefix regexPrefix globPrefix regexCompile globCompile
        patterns = .ok selectors ∧
      selectors.length = patterns.length ∧
      ∀ path, matchesPathSelector selectors path = true ↔
        ∃ p ∈ patterns, satisfiesPattern regexpPrefix regexPrefix globPrefix regexCompile
          globCompile p path := by
  induction patterns with
  | nil => exact ⟨[], rfl, rfl, fun path => by simp [matchesPathSelector]⟩
  | cons p rest ih =>
    obtain ⟨selector, hsel⟩ := hwf p (List.mem_cons_self p rest)
    obtain ⟨selectors, hsels, hlen, hiff⟩ :=
      ih (fun q hq => hwf q (List.mem_cons_of_mem p hq))
    refine ⟨selector :: selectors, ?_, by simp [hlen], ?_⟩
    · simp only [getPathSelectors, hsel, hsels]
    · intro path
      have hiff' := hiff path
      simp only [matchesPathSelector] at hiff' ⊢
      rw [List.any_cons, Bool.or_eq_true, hiff']
      constructor
      · rintro (h | ⟨q, hq, hsat⟩)
        · exact ⟨p, List.mem_cons_self p rest, selector, hsel, h⟩
        · exact ⟨q, List.mem_cons_of_mem p hq, hsat⟩
      · rintro ⟨q, hq, hsat⟩
        rcases List.mem_cons.mp hq with rfl | hq
        · obtain ⟨selector', hsel', hacc⟩ := hsat
          rw [hsel] at hsel'
          injection hsel' with hsel'
          subst hsel'
          exact Or.inl hacc
        · exact Or.inr ⟨q, hq, hsat⟩

/-- The loop over the changed paths returns true exactly when some path is a match. -/
theorem matchesPathsFilters_loop_iff (includeSelectors excludeSelectors : List (String → Bool))
    (diffs : List String) :
    matchesPathsFilters.loop includeSelectors excludeSelectors diffs = true ↔
      ∃ path ∈ diffs,
        (includeSelectors.length = 0 ∨ matchesPathSelector includeSelectors path = true) ∧
        ¬ matchesPathSelector excludeSelectors path = true := by
  induction diffs with
  | nil => simp [matchesPathsFilters.loop]
  | cons path rest ih =>
    by_cases h : (includeSelectors.length = 0 ∨
        matchesPathSelector includeSelectors path = true) ∧
        ¬ matchesPathSelector excludeSelectors path = true
    · rw [matchesPathsFilters.loop, if_pos h]
      exact ⟨fun _ => ⟨path, List.mem_cons_self path rest, h⟩, fun _ => rfl⟩
    · rw [matchesPathsFilters.loop, if_neg h, ih]
      constructor
      · rintro ⟨q, hq, hm⟩
        exact ⟨q, List.mem_cons_of_mem path hq, hm⟩
      · rintro ⟨q, hq, hm⟩
        rcases List.mem_cons.mp hq with rfl | hq
        · exact absurd hm h
        · exact ⟨q, hq, hm⟩

/-- C16: when every include and exclude pattern is well-formed, `matchesPathsFilters`
returns, with no error, true exactly when some changed path satisfies an include pattern,
or no include pattern is configured, and satisfies no exclude pattern; for an empty list of
changed paths it returns false. A pattern with a regex prefix is matched by the compiled
regular expression, a pattern with the glob prefix by the compiled glob, and a path
satisfies a pattern without prefix exactly when the pattern is a literal prefix of it. -/
theorem matchesPathsFilters_iff (regexpPrefix regexPrefix globPrefix : String)
    (regexCompile globCompile : String → Except Error (String → Bool))
    (includePaths excludePaths diffs : List String)
    (hwf : ∀ p ∈ includePaths ++ excludePaths, ∃ selector, getPathSelector regexpPrefix
      regexPrefix globPrefix regexCompile globCompile p = .ok selector) :
    (∃ b, matchesPathsFilters regexpPrefix regexPrefix globPrefix regexCompile globCompile
        includePaths excludePaths diffs = .ok b ∧
      (b = true ↔ ∃ path ∈ diffs,
        (includePaths = [] ∨ ∃ p ∈ includePaths, satisfiesPattern regexpPrefix regexPrefix
          globPrefix regexCompile globCompile p path) ∧
        ¬ ∃ p ∈ excludePaths, satisfiesPattern regexpPrefix regexPrefix globPrefix
          regexCompile globCompile p path) ∧
      (diffs = [] → b = false)) ∧
    (∀ p, hasPrefix p regexpPrefix = true →
      getPathSelector regexpPrefix regexPrefix globPrefix regexCompile globCompile p =
        regexCompile (trimPrefix p regexpPrefix)) ∧
    (∀ p, hasPrefix p regexpPrefix = false → hasPrefix p regexPrefix = true →
      getPathSelector regexpPrefix regexPrefix globPrefix regexCompile globCompile p =
        regexCompile (trimPrefix p regexPrefix)) ∧
    (∀ p, hasPrefix p regexpPrefix = false → hasPrefix p regexPrefix = false →
      hasPrefix p globPrefix = true →
      getPathSelector regexpPrefix regexPrefix globPrefix regexCompile globCompile p =
        globCompile (trimPrefix p globPrefix)) ∧
    (∀ p path, hasPrefix p regexpPrefix = false → hasPrefix p regexPrefix = false →
      hasPrefix p globPrefix = false →
      (satisfiesPattern regexpPrefix regexPrefix globPrefix regexCompile globCompile p path ↔
        p.data <+: path.data)) := by
  refine ⟨?_, ?_, ?_, ?_, ?_⟩
  · obtain ⟨inc, hinc, hinclen, hinciff⟩ := getPathSelectors_ok regexpPrefix regexPrefix
      globPrefix regexCompile globCompile includePaths
      (fun p hp => hwf p (List.mem_append_left _ hp))
    obtain ⟨exc, hexc, _, hexciff⟩ := getPathSelectors_ok regexpPrefix regexPrefix
      globPrefix regexCompile globCompile excludePaths
      (fun p hp => hwf p (List.mem_append_right _ hp))
    refine ⟨matchesPathsFilters.loop inc exc diffs, ?_, ?_, ?_⟩
    · simp only [matchesPathsFilters, hinc, hexc]
    · rw [matchesPathsFilters_loop_iff]
      have hnil : inc.length = 0 ↔ includePaths = [] := by
        rw [hinclen, List.length_eq_zero]
      constructor
      · rintro ⟨path, hpath, hin, hex⟩
        refine ⟨path, hpath, ?_, ?_⟩
        · rcases hin with h | h
          · exact Or.inl (hnil.mp h)
          · exact Or.inr ((hinciff path).mp h)
        · exact fun h => hex ((hexciff path).mpr h)
      · rintro ⟨path, hpath, hin, hex⟩
        refine ⟨path, hpath, ?_, ?_⟩
        · rcases hin with h | h
          · exact Or.inl (hnil.mpr h)
          · exact Or.inr ((hinciff path).mpr h)
        · exact fun h => hex ((hexciff path).mp h)
    · intro hd
      subst hd
      rfl
  · intro p h1
    simp [getPathSelector, h1]
  · intro p h1 h2
    simp [getPathSelector, h1, h2]
  · intro p h1 h2 h3
    simp [getPathSelector, h1, h2, h3]
  · intro p path h1 h2 h3
    have hsel : getPathSelector regexpPrefix regexPrefix globPrefix regexCompile globCompile p
        = .ok (fun path => hasPrefix path p) := by
      simp [getPathSelector, h1, h2, h3]
    constructor
    · rintro ⟨selector, hs, hacc⟩
      rw [hsel] at hs
      injection hs with hs
      subst hs
      exact List.isPrefixOf_iff_prefix.mp hacc
    · intro hp
      exact ⟨_, hsel, List.isPrefixOf_iff_prefix.mpr hp⟩

/-- The test "success with matching prefix filters configuration". -/
theorem matchesPathsFilters_iff_witness :
    ∃ b, matchesPathsFilters "regexp:" "regex:" "glob:" rejectCompile rejectCompile
        ["path1/"] ["nonexistent"] ["path1/values.yaml", "path2/_helpers.tpl"] = .ok b ∧
      (b = true ↔ ∃ path ∈ ["path1/values.yaml", "path2/_helpers.tpl"],
        (["path1/"] = [] ∨ ∃ p ∈ ["path1/"], satisfiesPattern "regexp:" "regex:" "glob:"
          rejectCompile rejectCompile p path) ∧
        ¬ ∃ p ∈ ["nonexistent"], satisfiesPattern "regexp:" "regex:" "glob:"
          rejectCompile rejectCompile p path) ∧
      (["path1/values.yaml", "path2/_helpers.tpl"] = [] → b = false) :=
  (matchesPathsFilters_iff "regexp:" "regex:" "glob:" rejectCompile rejectCompile
    ["path1/"] ["nonexistent"] ["path1/values.yaml", "path2/_helpers.tpl"]
    (by
      intro p hp
      simp only [List.cons_append, List.nil_append, List.mem_cons, List.mem_singleton,
        List.not_mem_nil, or_false] at hp
      rcases hp with rfl | rfl
      · exact ⟨_, rfl⟩
      · exact ⟨_, rfl⟩)).1

/-- The prefix test of the suite evaluates to true, the test with a pattern that no path
starts with to false. -/
theorem matchesPathsFilters_example :
    (matchesPathsFilters "regexp:" "regex:" "glob:" rejectCompile rejectCompile
      ["path1/"] ["nonexistent"] ["path1/values.yaml", "path2/_helpers.tpl"]).toOption
        = some true ∧
    (matchesPathsFilters "regexp:" "regex:" "glob:" rejectCompile rejectCompile
      ["path2/*.tpl"] ["*/?helpers.tpl"] ["path1/values.yaml", "path2/_helpers.tpl"]).toOption
        = some false := by
  constructor <;> decide

/-- C17: a tag is retained by tag filtering exactly when it is one of the tags, `allows`
holds of it and `ignores` does not; `allows` holds exactly when no regular expression is
configured or the expression matches the tag, and `ignores` holds exactly when the tag is
an element of the ignore list. The retained tags keep their listing order. -/
theorem filterTags_retains (tags : List String) (allowRegex : Option (String → Bool))
    (ignore : List String) (tag : String) :
    (tag ∈ filterTags tags allowRegex ignore ↔
      tag ∈ tags ∧ allows tag allowRegex = true ∧ ¬ ignores tag ignore = true) ∧
    (allows tag allowRegex = true ↔
      allowRegex = none ∨ ∃ regex, allowRegex = some regex ∧ regex tag = true) ∧
    (ignores tag ignore = true ↔ tag ∈ ignore) ∧
    (filterTags tags allowRegex ignore).Sublist tags := by
  refine ⟨?_, ?_, ?_, List.filter_sublist tags⟩
  · simp [filterTags, List.mem_filter]
  · cases allowRegex with
    | none => simp [allows]
    | some regex => simp [allows]
  · simp [ignores]

/-- The tests of `allows` and `ignores` without a regular expression, and a filtering. -/
theorem filterTags_example :
    allows "abc" none = true ∧ ignores "abc" ["abc"] = true ∧ ignores "123" ["abc"] = false ∧
    filterTags ["abc", "xyz", "foo"] none ["xyz"] = ["abc", "foo"] := by
  decide

theorem foldl_last_spec (rest : List String) :
    ∀ init : String,
      (rest.foldl (fun best t => if best < t then t else best) init = init ∨
        rest.foldl (fun best t => if best < t then t else best) init ∈ rest) ∧
      init ≤ rest.foldl (fun best t => if best < t then t else best) init ∧
      ∀ t ∈ rest, t ≤ rest.foldl (fun best t => if best < t then t else best) init := by
  induction rest with
  | nil => intro init; simp
  | cons x t ih =>
    intro init
    obtain ⟨hmem, hle, hall⟩ := ih (if init < x then x else init)
    simp only [List.foldl_cons]
    have hinit : init ≤ (if init < x then x else init) := by
      split
      · exact le_of_lt ‹_›
      · exact le_refl _
    have hx : x ≤ (if init < x then x else init) := by
      split
      · exact le_refl _
      · exact not_lt.mp ‹_›
    refine ⟨?_, le_trans hinit hle, ?_⟩
    · rcases hmem with h | h
      · rw [h]
        by_cases hlt : init < x
        · rw [if_pos hlt]
          exact Or.inr (List.mem_cons_self x t)
        · rw [if_neg hlt]
          exact Or.inl rfl
      · exact Or.inr (List.mem_cons_of_mem x h)
    · intro y hy
      rcases List.mem_cons.mp hy with rfl | hy
      · exact le_trans hx hle
      · exact hall y hy

/-- The selected tag of a non-empty list is one of its tags and is the greatest of them. -/
theorem selectLexicallyLastTag_max (tags : List String) (h : tags ≠ []) :
    selectLexicallyLastTag tags ∈ tags ∧ ∀ t ∈ tags, t ≤ selectLexicallyLastTag tags := by
  cases tags with
  | nil => exact absurd rfl h
  | cons tag rest =>
    obtain ⟨hmem, hle, hall⟩ := foldl_last_spec rest tag
    refine ⟨?_, ?_⟩
    · rcases hmem with hm | hm
      · rw [selectLexicallyLastTag, hm]
        exact List.mem_cons_self tag rest
      · exact List.mem_cons_of_mem tag hm
    · intro t ht
      rcases List.mem_cons.mp ht with rfl | ht
      · exact hle
      · exact hall t ht

/-- C18: for a non-empty tag list `selectLexicallyLastTag` returns an element of the list
that is greater than or equal to every element in the order of strings; the result does not
depend on the order of the list; the list abc, xyz, foo, bar gives xyz; and an empty list
gives the empty text. -/
theorem selectLexicallyLastTag_spec :
    (∀ tags : List String, tags ≠ [] →
      selectLexicallyLastTag tags ∈ tags ∧ ∀ t ∈ tags, t ≤ selectLexicallyLastTag tags) ∧
    (∀ tags tags' : List String, tags.Perm tags' →
      selectLexicallyLastTag tags = selectLexicallyLastTag tags') ∧
    selectLexicallyLastTag ["abc", "xyz", "foo", "bar"] = "xyz" ∧
    selectLexicallyLastTag [] = "" := by
  refine ⟨selectLexicallyLastTag_max, ?_, ?_, rfl⟩
  · intro tags tags' hperm
    by_cases h : tags = []
    · subst h
      rw [List.Perm.nil_eq hperm]
    · have h' : tags' ≠ [] := fun h2 => h (by subst h2; exact List.Perm.eq_nil hperm)
      obtain ⟨hm, hmax⟩ := selectLexicallyLastTag_max tags h
      obtain ⟨hm', hmax'⟩ := selectLexicallyLastTag_max tags' h'
      exact le_antisymm (hmax' _ (hperm.mem_iff.mp hm)) (hmax _ (hperm.mem_iff.mpr hm'))
  · have h1 : ("abc" : String) < "xyz" := String.lt_iff_toList_lt.mpr (by decide)
    have h2 : ¬ ("xyz" : String) < "foo" :=
      fun h => absurd (String.lt_iff_toList_lt.mp h) (by decide)
    have h3 : ¬ ("xyz" : String) < "bar" :=
      fun h => absurd (String.lt_iff_toList_lt.mp h) (by decide)
    simp only [selectLexicallyLastTag, List.foldl_cons, List.foldl_nil, if_pos h1, if_neg h2,
      if_neg h3]

/-- A tag with its version is a candidate exactly when the tag is listed, parses as that
version, and the version satisfies the constraint if there is one. -/
theorem mem_semverCandidates {V : Type} (lib : Semver V) (constraint : Option (V → Bool))
    (tags : List String) (tag : String) (v : V) :
    (tag, v) ∈ semverCandidates lib constraint tags ↔
      tag ∈ tags ∧ lib.newVersion tag = some v ∧
        ∀ check, constraint = some check → check v = true := by
  unfold semverCandidates
  rw [List.mem_filterMap]
  constructor
  · rintro ⟨t, ht, hsome⟩
    cases hv : lib.newVersion t with
    | none => simp [hv] at hsome
    | some sv =>
      cases constraint with
      | none =>
        simp only [hv, Option.some.injEq, Prod.mk.injEq] at hsome
        obtain ⟨rfl, rfl⟩ := hsome
        exact ⟨ht, hv, fun _ h => by cases h⟩
      | some check =>
        by_cases hc : check sv = true
        · simp only [hv, hc, if_true, Option.some.injEq, Prod.mk.injEq] at hsome
          obtain ⟨rfl, rfl⟩ := hsome
          exact ⟨ht, hv, fun c h => by cases h; exact hc⟩
        · simp [hv, hc] at hsome
  · rintro ⟨ht, hv, hc⟩
    refine ⟨tag, ht, ?_⟩
    cases constraint with
    | none => simp [hv]
    | some check => simp [hv, hc check rfl]

/-- The fold that keeps the candidate of highest precedence returns one of the candidates;
it is the first one or exceeds it, and no later candidate exceeds it. -/
theorem foldl_precedence_step {V : Type} (lib : Semver V)
    (hirr : ∀ v, lib.greaterThan v v = false)
    (htrans : ∀ a b c, lib.greaterThan a b = true → lib.greaterThan b c = true →
      lib.greaterThan a c = true)
    (rest : List (String × V)) :
    ∀ first : String × V,
      (rest.foldl (fun best c => if lib.greaterThan c.2 best.2 then c else best) first
        ∈ first :: rest) ∧
      (rest.foldl (fun best c => if lib.greaterThan c.2 best.2 then c else best) first = first ∨
        lib.greaterThan
          (rest.foldl (fun best c => if lib.greaterThan c.2 best.2 then c else best) first).2
          first.2 = true) ∧
      ∀ c ∈ rest, lib.greaterThan c.2
        (rest.foldl (fun best c => if lib.greaterThan c.2 best.2 then c else best) first).2
          = false := by
  induction rest with
  | nil =>
    intro first
    simp
  | cons x t ih =>
    intro first
    simp only [List.foldl_cons]
    obtain ⟨hmem, hchain, hall⟩ := ih (if lib.greaterThan x.2 first.2 then x else first)
    generalize t.foldl (fun best c => if lib.greaterThan c.2 best.2 then c else best)
      (if lib.greaterThan x.2 first.2 then x else first) = r at hmem hchain hall
    cases hx : lib.greaterThan x.2 first.2 with
    | true =>
      simp only [hx, if_true] at hmem hchain
      refine ⟨?_, ?_, ?_⟩
      · rcases List.mem_cons.mp hmem with h | h
        · rw [h]; exact List.mem_cons_of_mem _ (List.mem_cons_self x t)
        · exact List.mem_cons_of_mem _ (List.mem_cons_of_mem _ h)
      · rcases hchain with h | h
        · rw [h]; exact Or.inr hx
        · exact Or.inr (htrans _ _ _ h hx)
      · intro c hc
        rcases List.mem_cons.mp hc with rfl | hc
        · rcases hchain with h | h
          · rw [h]; exact hirr _
          · cases hcr : lib.greaterThan c.2 r.2 with
            | false => rfl
            | true =>
              have := htrans _ _ _ hcr h
              rw [hirr] at this
              exact Bool.noConfusion this
        · exact hall c hc
    | false =>
      simp only [hx, Bool.false_eq_true, if_false] at hmem hchain
      refine ⟨?_, hchain, ?_⟩
      · rcases List.mem_cons.mp hmem with h | h
        · rw [h]; exact List.mem_cons_self first (x :: t)
        · exact List.mem_cons_of_mem _ (List.mem_cons_of_mem _ h)
      · intro c hc
        rcases List.mem_cons.mp hc with rfl | hc
        · rcases hchain with h | h
          · rw [h]; exact hx
          · cases hcr : lib.greaterThan c.2 r.2 with
            | false => rfl
            | true =>
              have := htrans _ _ _ hcr h
              rw [hx] at this
              exact Bool.noConfusion this
        · exact hall c hc

/-- C19: `selectSemverTag` returns an error exactly when the constraint is not empty and
does not parse, whatever the tags are. Otherwise it returns, with no error, the empty text
when no tag qualifies, and else a listed tag that parses as a version satisfying the
constraint and that no qualifying tag exceeds in precedence; a tag qualifies when it parses
as a version that satisfies the constraint, any version when no constraint is given, so
tags that do not parse are skipped. Precedence is taken to be irreflexive and transitive. -/
theorem selectSemverTag_spec {V : Type} (lib : Semver V) (tags : List String)
    (constraintStr : String)
    (hirr : ∀ v, lib.greaterThan v v = false)
    (htrans : ∀ a b c, lib.greaterThan a b = true → lib.greaterThan b c = true →
      lib.greaterThan a c = true) :
    ((∃ err, selectSemverTag lib tags constraintStr = .error err) ↔
      (constraintStr ≠ "" ∧ ∃ e, lib.newConstraint constraintStr = .error e)) ∧
    (∀ constraint : Option (V → Bool),
      ((constraintStr = "" ∧ constraint = none) ∨
        (constraintStr ≠ "" ∧ ∃ check, lib.newConstraint constraintStr = .ok check ∧
          constraint = some check)) →
      ((∀ tag v, ¬ (tag ∈ tags ∧ lib.newVersion tag = some v ∧
          ∀ check, constraint = some check → check v = true)) →
        selectSemverTag lib tags constraintStr = .ok "") ∧
      ((∃ tag v, tag ∈ tags ∧ lib.newVersion tag = some v ∧
          ∀ check, constraint = some check → check v = true) →
        ∃ tag v, selectSemverTag lib tags constraintStr = .ok tag ∧
          tag ∈ tags ∧ lib.newVersion tag = some v ∧
          (∀ check, constraint = some check → check v = true) ∧
          ∀ tag' v', tag' ∈ tags → lib.newVersion tag' = some v' →
            (∀ check, constraint = some check → check v' = true) →
            lib.greaterThan v' v = false)) := by
  constructor
  · unfold selectSemverTag
    by_cases hempty : constraintStr = ""
    · simp only [hempty, if_true, ne_eq, not_true_eq_false, false_and, iff_false, not_exists]
      intro err
      cases semverCandidates lib none tags <;> simp
    · cases hc : lib.newConstraint constraintStr with
      | error e => simp [hempty, hc]
      | ok check =>
        simp only [hempty, if_false, hc, ne_eq, not_false_eq_true, true_and, reduceCtorEq,
          exists_false, iff_false, not_exists]
        intro err
        cases semverCandidates lib (some check) tags <;> simp
  · intro constraint hcons
    have hsel : selectSemverTag lib tags constraintStr =
        match semverCandidates lib constraint tags with
        | [] => .ok ""
        | first :: rest =>
          .ok (rest.foldl (fun best c => if lib.greaterThan c.2 best.2 then c else best)
            first).1 := by
      unfold selectSemverTag
      rcases hcons with ⟨h1, h2⟩ | ⟨h1, check, h2, h3⟩
      · subst h2
        simp only [h1, if_true]
      · subst h3
        simp only [h1, if_false, h2]
    constructor
    · intro hnone
      have hnil : semverCandidates lib constraint tags = [] := by
        apply List.eq_nil_iff_forall_not_mem.mpr
        rintro ⟨tag, v⟩ hmem
        exact hnone tag v ((mem_semverCandidates lib constraint tags tag v).mp hmem)
      rw [hsel, hnil]
    · rintro ⟨tag0, v0, h0⟩
      have hmem0 := (mem_semverCandidates lib constraint tags tag0 v0).mpr h0
      cases hcand : semverCandidates lib constraint tags with
      | nil => rw [hcand] at hmem0; exact absurd hmem0 (List.not_mem_nil _)
      | cons first rest =>
        obtain ⟨hmem, hchain, hall⟩ := foldl_precedence_step lib hirr htrans rest first
        rw [hsel, hcand]
        simp only
        generalize rest.foldl (fun best c => if lib.greaterThan c.2 best.2 then c else best)
          first = r at hmem hchain hall ⊢
        have hr : (r.1, r.2) ∈ semverCandidates lib constraint tags := by
          rw [hcand]; exact hmem
        obtain ⟨hr1, hr2, hr3⟩ := (mem_semverCandidates lib constraint tags r.1 r.2).mp hr
        refine ⟨r.1, r.2, rfl, hr1, hr2, hr3, ?_⟩
        intro tag' v' ht' hv' hc'
        have hmem' : (tag', v') ∈ first :: rest := by
          rw [← hcand]
          exact (mem_semverCandidates lib constraint tags tag' v').mpr ⟨ht', hv', hc'⟩
        rcases List.mem_cons.mp hmem' with h | h
        · rcases hchain with hc | hc
          · rw [hc, ← h]; exact hirr _
          · cases hgt : lib.greaterThan v' r.2 with
            | false => rfl
            | true =>
              have hfirst : first.2 = v' := by rw [← h]
              rw [hfirst] at hc
              have := htrans _ _ _ hgt hc
              rw [hirr] at this
              exact Bool.noConfusion this
        · exact hall (tag', v') h

/-- The tests of the suite on the stand-in library: the highest version without a
constraint, the highest one below 2.0.0, no tag that satisfies the constraint, and a
constraint that does not parse. -/
theorem selectSemverTag_spec_witness :
    (∃ tag v, selectSemverTag testSemver ["v1.0.0", "v2.2.3"] "<2.0.0" = .ok tag ∧
      tag ∈ ["v1.0.0", "v2.2.3"] ∧ testSemver.newVersion tag = some v) ∧
    selectSemverTag testSemver ["v1.0.0", "v2.2.3"] "<2.0.0" = .ok "v1.0.0" ∧
    selectSemverTag testSemver ["v1.0.0", "v1.2.3"] "" = .ok "v1.2.3" ∧
    selectSemverTag testSemver ["v1.0.0", "v1.2.3"] ">=2.0.0" = .ok "" ∧
    selectSemverTag testSemver ["abc", "xyz", "foo", "bar"] "" = .ok "" := by
  refine ⟨?_, rfl, rfl, rfl, rfl⟩
  obtain ⟨tag, v, h1, h2, h3, _⟩ :=
    ((selectSemverTag_spec testSemver ["v1.0.0", "v2.2.3"] "<2.0.0"
      (by intro v; simp [testSemver])
      (by
        intro a b c hab hbc
        simp only [testSemver, decide_eq_true_eq] at hab hbc ⊢
        omega)).2
      (some (fun v => decide (v < 200))) (Or.inr ⟨by decide, _, rfl, rfl⟩)).2
      ⟨"v1.0.0", 100, by decide, rfl, fun check h => by cases h; decide⟩
  exact ⟨tag, v, h1, h2, h3⟩

/-! ## Properties of Freight identifiers -/

theorem list_lt_append_left (p x y : List Char) (h : x < y) : p ++ x < p ++ y := by
  induction p with
  | nil => exact h
  | cons c t ih => exact List.Lex.cons ih

theorem list_lt_append_cons (p : List Char) (c : Char) (t : List Char) :
    p < p ++ c :: t := by
  induction p with
  | nil => exact List.Lex.nil
  | cons d s ih => exact List.Lex.cons ih

/-- The canonical representations of two commits of one repository with the same ID and
different tags, one of which may be absent, are different. -/
theorem commitArtifact_ne (fns : IDFunctions) (c1 c2 : GitCommit)
    (hurl : c1.RepoURL = c2.RepoURL) (hid : c1.ID = c2.ID) (htag : c1.Tag ≠ c2.Tag) :
    GenerateID.commitArtifact fns c1 ≠ GenerateID.commitArtifact fns c2 := by
  intro h
  unfold GenerateID.commitArtifact at h
  rw [hurl, hid] at h
  by_cases h1 : c1.Tag = "" <;> by_cases h2 : c2.Tag = ""
  · exact htag (h1.trans h2.symm)
  · simp only [h1, h2, ne_eq, not_true_eq_false, not_false_eq_true, if_true, if_false] at h
    have := congrArg (fun s : String => s.data.length) h
    simp [String.data_append] at this
    omega
  · simp only [h1, h2, ne_eq, not_true_eq_false, not_false_eq_true, if_true, if_false] at h
    have := congrArg (fun s : String => s.data.length) h
    simp [String.data_append] at this
    omega
  · simp only [h1, h2, ne_eq, not_false_eq_true, if_true] at h
    rw [String.ext_iff] at h
    simp only [String.data_append, List.append_assoc] at h
    have h3 := List.append_cancel_left (List.append_cancel_left h)
    have h4 := List.append_cancel_right h3
    exact htag (String.ext_iff.mpr h4)

theorem colliding_lt_first (u : String) :
    u ++ ":" ++ collidingTagA u ++ ":" ++ "1" < u ++ ":" ++ collidingTag1 u ++ ":" ++ "1" := by
  rw [String.lt_iff_toList_lt]
  simp only [collidingTagA, collidingTag1, String.toList, String.data_append,
    List.append_assoc]
  refine list_lt_append_left _ _ _ (list_lt_append_left _ _ _ ?_)
  exact List.Lex.rel (by decide)

theorem colliding_lt_second (u : String) :
    u ++ ":" ++ collidingTag2 u ++ ":" ++ "1" < u ++ ":" ++ collidingTagA u ++ ":" ++ "1" := by
  rw [String.lt_iff_toList_lt]
  simp only [collidingTagA, collidingTag2, String.toList, String.data_append,
    List.append_assoc]
  refine list_lt_append_left _ _ _ (list_lt_append_left _ _ _ (list_lt_append_left _ _ _
    (list_lt_append_left _ _ _ (list_lt_append_left _ _ _ (list_lt_append_left _ _ _
    (list_lt_append_left _ _ _ (list_lt_append_left _ _ _ ?_)))))))
  exact list_lt_append_cons _ '|' _

theorem colliding_join (u : String) :
    (u ++ ":" ++ collidingTagA u ++ ":" ++ "1") ++ "|"
        ++ (u ++ ":" ++ collidingTag1 u ++ ":" ++ "1") =
      (u ++ ":" ++ collidingTag2 u ++ ":" ++ "1") ++ "|"
        ++ (u ++ ":" ++ collidingTagA u ++ ":" ++ "1") := by
  rw [String.ext_iff]
  simp only [collidingTagA, collidingTag1, collidingTag2, String.data_append,
    List.append_assoc]

theorem colliding_tag_ne_empty (u : String) :
    collidingTagA u ≠ "" ∧ collidingTag1 u ≠ "" ∧ collidingTag2 u ≠ "" ∧
    collidingTag1 u ≠ collidingTag2 u := by
  refine ⟨?_, ?_, ?_, ?_⟩ <;> intro h <;> rw [String.ext_iff] at h <;>
    simp [collidingTagA, collidingTag1, collidingTag2, String.data_append] at h

/-- The two colliding Freight are hashed as the same text, whatever the functions that
`GenerateID` calls do. -/
theorem colliding_hashed_eq (fns : IDFunctions) (origin : FreightOrigin) (url : String) :
    GenerateID.hashed fns (collidingFreight origin url (fns.normalizeURL url)
        (collidingTag1 (fns.normalizeURL url))) =
      GenerateID.hashed fns (collidingFreight origin url (fns.normalizeURL url)
        (collidingTag2 (fns.normalizeURL url))) := by
  obtain ⟨hA, h1, h2, _⟩ := colliding_tag_ne_empty (fns.normalizeURL url)
  have hle1 := le_of_lt (colliding_lt_first (fns.normalizeURL url))
  have hle2 := not_le.mpr (colliding_lt_second (fns.normalizeURL url))
  simp only [GenerateID.hashed, GenerateID.artifacts, collidingFreight, List.map_cons,
    List.map_nil, List.append_nil, GenerateID.commitArtifact, hA, h1, h2, ne_eq,
    not_false_eq_true, if_true, List.insertionSort, List.orderedInsert, hle1, hle2, if_false,
    String.intercalate, String.intercalate.go]
  rw [colliding_join]

/-- C20 fails on the code: the two Freight `collidingFreight origin url u tag`, with `u` the
normalized URL, differ only in the tag of their second commit, `2:1|u` against `1|u:2`, two
different non-empty tags on the same repository and commit ID, and yet `GenerateID` hashes
the same text for both, so they get the same ID, although the canonical representations of
the two commits differ. The artifacts are joined with a vertical bar that the tags contain
as well. -/
theorem generateID_tag_collision (fns : IDFunctions) (origin : FreightOrigin) (url : String) :
    collidingTag1 (fns.normalizeURL url) ≠ collidingTag2 (fns.normalizeURL url) ∧
    collidingTag1 (fns.normalizeURL url) ≠ "" ∧
    collidingTag2 (fns.normalizeURL url) ≠ "" ∧
    GenerateID.commitArtifact fns
        { RepoURL := url, ID := "1", Tag := collidingTag1 (fns.normalizeURL url) } ≠
      GenerateID.commitArtifact fns
        { RepoURL := url, ID := "1", Tag := collidingTag2 (fns.normalizeURL url) } ∧
    GenerateID.hashed fns (collidingFreight origin url (fns.normalizeURL url)
        (collidingTag1 (fns.normalizeURL url))) =
      GenerateID.hashed fns (collidingFreight origin url (fns.normalizeURL url)
        (collidingTag2 (fns.normalizeURL url))) ∧
    GenerateID fns (collidingFreight origin url (fns.normalizeURL url)
        (collidingTag1 (fns.normalizeURL url))) =
      GenerateID fns (collidingFreight origin url (fns.normalizeURL url)
        (collidingTag2 (fns.normalizeURL url))) := by
  obtain ⟨_, h1, h2, hne⟩ := colliding_tag_ne_empty (fns.normalizeURL url)
  exact ⟨hne, h1, h2, commitArtifact_ne fns _ _ rfl rfl hne,
    colliding_hashed_eq fns origin url,
    congrArg fns.sha1Hex (colliding_hashed_eq fns origin url)⟩

/-- The collision on the stand-in functions, for a repository on GitHub: the two Freight
differ in the tag of the second commit only, and both are hashed as the same text. -/
theorem colliding_hashed_example :
    collidingFreight ⟨"Warehouse", "w"⟩ "https://github.com/example/repo"
        "https://github.com/example/repo" "2:1|https://github.com/example/repo" =
      { Origin := ⟨"Warehouse", "w"⟩
        Commits := [⟨"https://github.com/example/repo", "1",
            "1|https://github.com/example/repo:2:1|https://github.com/example/repo"⟩,
          ⟨"https://github.com/example/repo", "1", "2:1|https://github.com/example/repo"⟩]
        Images := [], Charts := [] } ∧
    GenerateID.hashed plainIDFunctions (collidingFreight ⟨"Warehouse", "w"⟩
        "https://github.com/example/repo" "https://github.com/example/repo"
        "2:1|https://github.com/example/repo") =
      GenerateID.hashed plainIDFunctions (collidingFreight ⟨"Warehouse", "w"⟩
        "https://github.com/example/repo" "https://github.com/example/repo"
        "1|https://github.com/example/repo:2") :=
  ⟨by decide, colliding_hashed_eq plainIDFunctions ⟨"Warehouse", "w"⟩
    "https://github.com/example/repo"⟩

/-! ## Properties of the Freight status helpers -/

theorem mapSet_same {α : Type} (m : String → Option α) (key : String) (value : α) :
    mapSet m key value key = some value := by
  simp [mapSet]

theorem mapSet_other {α : Type} (m : String → Option α) (key other : String) (value : α)
    (h : other ≠ key) : mapSet m key value other = m other := by
  simp [mapSet, h]

theorem mapSet_mapSet {α : Type} (m : String → Option α) (key : String) (v w : α) :
    mapSet (mapSet m key v) key w = mapSet m key w := by
  funext k
  simp only [mapSet]
  split <;> rfl

theorem mapIndex_mapDelete_same {α : Type} (m : Option (String → Option α)) (key : String) :
    mapIndex (mapDelete m key) key = none := by
  cases m <;> simp [mapIndex, mapDelete]

theorem mapIndex_mapDelete_other {α : Type} (m : Option (String → Option α))
    (key other : String) (h : other ≠ key) :
    mapIndex (mapDelete m key) other = mapIndex m other := by
  cases m <;> simp [mapIndex, mapDelete, h]

/-- What `GetLongestSoak` returns when it returns: zero when the Freight is not verified in
the stage; otherwise the greater of `L`, the recorded longest completed soak, zero if none
is recorded, and `C`, which is zero if the stage is not current and the time elapsed since
the time of entry if the stage is current and its record carries one in the field
`Since`. -/
theorem getLongestSoak_spec (timeSince : Time → Duration) (status : FreightStatus)
    (stage : String) :
    (IsVerifiedIn status stage = false → GetLongestSoak timeSince status stage = some 0) ∧
    (∀ record, mapIndex status.VerifiedIn stage = some record →
      (IsCurrentlyIn status stage = false →
        GetLongestSoak timeSince status stage =
          some (max (record.LongestCompletedSoak.getD 0) 0)) ∧
      (∀ current since, mapIndex status.CurrentlyIn stage = some current →
        current.Since = some since →
        GetLongestSoak timeSince status stage =
          some (max (record.LongestCompletedSoak.getD 0) (timeSince since)))) := by
  refine ⟨?_, ?_⟩
  · intro h
    have hv : mapIndex status.VerifiedIn stage = none := by
      simpa [IsVerifiedIn] using h
    simp [GetLongestSoak, hv]
  · intro record hrec
    have hL : (match record.LongestCompletedSoak with
        | some soak => soak
        | none => (0 : Duration)) = record.LongestCompletedSoak.getD 0 := by
      cases record.LongestCompletedSoak <;> rfl
    refine ⟨?_, ?_⟩
    · intro h
      have hc : mapIndex status.CurrentlyIn stage = none := by
        simpa [IsCurrentlyIn] using h
      simp only [GetLongestSoak, hrec, hc, hL]
    · intro current since hc hs
      simp only [GetLongestSoak, hrec, hc, hs, hL]

/-- C21 fails on the code: the stage "test" is verified with a longest completed soak of 10
and current with a record that carries no time of entry, and `GetLongestSoak`, whatever the
clock, panics on the nil `Since` instead of returning a soak time; on the same status with
the stage not current, and on a status with the time of entry recorded, it returns. -/
theorem getLongestSoak_panics (timeSince : Time → Duration) :
    IsVerifiedIn currentWithoutSince "test" = true ∧
    mapIndex currentWithoutSince.VerifiedIn "test" =
      some { VerifiedAt := some 5, LongestCompletedSoak := some 10 } ∧
    mapIndex currentWithoutSince.CurrentlyIn "test" = some { Since := none } ∧
    GetLongestSoak timeSince currentWithoutSince "test" = none ∧
    GetLongestSoak timeSince { currentWithoutSince with CurrentlyIn := none } "test" =
      some 10 ∧
    GetLongestSoak timeSince soakedStatus "test" = some (max 10 (timeSince 0)) :=
  ⟨by decide, by decide, by decide, rfl, rfl, rfl⟩

/-- What `RemoveCurrentStage` does when it returns: with the stage current, its record
carrying a time of entry `Since`, and verified with a recorded longest completed soak `L`,
the status returned has the stage no longer current and the greater of `L` and the time
elapsed since `Since`, which is at least `L`, as the recorded longest completed soak; when
the stage is not current the status is returned unchanged. -/
theorem removeCurrentStage_spec (timeSince : Time → Duration) (f : FreightStatus)
    (stage : String) :
    (∀ record verified since L, mapIndex f.CurrentlyIn stage = some record →
      record.Since = some since → mapIndex f.VerifiedIn stage = some verified →
      verified.LongestCompletedSoak = some L →
      ∃ f', RemoveCurrentStage timeSince f stage = some f' ∧
        IsCurrentlyIn f' stage = false ∧
        (∃ verified', mapIndex f'.VerifiedIn stage = some verified' ∧
          verified'.LongestCompletedSoak = some (max L (timeSince since))) ∧
        L ≤ max L (timeSince since)) ∧
    (IsCurrentlyIn f stage = false → RemoveCurrentStage timeSince f stage = some f) := by
  refine ⟨?_, ?_⟩
  · intro record verified since L hcur hsince hver hL
    cases hmap : f.VerifiedIn with
    | none => simp [mapIndex, hmap] at hver
    | some entries =>
      have hent : entries stage = some verified := by
        simpa [mapIndex, hmap] using hver
      by_cases hlt : L < timeSince since
      · have hres : RemoveCurrentStage timeSince f stage =
            some { f with
              VerifiedIn := some (mapSet entries stage
                { VerifiedAt := none, LongestCompletedSoak := some (timeSince since) })
              CurrentlyIn := mapDelete f.CurrentlyIn stage } := by
          simp only [RemoveCurrentStage, hcur, hmap, hent, hsince, hL, hlt, if_true]
        refine ⟨_, hres, ?_, ?_, le_max_left _ _⟩
        · simp [IsCurrentlyIn, mapIndex_mapDelete_same]
        · exact ⟨{ VerifiedAt := none, LongestCompletedSoak := some (timeSince since) },
            by simp [mapIndex, mapSet], by simp [max_eq_right (le_of_lt hlt)]⟩
      · have hres : RemoveCurrentStage timeSince f stage =
            some { f with CurrentlyIn := mapDelete f.CurrentlyIn stage } := by
          simp only [RemoveCurrentStage, hcur, hmap, hent, hsince, hL, hlt, if_false]
        refine ⟨_, hres, ?_, ?_, le_max_left _ _⟩
        · simp [IsCurrentlyIn, mapIndex_mapDelete_same]
        · exact ⟨verified, by simp [mapIndex, hmap, hent],
            by simp [hL, max_eq_left (not_lt.mp hlt)]⟩
  · intro h
    have hc : mapIndex f.CurrentlyIn stage = none := by
      simpa [IsCurrentlyIn] using h
    simp [RemoveCurrentStage, hc]

theorem addCurrentStage_present (f : FreightStatus) (stage : String) (since : Time)
    (record : CurrentStage) (h : mapIndex f.CurrentlyIn stage = some record) :
    AddCurrentStage f stage since = f := by
  simp only [AddCurrentStage, h]

theorem addCurrentStage_index (f : FreightStatus) (stage : String) (since : Time) :
    mapIndex (AddCurrentStage f stage since).CurrentlyIn stage =
      some ((mapIndex f.CurrentlyIn stage).getD { Since := some since }) := by
  cases h : mapIndex f.CurrentlyIn stage with
  | some record => rw [addCurrentStage_present f stage since record h, h]; rfl
  | none =>
    simp only [AddCurrentStage, h]
    simp [mapIndex, mapSet]

theorem addVerifiedStage_present (f : FreightStatus) (stage : String) (verifiedAt : Time)
    (record : VerifiedStage) (h : mapIndex f.VerifiedIn stage = some record) :
    AddVerifiedStage f stage verifiedAt = f := by
  simp only [AddVerifiedStage, h]

theorem addVerifiedStage_index (f : FreightStatus) (stage : String) (verifiedAt : Time) :
    mapIndex (AddVerifiedStage f stage verifiedAt).VerifiedIn stage =
      some ((mapIndex f.VerifiedIn stage).getD
        { VerifiedAt := some verifiedAt, LongestCompletedSoak := none }) := by
  cases h : mapIndex f.VerifiedIn stage with
  | some record => rw [addVerifiedStage_present f stage verifiedAt record h, h]; rfl
  | none =>
    simp only [AddVerifiedStage, h]
    simp [mapIndex, mapSet]

theorem addApprovedStage_present (f : FreightStatus) (stage : String) (approvedAt : Time)
    (record : ApprovedStage) (h : mapIndex f.ApprovedFor stage = some record) :
    AddApprovedStage f stage approvedAt = f := by
  simp only [AddApprovedStage, h]

theorem addApprovedStage_index (f : FreightStatus) (stage : String) (approvedAt : Time) :
    mapIndex (AddApprovedStage f stage approvedAt).ApprovedFor stage =
      some ((mapIndex f.ApprovedFor stage).getD { ApprovedAt := some approvedAt }) := by
  cases h : mapIndex f.ApprovedFor stage with
  | some record => rw [addApprovedStage_present f stage approvedAt record h, h]; rfl
  | none =>
    simp only [AddApprovedStage, h]
    simp [mapIndex, mapSet]

/-- C23: after `AddCurrentStage`, `AddVerifiedStage` and `AddApprovedStage` the stage is
present in the corresponding map, which a nil map included; the record found there is the
one that was there before, if there was one, and a new one with the given time otherwise;
when the stage was already present the status is returned as it was; and applying an
operation a second time, with any time, gives the status obtained by applying it once. -/
theorem addStage_idempotent (f : FreightStatus) (stage : String) (t t' : Time) :
    (IsCurrentlyIn (AddCurrentStage f stage t) stage = true ∧
      mapIndex (AddCurrentStage f stage t).CurrentlyIn stage =
        some ((mapIndex f.CurrentlyIn stage).getD { Since := some t }) ∧
      (IsCurrentlyIn f stage = true → AddCurrentStage f stage t = f) ∧
      AddCurrentStage (AddCurrentStage f stage t) stage t' = AddCurrentStage f stage t) ∧
    (IsVerifiedIn (AddVerifiedStage f stage t) stage = true ∧
      mapIndex (AddVerifiedStage f stage t).VerifiedIn stage =
        some ((mapIndex f.VerifiedIn stage).getD
          { VerifiedAt := some t, LongestCompletedSoak := none }) ∧
      (IsVerifiedIn f stage = true → AddVerifiedStage f stage t = f) ∧
      AddVerifiedStage (AddVerifiedStage f stage t) stage t' = AddVerifiedStage f stage t) ∧
    (IsApprovedFor (AddApprovedStage f stage t) stage = true ∧
      mapIndex (AddApprovedStage f stage t).ApprovedFor stage =
        some ((mapIndex f.ApprovedFor stage).getD { ApprovedAt := some t }) ∧
      (IsApprovedFor f stage = true → AddApprovedStage f stage t = f) ∧
      AddApprovedStage (AddApprovedStage f stage t) stage t' = AddApprovedStage f stage t) := by
  refine ⟨⟨?_, addCurrentStage_index f stage t, ?_, ?_⟩,
    ⟨?_, addVerifiedStage_index f stage t, ?_, ?_⟩,
    ⟨?_, addApprovedStage_index f stage t, ?_, ?_⟩⟩
  · simp [IsCurrentlyIn, addCurrentStage_index]
  · intro h
    obtain ⟨record, hrec⟩ := Option.isSome_iff_exists.mp h
    exact addCurrentStage_present f stage t record hrec
  · exact addCurrentStage_present _ stage t' _ (addCurrentStage_index f stage t)
  · simp [IsVerifiedIn, addVerifiedStage_index]
  · intro h
    obtain ⟨record, hrec⟩ := Option.isSome_iff_exists.mp h
    exact addVerifiedStage_present f stage t record hrec
  · exact addVerifiedStage_present _ stage t' _ (addVerifiedStage_index f stage t)
  · simp [IsApprovedFor, addApprovedStage_index]
  · intro h
    obtain ⟨record, hrec⟩ := Option.isSome_iff_exists.mp h
    exact addApprovedStage_present f stage t record hrec
  · exact addApprovedStage_present _ stage t' _ (addApprovedStage_index f stage t)

/-- The three operations on the empty status, whose maps are nil: the stage is present
afterwards. -/
theorem addStage_example :
    IsCurrentlyIn (AddCurrentStage FreightStatus.empty "test" 7) "test" = true ∧
    IsVerifiedIn (AddVerifiedStage FreightStatus.empty "test" 5) "test" = true ∧
    IsApprovedFor (AddApprovedStage FreightStatus.empty "test" 3) "test" = true ∧
    mapIndex (AddCurrentStage (AddCurrentStage FreightStatus.empty "test" 7) "test"
      9).CurrentlyIn "test" = some { Since := some 7 } := by
  decide

/-- The entries of the other stages are left as they were by `RemoveCurrentStage`,
whenever it returns. -/
theorem removeCurrentStage_frame (timeSince : Time → Duration) (f f' : FreightStatus)
    (stage other : String) (hother : other ≠ stage)
    (h : RemoveCurrentStage timeSince f stage = some f') :
    mapIndex f'.CurrentlyIn other = mapIndex f.CurrentlyIn other ∧
    mapIndex f'.VerifiedIn other = mapIndex f.VerifiedIn other ∧
    f'.ApprovedFor = f.ApprovedFor := by
  unfold RemoveCurrentStage at h
  cases hcur : mapIndex f.CurrentlyIn stage with
  | none =>
    simp only [hcur, Option.some.injEq] at h
    subst h
    exact ⟨rfl, rfl, rfl⟩
  | some record =>
    cases hmap : f.VerifiedIn with
    | none =>
      simp only [hcur, hmap, Option.some.injEq] at h
      subst h
      exact ⟨mapIndex_mapDelete_other _ _ _ hother, by simp [hmap], rfl⟩
    | some entries =>
      cases hent : entries stage with
      | none =>
        simp only [hcur, hmap, hent, Option.some.injEq] at h
        subst h
        exact ⟨mapIndex_mapDelete_other _ _ _ hother, by simp [hmap], rfl⟩
      | some verified =>
        cases hs : record.Since with
        | none => simp [hcur, hmap, hent, hs] at h
        | some since =>
          cases hl : verified.LongestCompletedSoak with
          | none => simp [hcur, hmap, hent, hs, hl] at h
          | some longest =>
            by_cases hlt : longest < timeSince since
            · simp only [hcur, hmap, hent, hs, hl, hlt, if_true, Option.some.injEq] at h
              subst h
              exact ⟨mapIndex_mapDelete_other _ _ _ hother,
                by simp [mapIndex, mapSet, hother], rfl⟩
            · simp only [hcur, hmap, hent, hs, hl, hlt, if_false, Option.some.injEq] at h
              subst h
              exact ⟨mapIndex_mapDelete_other _ _ _ hother, by simp [hmap], rfl⟩

/-- C22 fails on the code: the stage "test" is current and verified with a recorded longest
completed soak of 10, the current record carries no time of entry, and `RemoveCurrentStage`,
whatever the clock, panics on the nil `Since` instead of returning a status in which the
stage is no longer current. -/
theorem removeCurrentStage_nil_since (timeSince : Time → Duration) :
    IsCurrentlyIn currentWithoutSince "test" = true ∧
    mapIndex currentWithoutSince.CurrentlyIn "test" = some { Since := none } ∧
    (∃ verified, mapIndex currentWithoutSince.VerifiedIn "test" = some verified ∧
      verified.LongestCompletedSoak = some 10) ∧
    (RemoveCurrentStage timeSince currentWithoutSince "test").isNone = true :=
  ⟨by decide, by decide, ⟨_, rfl, rfl⟩, rfl⟩

/-- C26 fails on the code: the stage "test" is current since time 0 and verified at time 5
with a longest completed soak of 10; at time 100 `RemoveCurrentStage` records the soak of
100 by storing a new verification record, and the `VerifiedAt` of the stage, which was 5,
is nil afterwards. -/
theorem removeCurrentStage_drops_verifiedAt :
    mapIndex soakedStatus.VerifiedIn "test" =
      some { VerifiedAt := some 5, LongestCompletedSoak := some 10 } ∧
    (RemoveCurrentStage sampleTimeSince soakedStatus "test").map
        (fun f' => mapIndex f'.VerifiedIn "test") =
      some (some { VerifiedAt := none, LongestCompletedSoak := some 100 }) := by
  decide

/-- C27 fails on the code: in the status reached from the empty one by `AddVerifiedStage`
and then `AddCurrentStage` the stage "test" is current and verified with no longest
completed soak recorded, and `RemoveCurrentStage` panics on the nil pointer instead of
returning a status. -/
theorem removeCurrentStage_panics :
    IsCurrentlyIn verifiedThenCurrent "test" = true ∧
    mapIndex verifiedThenCurrent.VerifiedIn "test" =
      some { VerifiedAt := some 5, LongestCompletedSoak := none } ∧
    (RemoveCurrentStage sampleTimeSince verifiedThenCurrent "test").isNone = true := by
  decide

/-! ## Properties of the annotation helpers -/

/-- What `ReverifyAnnotationValue` and `AbortVerificationAnnotationValue` return when the
annotation is present: they return the request unmarshalled from the value if the
value is valid JSON that unmarshals with no error into a request that has an ID, and they
return the request whose ID is the value if the value is not valid JSON and that request
has an ID; a request that has no ID is never returned. -/
theorem verification_request_value (AnnotationKeyReverify AnnotationKeyAbort : String)
    (jsonValid : String → Bool) (unmarshal : String → Except Error VerificationRequest)
    (hasID : VerificationRequest → Bool) (annotations : String → Option String)
    (reverify abort : String)
    (hreverify : annotations AnnotationKeyReverify = some reverify)
    (habort : annotations AnnotationKeyAbort = some abort) :
    ((∀ vr, jsonValid reverify = true → unmarshal reverify = .ok vr → hasID vr = true →
        ReverifyAnnotationValue AnnotationKeyReverify jsonValid unmarshal hasID annotations
          = (some vr, true)) ∧
      (jsonValid reverify = false → hasID { ID := reverify, Fields := [] } = true →
        ReverifyAnnotationValue AnnotationKeyReverify jsonValid unmarshal hasID annotations
          = (some { ID := reverify, Fields := [] }, true)) ∧
      (∀ vr ok, ReverifyAnnotationValue AnnotationKeyReverify jsonValid unmarshal hasID
          annotations = (some vr, ok) → hasID vr = true)) ∧
    ((∀ vr, jsonValid abort = true → unmarshal abort = .ok vr → hasID vr = true →
        AbortVerificationAnnotationValue AnnotationKeyAbort jsonValid unmarshal hasID
          annotations = (some vr, true)) ∧
      (jsonValid abort = false → hasID { ID := abort, Fields := [] } = true →
        AbortVerificationAnnotationValue AnnotationKeyAbort jsonValid unmarshal hasID
          annotations = (some { ID := abort, Fields := [] }, true)) ∧
      (∀ vr ok, AbortVerificationAnnotationValue AnnotationKeyAbort jsonValid unmarshal hasID
          annotations = (some vr, ok) → hasID vr = true)) := by
  refine ⟨⟨?_, ?_, ?_⟩, ⟨?_, ?_, ?_⟩⟩
  · intro vr hv hu hid
    simp [ReverifyAnnotationValue, hreverify, hv, hu, hid]
  · intro hv hid
    simp [ReverifyAnnotationValue, hreverify, hv, hid]
  · intro vr ok h
    unfold ReverifyAnnotationValue at h
    simp only [hreverify] at h
    split at h
    · simp at h
    · rename_i vr' hparsed
      by_cases hid : hasID vr' = true
      · simp only [hid, Bool.not_true, Bool.false_eq_true, if_false, Prod.mk.injEq,
          Option.some.injEq] at h
        rw [← h.1]; exact hid
      · simp [hid] at h
  · intro vr hv hu hid
    simp [AbortVerificationAnnotationValue, habort, hv, hu, hid]
  · intro hv hid
    simp [AbortVerificationAnnotationValue, habort, hv, hid]
  · intro vr ok h
    unfold AbortVerificationAnnotationValue at h
    simp only [habort] at h
    split at h
    · simp at h
    · rename_i vr' hparsed
      by_cases hid : hasID vr' = true
      · simp only [hid, Bool.not_true, Bool.false_eq_true, if_false, Prod.mk.injEq,
          Option.some.injEq] at h
        rw [← h.1]; exact hid
      · simp [hid] at h

/-- A verification ID that is not JSON is returned as the ID of the request. -/
theorem verification_request_value_witness :
    ReverifyAnnotationValue "reverify" sampleJSONValid sampleUnmarshal sampleHasID
        (sampleAnnotations "fake-id") = (some { ID := "fake-id", Fields := [] }, true) ∧
    AbortVerificationAnnotationValue "abort" sampleJSONValid sampleUnmarshal sampleHasID
        (sampleAnnotations "fake-id") = (some { ID := "fake-id", Fields := [] }, true) :=
  ⟨(verification_request_value "reverify" "abort" sampleJSONValid sampleUnmarshal
      sampleHasID (sampleAnnotations "fake-id") "fake-id" "fake-id" rfl rfl).1.2.1
      (by decide) (by decide),
   (verification_request_value "reverify" "abort" sampleJSONValid sampleUnmarshal
      sampleHasID (sampleAnnotations "fake-id") "fake-id" "fake-id" rfl rfl).2.2.1
      (by decide) (by decide)⟩

/-- C24 fails on the code: with the annotation present and the empty text as its value,
which is not valid JSON, `ReverifyAnnotationValue` and `AbortVerificationAnnotationValue`
return no request, so none whose ID is the value; and with the value 123, which is valid
JSON and no JSON object, they return no request either, the error of `json.Unmarshal`
ending the call. -/
theorem verification_request_value_dropped :
    sampleAnnotations "" "reverify" = some "" ∧
    sampleAnnotations "" "abort" = some "" ∧
    sampleJSONValid "" = false ∧
    ReverifyAnnotationValue "reverify" sampleJSONValid sampleUnmarshal sampleHasID
        (sampleAnnotations "") = (none, false) ∧
    AbortVerificationAnnotationValue "abort" sampleJSONValid sampleUnmarshal sampleHasID
        (sampleAnnotations "") = (none, false) ∧
    sampleAnnotations "123" "reverify" = some "123" ∧
    sampleAnnotations "123" "abort" = some "123" ∧
    sampleJSONValid "123" = true ∧
    ReverifyAnnotationValue "reverify" sampleJSONValid sampleUnmarshal sampleHasID
        (sampleAnnotations "123") = (none, false) ∧
    AbortVerificationAnnotationValue "abort" sampleJSONValid sampleUnmarshal sampleHasID
        (sampleAnnotations "123") = (none, false) := by
  decide

/-- What the boolean returned by `ReverifyAnnotationValue`,
`AbortVerificationAnnotationValue` and `AbortPromotionAnnotationValue` tells: it is true
exactly when a request is returned; it is false when the annotation key is not in the map,
so a true boolean means that the key is there; and with the key there it is true exactly
when the value gives a request that has an ID, or an action that is not empty. -/
theorem annotation_present_flag (AnnotationKeyReverify AnnotationKeyAbort : String)
    (jsonValid : String → Bool) (unmarshal : String → Except Error VerificationRequest)
    (unmarshalAbort : String → Except Error AbortPromotionRequest)
    (hasID : VerificationRequest → Bool) (annotations : String → Option String) :
    (((ReverifyAnnotationValue AnnotationKeyReverify jsonValid unmarshal hasID annotations).2
          = true ↔
        (ReverifyAnnotationValue AnnotationKeyReverify jsonValid unmarshal hasID
          annotations).1 ≠ none) ∧
      (annotations AnnotationKeyReverify = none →
        ReverifyAnnotationValue AnnotationKeyReverify jsonValid unmarshal hasID annotations
          = (none, false)) ∧
      ((ReverifyAnnotationValue AnnotationKeyReverify jsonValid unmarshal hasID annotations).2
          = true →
        ∃ requested, annotations AnnotationKeyReverify = some requested ∧
          ∃ vr, (if jsonValid requested then unmarshal requested
              else .ok { ID := requested, Fields := [] }) = .ok vr ∧ hasID vr = true)) ∧
    (((AbortVerificationAnnotationValue AnnotationKeyAbort jsonValid unmarshal hasID
          annotations).2 = true ↔
        (AbortVerificationAnnotationValue AnnotationKeyAbort jsonValid unmarshal hasID
          annotations).1 ≠ none) ∧
      (annotations AnnotationKeyAbort = none →
        AbortVerificationAnnotationValue AnnotationKeyAbort jsonValid unmarshal hasID
          annotations = (none, false)) ∧
      ((AbortVerificationAnnotationValue AnnotationKeyAbort jsonValid unmarshal hasID
          annotations).2 = true →
        ∃ requested, annotations AnnotationKeyAbort = some requested ∧
          ∃ vr, (if jsonValid requested then unmarshal requested
              else .ok { ID := requested, Fields := [] }) = .ok vr ∧ hasID vr = true)) ∧
    (((AbortPromotionAnnotationValue AnnotationKeyAbort jsonValid unmarshalAbort
          annotations).2 = true ↔
        (AbortPromotionAnnotationValue AnnotationKeyAbort jsonValid unmarshalAbort
          annotations).1 ≠ none) ∧
      (annotations AnnotationKeyAbort = none →
        AbortPromotionAnnotationValue AnnotationKeyAbort jsonValid unmarshalAbort annotations
          = (none, false)) ∧
      ((AbortPromotionAnnotationValue AnnotationKeyAbort jsonValid unmarshalAbort
          annotations).2 = true →
        ∃ requested, annotations AnnotationKeyAbort = some requested ∧
          ∃ apr, (if jsonValid requested then unmarshalAbort requested
              else .ok { Action := requested, Fields := [] }) = .ok apr ∧
            apr.Action ≠ "")) := by
  refine ⟨⟨?_, ?_, ?_⟩, ⟨?_, ?_, ?_⟩, ⟨?_, ?_, ?_⟩⟩
  · unfold ReverifyAnnotationValue
    cases annotations AnnotationKeyReverify with
    | none => simp
    | some requested =>
      simp only
      split
      · simp
      · split <;> simp
  · intro h
    simp [ReverifyAnnotationValue, h]
  · unfold ReverifyAnnotationValue
    cases annotations AnnotationKeyReverify with
    | none => simp
    | some requested =>
      simp only
      split
      · simp
      · rename_i vr hparsed
        by_cases hid : hasID vr = true
        · intro _
          exact ⟨requested, rfl, vr, hparsed, hid⟩
        · simp [hid]
  · unfold AbortVerificationAnnotationValue
    cases annotations AnnotationKeyAbort with
    | none => simp
    | some requested =>
      simp only
      split
      · simp
      · split <;> simp
  · intro h
    simp [AbortVerificationAnnotationValue, h]
  · unfold AbortVerificationAnnotationValue
    cases annotations AnnotationKeyAbort with
    | none => simp
    | some requested =>
      simp only
      split
      · simp
      · rename_i vr hparsed
        by_cases hid : hasID vr = true
        · intro _
          exact ⟨requested, rfl, vr, hparsed, hid⟩
        · simp [hid]
  · unfold AbortPromotionAnnotationValue
    cases annotations AnnotationKeyAbort with
    | none => simp
    | some requested =>
      simp only
      split
      · simp
      · split <;> simp
  · intro h
    simp [AbortPromotionAnnotationValue, h]
  · unfold AbortPromotionAnnotationValue
    cases annotations AnnotationKeyAbort with
    | none => simp
    | some requested =>
      simp only
      split
      · simp
      · rename_i apr hparsed
        by_cases hact : apr.Action = ""
        · simp [hact]
        · intro _
          exact ⟨requested, rfl, apr, hparsed, hact⟩

/-- C25 fails on the code: the annotation keys are in the map, with the empty text as
value, and the boolean returned by each of the three functions, which is to tell whether
the annotation was present, is false. -/
theorem present_key_reported_absent :
    sampleAnnotations "" "reverify" ≠ none ∧
    sampleAnnotations "" "abort" ≠ none ∧
    (ReverifyAnnotationValue "reverify" sampleJSONValid sampleUnmarshal sampleHasID
        (sampleAnnotations "")).2 = false ∧
    (AbortVerificationAnnotationValue "abort" sampleJSONValid sampleUnmarshal sampleHasID
        (sampleAnnotations "")).2 = false ∧
    (AbortPromotionAnnotationValue "abort" sampleJSONValid sampleUnmarshalAbort
        (sampleAnnotations "")).2 = false := by
  decide

/-- Sorting two lists of strings that are permutations of each other gives the same list. -/
theorem insertionSort_eq_of_perm (l₁ l₂ : List String) (h : l₁.Perm l₂) :
    l₁.insertionSort (fun a b => a ≤ b) = l₂.insertionSort (fun a b => a ≤ b) := by
  haveI : IsTotal String (fun a b => a ≤ b) := ⟨le_total⟩
  haveI : IsTrans String (fun a b => a ≤ b) := ⟨fun _ _ _ => le_trans⟩
  haveI : IsAntisymm String (fun a b => a ≤ b) := ⟨fun _ _ => le_antisymm⟩
  refine List.eq_of_perm_of_sorted (r := fun a b : String => a ≤ b) ?_
    (List.sorted_insertionSort _ l₁) (List.sorted_insertionSort _ l₂)
  exact ((List.perm_insertionSort _ l₁).trans h).trans (List.perm_insertionSort _ l₂).symm

/-- C28: two Freight with the same Origin whose Commits, Images and Charts are the same up
to their order get the same ID from `GenerateID`, the text that is hashed being the same;
in particular equal Freight get equal IDs. -/
theorem generateID_perm (fns : IDFunctions) (f g : Freight)
    (horigin : f.Origin = g.Origin) (hcommits : f.Commits.Perm g.Commits)
    (himages : f.Images.Perm g.Images) (hcharts : f.Charts.Perm g.Charts) :
    GenerateID.hashed fns f = GenerateID.hashed fns g ∧
    GenerateID fns f = GenerateID fns g := by
  have hart : (GenerateID.artifacts fns f).Perm (GenerateID.artifacts fns g) := by
    unfold GenerateID.artifacts
    exact ((hcommits.map _).append (himages.map _)).append (hcharts.map _)
  have hhashed : GenerateID.hashed fns f = GenerateID.hashed fns g := by
    unfold GenerateID.hashed
    rw [horigin, insertionSort_eq_of_perm _ _ hart]
  exact ⟨hhashed, congrArg fns.sha1Hex hhashed⟩

/-- A Freight with two commits and two images, and the same Freight with both lists
reversed, get the same ID. -/
theorem generateID_perm_witness :
    reversedFreight.Origin = orderedFreight.Origin ∧
    reversedFreight.Commits.Perm orderedFreight.Commits ∧
    reversedFreight.Images.Perm orderedFreight.Images ∧
    GenerateID plainIDFunctions reversedFreight = GenerateID plainIDFunctions orderedFreight :=
  ⟨rfl, List.Perm.swap _ _ [], List.Perm.swap _ _ [],
   (generateID_perm plainIDFunctions reversedFreight orderedFreight rfl
      (List.Perm.swap _ _ []) (List.Perm.swap _ _ []) (List.Perm.refl [])).2⟩

end Kargo
